import Mathlib

/-!
# Freelance-bidding marketplace backend: project lifecycle

A shallow embedding of the route handlers of `src/controllers/*.js` (Express
handlers over a Prisma store) as pure functions over an explicit `Store`, and
the properties of the project lifecycle proved about them.

Layout: JavaScript values and the builtins the handlers apply to request
fields; the store and its records; the handlers; the step relation; theorems.
-/

namespace Marketplace

/-! ## JavaScript numbers and request values -/

/-- A JavaScript number. A finite double is the exact rational it denotes. -/
inductive JsNum where
  | nan
  | negInf
  | fin (q : ℚ)
  | posInf
  deriving DecidableEq, Repr

namespace JsNum

/-- JS `a < b` on numbers: false as soon as one side is `NaN`. -/
def lt : JsNum → JsNum → Bool
  | nan, _ => false
  | _, nan => false
  | negInf, negInf => false
  | negInf, _ => true
  | fin _, negInf => false
  | fin a, fin b => decide (a < b)
  | fin _, posInf => true
  | posInf, _ => false

/-- JS `a > b`. -/
def gt (a b : JsNum) : Bool := lt b a

/-- JS `a <= b`: `b < a` is evaluated and the answer is `false` when that
comparison is `true` or undefined (a `NaN` operand). -/
def le : JsNum → JsNum → Bool
  | nan, _ => false
  | _, nan => false
  | a, b => !(lt b a)

/-- JS `a >= b`. -/
def ge (a b : JsNum) : Bool := le b a

/-- The range condition `lo <= x <= hi` of the specification: both comparisons
hold, which they never do when an operand is `NaN`. -/
def Within (lo x hi : JsNum) : Prop := le lo x = true ∧ le x hi = true

instance (lo x hi : JsNum) : Decidable (Within lo x hi) := by
  unfold Within; infer_instance

/-- Number negation. -/
def neg : JsNum → JsNum
  | nan => nan
  | negInf => posInf
  | fin q => fin (-q)
  | posInf => negInf

/-- JS truthiness of a number: `0` and `NaN` are falsy. -/
def truthy : JsNum → Bool
  | nan => false
  | fin q => decide (q ≠ 0)
  | _ => true

end JsNum

/-- A value a JSON or url-encoded request body can carry in one field
(`undefined` is an absent field). Arrays and nested objects are not modelled. -/
inductive JsVal where
  | undefined
  | null
  | bool (b : Bool)
  | num (n : JsNum)
  | str (s : String)
  deriving DecidableEq, Repr

/-! ### Rounding to binary64

The value of a numeric literal, and the sum and the quotient of two numbers,
are the exact results rounded to the nearest binary64 number, a tie going to
the even significand. Zero carries no sign here. -/

/-- Nearest whole number to `n / d`, a tie going to the even one. -/
def roundHalfEven (n d : Nat) : Nat :=
  if 2 * (n % d) < d then n / d
  else if d < 2 * (n % d) then n / d + 1
  else if (n / d) % 2 = 0 then n / d else n / d + 1

/-- Whole part of the base-2 logarithm of a positive number, by halving (the
first argument bounds the number of halvings). -/
def log2Floor : Nat → Nat → Nat
  | 0, _ => 0
  | fuel + 1, n => if 2 ≤ n then log2Floor fuel (n / 2) + 1 else 0

/-- Whether `2 ^ c ≤ n / d`. -/
def pow2Le (c : Int) (n d : Nat) : Bool :=
  if 0 ≤ c then decide (2 ^ c.toNat * d ≤ n) else decide (d ≤ n * 2 ^ (-c).toNat)

/-- The binade of `n / d` for positive `n` and `d`: the `e` with
`2 ^ e ≤ n / d < 2 ^ (e + 1)`. -/
def binade (n d : Nat) : Int :=
  let c : Int := (log2Floor n n : Int) - (log2Floor d d : Int)
  if pow2Le c n d then c else c - 1

/-- `m * 2 ^ e` as an exact rational. -/
def scale2 (m : Int) (e : Int) : ℚ :=
  if 0 ≤ e then ((m * 2 ^ e.toNat : Int) : ℚ) else mkRat m (2 ^ (-e).toNat)

/-- The binary64 number nearest to a rational, as IEEE 754 rounds to nearest
with ties to even: the significand has 53 bits in the binade of the number, the
binade is not below that of the subnormals (exponent -1022, so the spacing is
never finer than `2 ^ -1074`), and a result of magnitude `2 ^ 1024` or more is
an infinity. -/
def roundBinary64 (q : ℚ) : JsNum :=
  if q = 0 then .fin 0
  else
    let n := q.num.natAbs
    let d := q.den
    let e := max (binade n d) (-1022)
    let m := if e ≤ 52 then roundHalfEven (n * 2 ^ (52 - e).toNat) d
      else roundHalfEven n (d * 2 ^ (e - 52).toNat)
    if 1024 ≤ e ∨ (e = 1023 ∧ m = 2 ^ 53) then (if q < 0 then .negInf else .posInf)
    else .fin (scale2 (if q < 0 then -(m : Int) else m) (e - 52))

/-! ### String to number conversions -/

/-- Decimal digit test. -/
def isDigit (c : Char) : Bool := decide (48 ≤ c.toNat) && decide (c.toNat ≤ 57)

/-- White space and line terminators skipped by `parseFloat` and `Number`. -/
def isJsSpace (c : Char) : Bool :=
  let n := c.toNat
  decide (n = 9 ∨ n = 10 ∨ n = 11 ∨ n = 12 ∨ n = 13 ∨ n = 32 ∨ n = 160 ∨ n = 5760
    ∨ (8192 ≤ n ∧ n ≤ 8202) ∨ n = 8232 ∨ n = 8233 ∨ n = 8239 ∨ n = 8287 ∨ n = 12288
    ∨ n = 65279)

/-- Longest run of leading decimal digits, and what follows it. -/
def spanDigits : List Char → List Char × List Char
  | [] => ([], [])
  | c :: cs =>
    if isDigit c then ((c :: (spanDigits cs).1), (spanDigits cs).2) else ([], c :: cs)

/-- Value of a run of decimal digits. -/
def digitsValue (ds : List Char) : Nat :=
  ds.foldl (fun acc c => 10 * acc + (c.toNat - 48)) 0

/-- Drop leading white space. -/
def trimStart : List Char → List Char
  | [] => []
  | c :: cs => if isJsSpace c then trimStart cs else c :: cs

/-- Whether `p` is an initial segment of `cs`. -/
def startsWith : List Char → List Char → Bool
  | [], _ => true
  | _ :: _, [] => false
  | p :: ps, c :: cs => decide (p = c) && startsWith ps cs

/-- `m * 10 ^ e` as an exact rational. -/
def scale10 (m : Nat) (e : Int) : ℚ :=
  if 0 ≤ e then ((m * 10 ^ e.toNat : Nat) : ℚ) else mkRat (m : Int) (10 ^ (-e).toNat)

/-- An `ExponentPart` (`e` or `E`, optional sign, at least one digit) at the
head of the input, when there is one: its value and the rest. -/
def parseExponent (cs : List Char) : Int × List Char :=
  match cs with
  | c :: rest =>
    if c.toNat = 101 ∨ c.toNat = 69 then
      let signed : Bool × List Char :=
        match rest with
        | s :: r => if s.toNat = 43 then (false, r) else if s.toNat = 45 then (true, r)
                    else (false, rest)
        | [] => (false, [])
      let ds := spanDigits signed.2
      if ds.1.isEmpty then (0, cs)
      else ((if signed.1 then -(digitsValue ds.1 : Int) else (digitsValue ds.1 : Int)), ds.2)
    else (0, cs)
  | [] => (0, [])

/-- Longest prefix that is a `StrUnsignedDecimalLiteral` (`Infinity`,
`digits[.digits][exp]`, `.digits[exp]`): its value, the decimal value rounded
to binary64, and the rest. -/
def parseUnsignedDecimal (cs : List Char) : Option (JsNum × List Char) :=
  if startsWith "Infinity".toList cs then some (JsNum.posInf, cs.drop 8)
  else
    let ip := spanDigits cs
    match ip.2 with
    | c :: r2 =>
      if c.toNat = 46 then
        let fp := spanDigits r2
        if ip.1.isEmpty && fp.1.isEmpty then none
        else
          let ex := parseExponent fp.2
          some (roundBinary64 (scale10 (digitsValue (ip.1 ++ fp.1)) (ex.1 - (fp.1.length : Int))),
            ex.2)
      else if ip.1.isEmpty then none
      else
        let ex := parseExponent ip.2
        some (roundBinary64 (scale10 (digitsValue ip.1) ex.1), ex.2)
    | [] => if ip.1.isEmpty then none else some (roundBinary64 (digitsValue ip.1 : ℚ), [])

/-- Longest prefix that is a `StrDecimalLiteral` (optional sign). -/
def parseDecimal (cs : List Char) : Option (JsNum × List Char) :=
  match cs with
  | c :: rest =>
    if c.toNat = 43 then parseUnsignedDecimal rest
    else if c.toNat = 45 then
      (parseUnsignedDecimal rest).map (fun r => (JsNum.neg r.1, r.2))
    else parseUnsignedDecimal cs
  | [] => none

/-- JS `parseFloat` on a string: leading white space is skipped, the longest
decimal-literal prefix is read and trailing text ignored; `NaN` without one. -/
def parseFloatStr (s : String) : JsNum :=
  match parseDecimal (trimStart s.toList) with
  | some r => r.1
  | none => JsNum.nan

/-- JS `parseFloat(v)`: the argument is converted to a string first, so a
number reads back as itself and `undefined`, `null`, booleans give `NaN`. -/
def parseFloat : JsVal → JsNum
  | .num n => n
  | .str s => parseFloatStr s
  | _ => JsNum.nan

/-- Value of one digit in radix at most 16, when it is one. -/
def radixDigit (radix : Nat) (c : Char) : Option Nat :=
  let n := c.toNat
  let v : Option Nat :=
    if 48 ≤ n ∧ n ≤ 57 then some (n - 48)
    else if 97 ≤ n ∧ n ≤ 102 then some (n - 87)
    else if 65 ≤ n ∧ n ≤ 70 then some (n - 55)
    else none
  v.bind (fun d => if d < radix then some d else none)

/-- Value of a non-empty run of digits in the radix; `none` on any other text. -/
def radixValue (radix : Nat) : List Char → Option Nat → Option Nat
  | [], acc => acc
  | c :: cs, acc =>
    match radixDigit radix c with
    | some d => radixValue radix cs (some (radix * acc.getD 0 + d))
    | none => none

/-- JS `Number(string)`: white space trimmed at both ends, the empty string is
`0`, and the whole remainder must be one numeric literal (decimal, or `0x`,
`0o`, `0b` integer), else `NaN`. -/
def stringToNumber (s : String) : JsNum :=
  let body := (trimStart (trimStart s.toList).reverse).reverse
  match body with
  | [] => JsNum.fin 0
  | z :: x :: rest =>
    let radix : Option Nat :=
      if z.toNat = 48 then
        if x.toNat = 120 ∨ x.toNat = 88 then some 16
        else if x.toNat = 111 ∨ x.toNat = 79 then some 8
        else if x.toNat = 98 ∨ x.toNat = 66 then some 2
        else none
      else none
    match radix with
    | some r =>
      match radixValue r rest none with
      | some v => roundBinary64 (v : ℚ)
      | none => JsNum.nan
    | none =>
      match parseDecimal body with
      | some (v, []) => v
      | _ => JsNum.nan
  | _ =>
    match parseDecimal body with
    | some (v, []) => v
    | _ => JsNum.nan

/-- JS `ToNumber`, applied by `<` and `>` when the other operand is a number. -/
def toNumber : JsVal → JsNum
  | .undefined => JsNum.nan
  | .null => JsNum.fin 0
  | .bool b => JsNum.fin (if b then 1 else 0)
  | .num n => n
  | .str s => stringToNumber s

/-- JS truthiness: `!v` is `!(truthy v)`. -/
def truthy : JsVal → Bool
  | .undefined => false
  | .null => false
  | .bool b => b
  | .num n => n.truthy
  | .str s => !s.isEmpty

/-! ### Dates -/

/-- A JS `Date`: its time value in milliseconds since the epoch, `none` for an
Invalid Date (time value `NaN`). -/
abbrev JsDate := Option Int

/-- The number a `Date` converts to under `<`, `<=`, `>`. -/
def JsDate.toNum : JsDate → JsNum
  | none => JsNum.nan
  | some t => JsNum.fin (t : ℚ)

/-- `TimeClip`: a non-finite time or one beyond 8.64e15 ms in magnitude is
`NaN`; any other is truncated to an integer. -/
def timeClip : JsNum → JsDate
  | .fin q => if |q| ≤ 8640000000000000 then some (Int.tdiv q.num q.den) else none
  | _ => none

/-- Exactly `k` decimal digits at the head of the input: their value (added to
`acc` shifted) and the rest. -/
def takeNum : Nat → Nat → List Char → Option (Nat × List Char)
  | 0, acc, cs => some (acc, cs)
  | k + 1, acc, c :: cs => if isDigit c then takeNum k (10 * acc + (c.toNat - 48)) cs else none
  | _ + 1, _, [] => none

/-- The given character code at the head of the input: the rest. -/
def expectChar (code : Nat) : List Char → Option (List Char)
  | c :: cs => if c.toNat = code then some cs else none
  | [] => none

/-- Days from 1970-01-01 to the given proleptic Gregorian date. -/
def daysFromCivil (y m d : Int) : Int :=
  let y1 := if m ≤ 2 then y - 1 else y
  let era := y1 / 400
  let yoe := y1 - era * 400
  let mp := (m + 9) % 12
  let doy := (153 * mp + 2) / 5 + d - 1
  let doe := yoe * 365 + yoe / 4 - yoe / 100 + doy
  era * 146097 + doe - 719468

/-- Number of days of a month. -/
def daysInMonth (y m : Nat) : Nat :=
  if m = 2 then (if (y % 4 = 0 ∧ y % 100 ≠ 0) ∨ y % 400 = 0 then 29 else 28)
  else if m = 4 ∨ m = 6 ∨ m = 9 ∨ m = 11 then 30 else 31

/-- Milliseconds into the day of `HH:mm[:ss[.sss]]Z`, the whole input. -/
def parseTimeOfDay (cs : List Char) : Option Int := do
  let hh ← takeNum 2 0 cs
  let r2 ← expectChar 58 hh.2
  let mi ← takeNum 2 0 r2
  let ss ← (match expectChar 58 mi.2 with
    | some r => takeNum 2 0 r
    | none => some (0, mi.2))
  let ms ← (match expectChar 46 ss.2 with
    | some r => takeNum 3 0 r
    | none => some (0, ss.2))
  let r6 ← expectChar 90 ms.2
  if r6.isEmpty ∧ hh.1 < 24 ∧ mi.1 < 60 ∧ ss.1 < 60 then
    some ((((hh.1 * 60 + mi.1) * 60 + ss.1) * 1000 + ms.1 : Nat) : Int)
  else none

/-- JS `Date.parse` on the ECMAScript date-time string format in UTC:
`YYYY-MM-DD` and `YYYY-MM-DDTHH:mm[:ss[.sss]]Z`. Text in any other form is
implementation-defined in ECMAScript; here it is an Invalid Date, as it is in
every engine for text without a digit. -/
def dateParse (s : String) : JsDate := do
  let y ← takeNum 4 0 s.toList
  let r1 ← expectChar 45 y.2
  let m ← takeNum 2 0 r1
  let r2 ← expectChar 45 m.2
  let d ← takeNum 2 0 r2
  if 1 ≤ m.1 ∧ m.1 ≤ 12 ∧ 1 ≤ d.1 ∧ d.1 ≤ daysInMonth y.1 m.1 then
    let day : Int := daysFromCivil y.1 m.1 d.1 * 86400000
    match d.2 with
    | [] => some day
    | t :: rest => if t.toNat = 84 then (parseTimeOfDay rest).map (fun ms => day + ms) else none
  else none

/-- JS `new Date(v)`: a string is parsed, any other value is converted to a
number of milliseconds and clipped. -/
def newDate : JsVal → JsDate
  | .str s => dateParse s
  | v => timeClip (toNumber v)

/-! ## Records of the store -/

/-- Record identifiers (Prisma `id` columns). -/
abbrev Id := Nat

/-- User roles. -/
inductive Role where
  | BUYER
  | SELLER
  deriving DecidableEq, Repr

/-- Project lifecycle states. -/
inductive Status where
  | PENDING
  | IN_PROGRESS
  | COMPLETED
  deriving DecidableEq, Repr

/-- A user row; `password` holds the bcrypt hash. -/
structure User where
  id : Id
  name : String
  email : String
  password : String
  role : Role
  deriving DecidableEq, Repr

/-- A project row. -/
structure Project where
  id : Id
  title : String
  description : String
  budgetMin : JsNum
  budgetMax : JsNum
  deadline : JsDate
  status : Status
  selectedBidId : Option Id
  buyerId : Id
  createdAt : Int
  deriving DecidableEq, Repr

/-- A bid row. -/
structure Bid where
  id : Id
  bidAmount : JsNum
  estimatedCompletion : JsDate
  message : String
  projectId : Id
  sellerId : Id
  deriving DecidableEq, Repr

/-- A deliverable row. -/
structure Deliverable where
  id : Id
  fileUrl : String
  description : Option String
  projectId : Id
  createdAt : Int
  deriving DecidableEq, Repr

/-- A review row. -/
structure Review where
  id : Id
  rating : ℚ
  reviewText : Option String
  buyerId : Id
  sellerId : Id
  projectId : Id
  createdAt : Int
  deriving DecidableEq, Repr

/-- The relational store behind `req.prisma`: the tables in insertion order
and the supply of fresh identifiers. -/
structure Store where
  users : List User
  projects : List Project
  bids : List Bid
  deliverables : List Deliverable
  reviews : List Review
  nextId : Id
  deriving DecidableEq, Repr

/-- The store before any request. -/
def Store.empty : Store := ⟨[], [], [], [], [], 0⟩

/-! ## Store operations (the Prisma client calls the handlers make)

A call stores the values it is given when they have the type of their column
(a number, `NaN` included, for a numeric column; a `Date`, an invalid one
included, for a date column). -/

namespace Store

/-- The `project.findUnique` call by id. -/
def findProject (s : Store) (id : Id) : Option Project :=
  s.projects.find? (fun p => decide (p.id = id))

/-- The `user.findUnique` call by id. -/
def findUser (s : Store) (id : Id) : Option User :=
  s.users.find? (fun u => decide (u.id = id))

/-- The `user.findUnique` call by email. -/
def findUserByEmail (s : Store) (email : String) : Option User :=
  s.users.find? (fun u => decide (u.email = email))

/-- The bid a relation field (`selectedBid`) resolves to. -/
def findBid (s : Store) (id : Id) : Option Bid :=
  s.bids.find? (fun b => decide (b.id = id))

/-- The `selectedBid` relation of a project. -/
def selectedBid (s : Store) (p : Project) : Option Bid :=
  p.selectedBidId.bind s.findBid

/-- The `review` relation of a project. -/
def reviewOf (s : Store) (p : Project) : Option Review :=
  s.reviews.find? (fun r => decide (r.projectId = p.id))

/-- The `deliverable.findMany` call for one project. -/
def deliverablesOf (s : Store) (projectId : Id) : List Deliverable :=
  s.deliverables.filter (fun d => decide (d.projectId = projectId))

/-- Modelled from the spec: the Prisma schema is absent from src. A created
project gets a fresh id, status PENDING and no selected bid (the CreateProject
row of the transition table: from none to PENDING). -/
def insertProject (s : Store) (now : Int) (title description : String)
    (budgetMin budgetMax : JsNum) (deadline : JsDate) (buyerId : Id) : Project × Store :=
  let project : Project :=
    { id := s.nextId, title := title, description := description, budgetMin := budgetMin,
      budgetMax := budgetMax, deadline := deadline, status := Status.PENDING,
      selectedBidId := none, buyerId := buyerId, createdAt := now }
  (project, { s with projects := s.projects ++ [project], nextId := s.nextId + 1 })

/-- The `project.update` call: the row with that id is rewritten. -/
def updateProject (s : Store) (id : Id) (f : Project → Project) : Store :=
  { s with projects := s.projects.map (fun p => if p.id = id then f p else p) }

/-- Modelled from the spec: the Prisma schema is absent from src. Deleting a
project removes it and cascades to its bids, deliverables and review (the
DeleteProject row: remove project and cascade). -/
def deleteProject (s : Store) (id : Id) : Store :=
  { s with
    projects := s.projects.filter (fun p => decide (p.id ≠ id))
    bids := s.bids.filter (fun b => decide (b.projectId ≠ id))
    deliverables := s.deliverables.filter (fun d => decide (d.projectId ≠ id))
    reviews := s.reviews.filter (fun r => decide (r.projectId ≠ id)) }

/-- The `bid.create` call: a fresh id, the data as passed. -/
def insertBid (s : Store) (bidAmount : JsNum) (estimatedCompletion : JsDate)
    (message : String) (projectId sellerId : Id) : Bid × Store :=
  let bid : Bid :=
    { id := s.nextId, bidAmount := bidAmount, estimatedCompletion := estimatedCompletion,
      message := message, projectId := projectId, sellerId := sellerId }
  (bid, { s with bids := s.bids ++ [bid], nextId := s.nextId + 1 })

/-- The `deliverable.create` call. -/
def insertDeliverable (s : Store) (now : Int) (fileUrl : String)
    (description : Option String) (projectId : Id) : Deliverable × Store :=
  let d : Deliverable :=
    { id := s.nextId, fileUrl := fileUrl, description := description,
      projectId := projectId, createdAt := now }
  (d, { s with deliverables := s.deliverables ++ [d], nextId := s.nextId + 1 })

/-- The `review.create` call on a numeric rating. -/
def insertReview (s : Store) (now : Int) (rating : ℚ) (reviewText : Option String)
    (buyerId sellerId projectId : Id) : Review × Store :=
  let r : Review :=
    { id := s.nextId, rating := rating, reviewText := reviewText, buyerId := buyerId,
      sellerId := sellerId, projectId := projectId, createdAt := now }
  (r, { s with reviews := s.reviews ++ [r], nextId := s.nextId + 1 })

/-- Modelled from the spec: the Prisma schema is absent from src. The rating
column is numeric (`rating` in 1 to 5), and the handler passes the body's
value as it came: `review.create` stores a finite number and throws on a value
of any other type. -/
def createReview (s : Store) (now : Int) (rating : JsVal) (reviewText : Option String)
    (buyerId sellerId projectId : Id) : Option (Review × Store) :=
  match rating with
  | .num (.fin q) => some (s.insertReview now q reviewText buyerId sellerId projectId)
  | _ => none

/-- The `user.create` call. -/
def insertUser (s : Store) (name email password : String) (role : Role) : User × Store :=
  let u : User :=
    { id := s.nextId, name := name, email := email, password := password, role := role }
  (u, { s with users := s.users ++ [u], nextId := s.nextId + 1 })

end Store

/-! ## Requests, responses and outside services -/

/-- Modelled from the spec: `utils/errorHandler.js` is absent from src. A
domain error carries its message and the HTTP status of the response. -/
structure AppError where
  message : String
  statusCode : Nat
  deriving DecidableEq, Repr

/-- How a handler ends without sending a response itself: a domain error given
to `next`, or an exception of a store or service call. -/
inductive Failure where
  | app (e : AppError)
  | thrown (what : String)
  deriving DecidableEq, Repr

/-- A response sent with `res.status(status).json(...)`; `data` is the payload. -/
structure Reply (α : Type) where
  status : Nat
  data : α
  deriving DecidableEq, Repr

/-- Result of a handler that may write to the store. -/
abbrev Outcome (α : Type) := Except Failure (Reply α × Store)

/-- The HTTP status of the response the client gets: the reply's own, the
domain error's, or 500 for any other exception. -/
def Outcome.httpStatus {α : Type} : Outcome α → Nat
  | .ok r => r.1.status
  | .error (.app e) => e.statusCode
  | .error (.thrown _) => 500

/-- The store after the request: a handler that fails has written nothing. -/
def Outcome.storeAfter {α : Type} (s : Store) : Outcome α → Store
  | .ok r => r.2
  | .error _ => s

/-- An email handed to the notification service (`emailService.js`). -/
inductive Mail where
  | bidSelection (email name projectTitle : String)
  | projectCompletion (email name projectTitle role : String)
  deriving DecidableEq, Repr

/-- The outside services: bcrypt, the token signer, the mailer (`false` when
sending throws) and the file upload (`none` when the upload is rejected). -/
structure Services where
  hash : String → String
  compare : String → String → Bool
  sign : Id → String
  sendMail : Mail → Bool
  upload : String → Option String

/-- JS truthiness of an optional text field (absent and empty are falsy). -/
def textTruthy : Option String → Bool
  | none => false
  | some t => !t.isEmpty

/-- Body of `POST /api/projects` and `PATCH /api/projects/:id`. -/
structure ProjectBody where
  title : Option String
  description : Option String
  budgetMin : JsVal
  budgetMax : JsVal
  deadline : JsVal
  deriving DecidableEq, Repr

/-- Body of `POST /api/bids/:projectId`. -/
structure BidBody where
  bidAmount : JsVal
  estimatedCompletion : JsVal
  message : Option String
  deriving DecidableEq, Repr

/-- Body of `POST /api/reviews/:projectId`. -/
structure ReviewBody where
  rating : JsVal
  reviewText : Option String
  deriving DecidableEq, Repr

/-- Body of `POST /api/auth/register`. -/
structure RegisterBody where
  name : Option String
  email : Option String
  password : Option String
  role : Option String
  deriving DecidableEq, Repr

/-- Body of `POST /api/auth/login`. -/
structure LoginBody where
  email : Option String
  password : Option String
  deriving DecidableEq, Repr

/-- The `select: {id, name, email}` projection of a user. -/
structure UserCard where
  id : Id
  name : String
  email : String
  deriving DecidableEq, Repr

/-- A user row with the `password` field removed. -/
structure UserWithoutPassword where
  id : Id
  name : String
  email : String
  role : Role
  deriving DecidableEq, Repr

/-- The projection `{password: _, ...userWithoutPassword}`. -/
def User.withoutPassword (u : User) : UserWithoutPassword :=
  { id := u.id, name := u.name, email := u.email, role := u.role }

/-- The projection `select: {id, name, email}`. -/
def User.card (u : User) : UserCard := { id := u.id, name := u.name, email := u.email }

/-- Payload of register and login. -/
structure AuthData where
  token : String
  user : UserWithoutPassword
  deriving DecidableEq, Repr

/-- A bid with its `seller` relation under `select: {id, name, email}`. -/
structure BidWithSeller where
  bid : Bid
  seller : Option UserCard
  deriving DecidableEq, Repr

/-- A bid with its `seller` relation under `seller: true` (the whole row). -/
structure BidWithSellerRow where
  bid : Bid
  seller : Option User
  deriving DecidableEq, Repr

/-- Payload of selectBid: the updated project with `selectedBid` included. -/
structure SelectedProject where
  project : Project
  selectedBid : Option BidWithSellerRow
  deriving DecidableEq, Repr

/-- Text of a number inside a message: JS `Number::toString` for an integer;
any other finite value is written as its exact fraction. -/
def JsNum.render : JsNum → String
  | .nan => "NaN"
  | .posInf => "Infinity"
  | .negInf => "-Infinity"
  | .fin q => if q.den = 1 then toString q.num else toString q.num ++ "/" ++ toString q.den

/-- Shorthand for `next(new AppError(message, statusCode))`. -/
def fail {α : Type} (message : String) (statusCode : Nat) : Except Failure α :=
  .error (.app ⟨message, statusCode⟩)

/-! ## Handlers

Each handler takes what the request carries (`req.user` as resolved by the
`protect` middleware, route parameters, body), the clock reading `now` of
`new Date()`, and the store; guards are tested in the order of the source. -/

/-- Handler `register` of `auth.controller.js`. -/
def register (sv : Services) (body : RegisterBody) (s : Store) : Outcome AuthData :=
  if !textTruthy body.name || !textTruthy body.email || !textTruthy body.password
      || !textTruthy body.role then
    fail "Please provide name, email, password, and role" 400
  else if body.role ≠ some "BUYER" ∧ body.role ≠ some "SELLER" then
    fail "Role must be either BUYER or SELLER" 400
  else
    match s.findUserByEmail (body.email.getD "") with
    | some _ => fail "User already exists with this email" 400
    | none =>
      let hashedPassword := sv.hash (body.password.getD "")
      let created := s.insertUser (body.name.getD "") (body.email.getD "") hashedPassword
        (if body.role = some "BUYER" then Role.BUYER else Role.SELLER)
      let token := sv.sign created.1.id
      .ok (⟨201, ⟨token, created.1.withoutPassword⟩⟩, created.2)

/-- Handler `login` of `auth.controller.js` (it reads the store only). -/
def login (sv : Services) (body : LoginBody) (s : Store) : Except Failure (Reply AuthData) :=
  if !textTruthy body.email || !textTruthy body.password then
    fail "Please provide email and password" 400
  else
    match s.findUserByEmail (body.email.getD "") with
    | none => fail "Invalid email or password" 401
    | some user =>
      if !sv.compare (body.password.getD "") user.password then
        fail "Invalid email or password" 401
      else
        .ok ⟨200, ⟨sv.sign user.id, user.withoutPassword⟩⟩

/-- Handler `createProject` of `project.controller.js`. -/
def createProject (now : Int) (user : User) (body : ProjectBody) (s : Store) :
    Outcome Project :=
  if user.role ≠ Role.BUYER then fail "Only buyers can create projects" 403
  else if !textTruthy body.title || !textTruthy body.description || !truthy body.budgetMin
      || !truthy body.budgetMax || !truthy body.deadline then
    fail "Please provide title, description, budgetMin, budgetMax, and deadline" 400
  else if JsNum.ge (parseFloat body.budgetMin) (parseFloat body.budgetMax) then
    fail "Minimum budget must be less than maximum budget" 400
  else
    let deadlineDate := newDate body.deadline
    if JsNum.le deadlineDate.toNum (JsDate.toNum (some now)) then
      fail "Deadline must be in the future" 400
    else
      let created := s.insertProject now (body.title.getD "") (body.description.getD "")
        (parseFloat body.budgetMin) (parseFloat body.budgetMax) deadlineDate user.id
      .ok (⟨201, created.1⟩, created.2)

/-- The `data` of the `project.update` call of `updateProject`: a field whose
value is `undefined` is left as it is. -/
def applyProjectPatch (body : ProjectBody) (deadlineDate : Option JsDate) (p : Project) :
    Project :=
  { p with
    title := body.title.getD p.title
    description := body.description.getD p.description
    budgetMin := if truthy body.budgetMin then parseFloat body.budgetMin else p.budgetMin
    budgetMax := if truthy body.budgetMax then parseFloat body.budgetMax else p.budgetMax
    deadline := deadlineDate.getD p.deadline }

/-- Handler `updateProject` of `project.controller.js`. -/
def updateProject (now : Int) (user : User) (id : Id) (body : ProjectBody) (s : Store) :
    Outcome Project :=
  match s.findProject id with
  | none => fail "Project not found" 404
  | some project =>
    if project.buyerId ≠ user.id then
      fail "You do not have permission to update this project" 403
    else if project.status ≠ Status.PENDING then
      fail "Cannot update a project that is already in progress or completed" 400
    else if truthy body.budgetMin && truthy body.budgetMax
        && JsNum.ge (parseFloat body.budgetMin) (parseFloat body.budgetMax) then
      fail "Minimum budget must be less than maximum budget" 400
    else
      let deadlineDate : Option JsDate :=
        if truthy body.deadline then some (newDate body.deadline) else none
      if truthy body.deadline
          && JsNum.le (newDate body.deadline).toNum (JsDate.toNum (some now)) then
        fail "Deadline must be in the future" 400
      else
        .ok (⟨200, applyProjectPatch body deadlineDate project⟩,
          s.updateProject id (applyProjectPatch body deadlineDate))

/-- Handler `deleteProject` of `project.controller.js`. -/
def deleteProject (user : User) (id : Id) (s : Store) : Outcome Unit :=
  match s.findProject id with
  | none => fail "Project not found" 404
  | some project =>
    if project.buyerId ≠ user.id then
      fail "You do not have permission to delete this project" 403
    else if project.status ≠ Status.PENDING then
      fail "Cannot delete a project that is already in progress or completed" 400
    else
      .ok (⟨204, ()⟩, s.deleteProject id)

/-- Handler `createBid` of `bid.controller.js`. -/
def createBid (now : Int) (user : User) (projectId : Id) (body : BidBody) (s : Store) :
    Outcome BidWithSeller :=
  if user.role ≠ Role.SELLER then fail "Only sellers can create bids" 403
  else if !truthy body.bidAmount || !truthy body.estimatedCompletion
      || !textTruthy body.message then
    fail "Please provide bidAmount, estimatedCompletion, and message" 400
  else
    match s.findProject projectId with
    | none => fail "Project not found" 404
    | some project =>
      if project.status ≠ Status.PENDING then
        fail "Cannot bid on a project that is not in PENDING status" 400
      else
        match s.bids.find? (fun b => decide (b.projectId = projectId ∧ b.sellerId = user.id)) with
        | some _ => fail "You have already bid on this project" 400
        | none =>
          if JsNum.lt (parseFloat body.bidAmount) project.budgetMin
              || JsNum.gt (parseFloat body.bidAmount) project.budgetMax then
            fail ("Bid amount must be between " ++ project.budgetMin.render ++ " and "
              ++ project.budgetMax.render) 400
          else
            let completionDate := newDate body.estimatedCompletion
            if JsNum.le completionDate.toNum (JsDate.toNum (some now)) then
              fail "Estimated completion date must be in the future" 400
            else if JsNum.gt completionDate.toNum project.deadline.toNum then
              fail "Estimated completion date cannot be after the project deadline" 400
            else
              let created := s.insertBid (parseFloat body.bidAmount) completionDate
                (body.message.getD "") projectId user.id
              .ok (⟨201, ⟨created.1, (created.2.findUser user.id).map User.card⟩⟩, created.2)

/-- Handler `selectBid` of `bid.controller.js`. The notification is sent inside
`try`/`catch`: whether it is delivered has no effect on what follows. -/
def selectBid (sv : Services) (user : User) (projectId bidId : Id) (s : Store) :
    Outcome SelectedProject :=
  if user.role ≠ Role.BUYER then fail "Only buyers can select bids" 403
  else
    match s.findProject projectId with
    | none => fail "Project not found" 404
    | some project =>
      if project.buyerId ≠ user.id then
        fail "You do not have permission to select a bid for this project" 403
      else if project.status ≠ Status.PENDING then
        fail "Cannot select a bid for a project that is not in PENDING status" 400
      else
        match s.bids.find? (fun b => decide (b.id = bidId ∧ b.projectId = projectId)) with
        | none => fail "Bid not found for this project" 404
        | some bid =>
          let after := s.updateProject projectId
            (fun p => { p with selectedBidId := some bidId, status := Status.IN_PROGRESS })
          let updatedProject : Project :=
            { project with selectedBidId := some bidId, status := Status.IN_PROGRESS }
          let _delivered := (s.findUser bid.sellerId).map
            (fun seller => sv.sendMail (.bidSelection seller.email seller.name project.title))
          .ok (⟨200, ⟨updatedProject, (after.selectedBid updatedProject).map
            (fun b => ⟨b, after.findUser b.sellerId⟩)⟩⟩, after)

/-- Handler `submitDeliverable` of `deliverable.controller.js`; `file` is the
uploaded buffer, absent when the request carries none. -/
def submitDeliverable (sv : Services) (now : Int) (user : User) (projectId : Id)
    (file : Option String) (description : Option String) (s : Store) : Outcome Deliverable :=
  if user.role ≠ Role.SELLER then fail "Only sellers can submit deliverables" 403
  else
    match file with
    | none => fail "Please provide a file" 400
    | some buffer =>
      match s.findProject projectId with
      | none => fail "Project not found" 404
      | some project =>
        if project.status ≠ Status.IN_PROGRESS then
          fail "Cannot submit deliverables for a project that is not in progress" 400
        else
          match s.selectedBid project with
          | none => fail "You are not the selected seller for this project" 403
          | some selected =>
            if selected.sellerId ≠ user.id then
              fail "You are not the selected seller for this project" 403
            else
              match sv.upload buffer with
              | none => .error (.thrown "upload")
              | some secureUrl =>
                let created := s.insertDeliverable now secureUrl description projectId
                .ok (⟨201, created.1⟩, created.2)

/-- Handler `completeProject` of `deliverable.controller.js`. Both
notifications are sent inside `try`/`catch`. -/
def completeProject (sv : Services) (user : User) (projectId : Id) (s : Store) :
    Outcome Project :=
  if user.role ≠ Role.BUYER then fail "Only buyers can mark projects as complete" 403
  else
    match s.findProject projectId with
    | none => fail "Project not found" 404
    | some project =>
      if project.buyerId ≠ user.id then
        fail "You do not have permission to complete this project" 403
      else if project.status ≠ Status.IN_PROGRESS then
        fail "Cannot complete a project that is not in progress" 400
      else if (s.deliverablesOf projectId).length = 0 then
        fail "Cannot complete a project with no deliverables" 400
      else
        let after := s.updateProject projectId (fun p => { p with status := Status.COMPLETED })
        let _notified := (s.findUser project.buyerId).map (fun buyer =>
          sv.sendMail (.projectCompletion buyer.email buyer.name project.title "buyer")
          && (((s.selectedBid project).bind (fun b => s.findUser b.sellerId)).map
            (fun seller => sv.sendMail
              (.projectCompletion seller.email seller.name project.title "seller"))).getD true)
        .ok (⟨200, { project with status := Status.COMPLETED }⟩, after)

/-- Handler `createReview` of `review.controller.js`. The body's `rating` goes
to `review.create` as it came; an exception of that call reaches the client as
a 500. -/
def createReview (now : Int) (user : User) (projectId : Id) (body : ReviewBody) (s : Store) :
    Outcome Review :=
  if user.role ≠ Role.BUYER then fail "Only buyers can create reviews" 403
  else if !truthy body.rating || JsNum.lt (toNumber body.rating) (JsNum.fin 1)
      || JsNum.gt (toNumber body.rating) (JsNum.fin 5) then
    fail "Rating must be between 1 and 5" 400
  else
    match s.findProject projectId with
    | none => fail "Project not found" 404
    | some project =>
      if project.buyerId ≠ user.id then
        fail "You do not have permission to review this project" 403
      else if project.status ≠ Status.COMPLETED then
        fail "Cannot review a project that is not completed" 400
      else if (s.reviewOf project).isSome then
        fail "A review already exists for this project" 400
      else
        match s.selectedBid project with
        | none => fail "This project does not have a selected seller to review" 400
        | some selected =>
          match s.createReview now body.rating body.reviewText user.id selected.sellerId
              projectId with
          | some created => .ok (⟨201, created.1⟩, created.2)
          | none => .error (.thrown "PrismaClientValidationError")

/-! ## Arithmetic on numbers

The sum and the quotient of two JavaScript numbers are the exact results
rounded to binary64. -/

/-- JS `a + b` on numbers. -/
def JsNum.add : JsNum → JsNum → JsNum
  | .nan, _ => .nan
  | _, .nan => .nan
  | .posInf, .negInf => .nan
  | .negInf, .posInf => .nan
  | .posInf, _ => .posInf
  | _, .posInf => .posInf
  | .negInf, _ => .negInf
  | _, .negInf => .negInf
  | .fin a, .fin b => roundBinary64 (a + b)

/-- JS `a / b` on numbers. -/
def JsNum.div : JsNum → JsNum → JsNum
  | .nan, _ => .nan
  | _, .nan => .nan
  | .fin _, .posInf => .fin 0
  | .fin _, .negInf => .fin 0
  | .fin a, .fin b =>
    if b = 0 then (if a = 0 then .nan else if a < 0 then .negInf else .posInf)
    else roundBinary64 (a / b)
  | .posInf, .fin b => if b < 0 then .negInf else .posInf
  | .negInf, .fin b => if b < 0 then .posInf else .negInf
  | _, _ => .nan

/-- A review with the `buyer` and `project` relations as `getSellerReviews`
selects them. -/
structure ReviewView where
  review : Review
  buyer : Option (Id × String)
  project : Option (Id × String)
  deriving DecidableEq, Repr

/-- Payload of `getSellerReviews`. -/
structure SellerReviews where
  reviews : List ReviewView
  averageRating : JsNum
  deriving DecidableEq, Repr

/-- The `review.findMany` call of `getSellerReviews`: the seller's reviews,
newest first. -/
def reviewsOfSeller (s : Store) (sellerId : Id) : List Review :=
  (s.reviews.filter (fun r => decide (r.sellerId = sellerId))).insertionSort
    (fun a b => b.createdAt ≤ a.createdAt)

/-- Handler `getSellerReviews` of `review.controller.js`. The `reduce` adds the
ratings with the number `+`, and the average is the number quotient `/` of that
total by `reviews.length`. -/
def getSellerReviews (sellerId : Id) (s : Store) : Except Failure (Reply SellerReviews) :=
  match s.users.find? (fun u => decide (u.id = sellerId ∧ u.role = Role.SELLER)) with
  | none => fail "Seller not found" 404
  | some _ =>
    let reviews := reviewsOfSeller s sellerId
    let totalRating : JsNum :=
      reviews.foldl (fun sum review => JsNum.add sum (.fin review.rating)) (.fin 0)
    let averageRating : JsNum :=
      if reviews.length > 0 then JsNum.div totalRating (.fin reviews.length) else .fin 0
    .ok ⟨200, ⟨reviews.map (fun r => ⟨r, (s.findUser r.buyerId).map (fun u => (u.id, u.name)),
      (s.findProject r.projectId).map (fun p => (p.id, p.title))⟩), averageRating⟩⟩

/-! ## The step relation -/

/-- A request to one of the handlers that write to the store. -/
inductive Action where
  | register (body : RegisterBody)
  | createProject (now : Int) (user : User) (body : ProjectBody)
  | updateProject (now : Int) (user : User) (id : Id) (body : ProjectBody)
  | deleteProject (user : User) (id : Id)
  | createBid (now : Int) (user : User) (projectId : Id) (body : BidBody)
  | selectBid (user : User) (projectId bidId : Id)
  | submitDeliverable (now : Int) (user : User) (projectId : Id) (file : Option String)
      (description : Option String)
  | completeProject (user : User) (projectId : Id)
  | createReview (now : Int) (user : User) (projectId : Id) (body : ReviewBody)

/-- The authenticated caller of a request (`register` has none). -/
def Action.caller : Action → Option User
  | .register _ => none
  | .createProject _ u _ => some u
  | .updateProject _ u _ _ => some u
  | .deleteProject u _ => some u
  | .createBid _ u _ _ => some u
  | .selectBid u _ _ => some u
  | .submitDeliverable _ u _ _ _ => some u
  | .completeProject u _ => some u
  | .createReview _ u _ _ => some u

/-- The store a successful handler leaves. -/
def Outcome.written {α : Type} : Outcome α → Option Store
  | .ok r => some r.2
  | .error _ => none

/-- Run the handler of a request: the store it leaves when it succeeds. -/
def Action.run (sv : Services) : Action → Store → Option Store
  | .register body, s => (Marketplace.register sv body s).written
  | .createProject now u body, s => (Marketplace.createProject now u body s).written
  | .updateProject now u id body, s => (Marketplace.updateProject now u id body s).written
  | .deleteProject u id, s => (Marketplace.deleteProject u id s).written
  | .createBid now u pid body, s => (Marketplace.createBid now u pid body s).written
  | .selectBid u pid bid, s => (Marketplace.selectBid sv u pid bid s).written
  | .submitDeliverable now u pid file d, s => (Marketplace.submitDeliverable sv now u pid file d s).written
  | .completeProject u pid, s => (Marketplace.completeProject sv u pid s).written
  | .createReview now u pid body, s => (Marketplace.createReview now u pid body s).written

/-- One step: a request whose caller is a user of the store (the `protect`
middleware resolves `req.user` from it) and whose handler succeeds. -/
def Step (sv : Services) (s : Store) (a : Action) (t : Store) : Prop :=
  (∀ u, a.caller = some u → u ∈ s.users) ∧ a.run sv s = some t

/-- States reached from the empty store by successful requests. -/
inductive Reachable : Store → Prop where
  | init : Reachable Store.empty
  | step {sv : Services} {s t : Store} {a : Action} :
      Reachable s → Step sv s a t → Reachable t

instance (sv : Services) (s : Store) (a : Action) (t : Store) : Decidable (Step sv s a t) := by
  unfold Step
  cases h : a.caller with
  | none => exact decidable_of_iff (a.run sv s = some t) (by simp)
  | some u => exact decidable_of_iff (u ∈ s.users ∧ a.run sv s = some t) (by simp)

/-! ## Well-formedness of the store -/

/-- What every reachable store satisfies: identifiers are fresh and distinct, a
selected bid is a bid of its project and is set only off PENDING, a seller has
at most one bid per project, a bid has its project, and a review sits on a
COMPLETED project with a selected bid, at most one per project. -/
structure Inv (s : Store) : Prop where
  projectFresh : ∀ p ∈ s.projects, p.id < s.nextId
  bidFresh : ∀ b ∈ s.bids, b.id < s.nextId
  projectIds : s.projects.Pairwise (fun a b => a.id ≠ b.id)
  bidIds : s.bids.Pairwise (fun a b => a.id ≠ b.id)
  selected : ∀ p ∈ s.projects, ∀ b, p.selectedBidId = some b →
    p.status ≠ Status.PENDING ∧ ∃ bid ∈ s.bids, bid.id = b ∧ bid.projectId = p.id
  bidPairs : s.bids.Pairwise
    (fun a b => ¬(a.projectId = b.projectId ∧ a.sellerId = b.sellerId))
  bidProject : ∀ b ∈ s.bids, ∃ p ∈ s.projects, p.id = b.projectId
  reviewed : ∀ r ∈ s.reviews, ∃ p ∈ s.projects, p.id = r.projectId ∧
    p.status = Status.COMPLETED ∧ r.buyerId = p.buyerId ∧
    ∃ bid ∈ s.bids, p.selectedBidId = some bid.id ∧ bid.sellerId = r.sellerId
  reviewPairs : s.reviews.Pairwise (fun a b => a.projectId ≠ b.projectId)

/-- Position of a status in the lifecycle. -/
def Status.rank : Status → Nat
  | .PENDING => 0
  | .IN_PROGRESS => 1
  | .COMPLETED => 2

/-- Whether the caller of a request is a user of the store. -/
def Action.authentic (a : Action) (s : Store) : Bool :=
  match a.caller with
  | none => true
  | some u => decide (u ∈ s.users)

/-- Run requests one after the other, each one a step from the store the
previous one left; `none` as soon as one is not. -/
def runSteps (sv : Services) : List Action → Store → Option Store
  | [], s => some s
  | a :: rest, s => if a.authentic s then (a.run sv s).bind (runSteps sv rest) else none

/-! ### A sample run: the scenario of the specification

A buyer registers and posts a project with budget 100 to 500 due in seven
days, a seller registers and bids 300 for completion in three days, the buyer
selects the bid, the seller delivers, the buyer completes and reviews with
rating 5. -/

/-- Services of the sample run; the mail service is down. -/
def demoServices : Services :=
  { hash := fun pw => "hash:" ++ pw
    compare := fun pw h => decide (h = "hash:" ++ pw)
    sign := fun _ => "token"
    sendMail := fun _ => false
    upload := fun buffer => some ("https://files.example/" ++ buffer) }

/-- Clock reading of the sample run (2026-11-04T21:17:00Z). -/
def demoNow : Int := 1793827020000

/-- The buyer of the sample run. -/
def demoBuyer : User := ⟨0, "Bea", "bea@example.com", "hash:buyer-pw", Role.BUYER⟩

/-- The seller of the sample run. -/
def demoSeller : User := ⟨2, "Sol", "sol@example.com", "hash:seller-pw", Role.SELLER⟩

/-- The project body of the sample run. -/
def demoProjectBody : ProjectBody :=
  ⟨some "Logo", some "A logo for the shop", .num (.fin 100), .num (.fin 500),
    .str "2026-11-11T21:17:00.000Z"⟩

/-- The bid body of the sample run. -/
def demoBidBody : BidBody := ⟨.num (.fin 300), .str "2026-11-07T21:17:00.000Z", some "I can do it"⟩

/-- The requests of the sample run, in order. -/
def demoActions : List Action :=
  [ .register ⟨some "Bea", some "bea@example.com", some "buyer-pw", some "BUYER"⟩,
    .createProject demoNow demoBuyer demoProjectBody,
    .register ⟨some "Sol", some "sol@example.com", some "seller-pw", some "SELLER"⟩,
    .createBid demoNow demoSeller 1 demoBidBody,
    .selectBid demoBuyer 1 3,
    .submitDeliverable demoNow demoSeller 1 (some "logo.png") (some "final logo"),
    .completeProject demoBuyer 1,
    .createReview demoNow demoBuyer 1 ⟨.num (.fin 5), some "great"⟩ ]

/-- The store after the first `k` requests of the sample run. -/
def demoStore (k : Nat) : Store :=
  (runSteps demoServices (demoActions.take k) Store.empty).getD Store.empty

/-! ## Read handlers and middleware -/

/-- Place of a number under `orderBy asc` of the store (`NaN` sorts last). -/
def JsNum.sortsBefore : JsNum → JsNum → Bool
  | .nan, .nan => true
  | .nan, _ => false
  | _, .nan => true
  | a, b => JsNum.le a b

/-- Handler `getMe` of `auth.controller.js`. -/
def getMe (user : User) : Except Failure (Reply UserWithoutPassword) :=
  .ok ⟨200, user.withoutPassword⟩

/-- A bid as `getAllProjects` selects it: `id`, `bidAmount`,
`estimatedCompletion` and the seller's `id` and `name`. -/
structure BidBrief where
  id : Id
  bidAmount : JsNum
  estimatedCompletion : JsDate
  seller : Option (Id × String)
  deriving DecidableEq, Repr

/-- A project as `getAllProjects` returns it. -/
structure ProjectListItem where
  project : Project
  buyer : Option UserCard
  bids : List BidBrief
  selectedBid : Option Bid
  deliverables : List Deliverable
  deriving DecidableEq, Repr

/-- Query string of `GET /api/projects`. -/
structure ProjectQuery where
  status : Option String
  minBudget : Option String
  maxBudget : Option String
  deriving DecidableEq, Repr

/-- The status a query value names, when it names one. -/
def parseStatus (t : String) : Option Status :=
  if t = "PENDING" then some Status.PENDING
  else if t = "IN_PROGRESS" then some Status.IN_PROGRESS
  else if t = "COMPLETED" then some Status.COMPLETED
  else none

/-- The `where` clause `getAllProjects` builds: each filter applies when its
query value is truthy, and the `buyerId` filter when the caller is a BUYER. -/
def projectFilter (user : User) (q : ProjectQuery) (statusFilter : Option Status)
    (p : Project) : Bool :=
  (match statusFilter with
    | some st => decide (p.status = st)
    | none => true)
  && (if textTruthy q.minBudget
      then JsNum.ge p.budgetMax (parseFloatStr (q.minBudget.getD "")) else true)
  && (if textTruthy q.maxBudget
      then JsNum.le p.budgetMin (parseFloatStr (q.maxBudget.getD "")) else true)
  && (if user.role = Role.BUYER then decide (p.buyerId = user.id) else true)

/-- Handler `getAllProjects` of `project.controller.js`. A `status` value that
names no status is refused by the store (the column is an enum). -/
def getAllProjects (user : User) (q : ProjectQuery) (s : Store) :
    Except Failure (Reply (List ProjectListItem)) :=
  if textTruthy q.status ∧ parseStatus (q.status.getD "") = none then
    .error (.thrown "PrismaClientValidationError")
  else
    let statusFilter : Option Status :=
      if textTruthy q.status then parseStatus (q.status.getD "") else none
    let projects := (s.projects.filter (projectFilter user q statusFilter)).insertionSort
      (fun a b => b.createdAt ≤ a.createdAt)
    .ok ⟨200, projects.map (fun p =>
      { project := p
        buyer := (s.findUser p.buyerId).map User.card
        bids := (s.bids.filter (fun b => decide (b.projectId = p.id))).map (fun b =>
          ⟨b.id, b.bidAmount, b.estimatedCompletion,
            (s.findUser b.sellerId).map (fun u => (u.id, u.name))⟩)
        selectedBid := s.selectedBid p
        deliverables := s.deliverablesOf p.id })⟩

/-- A project as `getProject` returns it. -/
structure ProjectDetail where
  project : Project
  buyer : Option UserCard
  bids : List BidWithSeller
  selectedBid : Option BidWithSeller
  deliverables : List Deliverable
  review : Option Review
  deriving DecidableEq, Repr

/-- Handler `getProject` of `project.controller.js`. -/
def getProject (user : User) (id : Id) (s : Store) : Except Failure (Reply ProjectDetail) :=
  match s.findProject id with
  | none => fail "Project not found" 404
  | some project =>
    if user.role = Role.BUYER ∧ project.buyerId ≠ user.id then
      fail "You do not have permission to access this project" 403
    else
      .ok ⟨200,
        { project := project
          buyer := (s.findUser project.buyerId).map User.card
          bids := (s.bids.filter (fun b => decide (b.projectId = project.id))).map
            (fun b => ⟨b, (s.findUser b.sellerId).map User.card⟩)
          selectedBid := (s.selectedBid project).map
            (fun b => ⟨b, (s.findUser b.sellerId).map User.card⟩)
          deliverables := s.deliverablesOf project.id
          review := s.reviewOf project }⟩

/-- Handler `getBidsForProject` of `bid.controller.js`: the bids of the
project by ascending amount. -/
def getBidsForProject (user : User) (projectId : Id) (s : Store) :
    Except Failure (Reply (List BidWithSeller)) :=
  match s.findProject projectId with
  | none => fail "Project not found" 404
  | some project =>
    if user.role = Role.BUYER ∧ project.buyerId ≠ user.id then
      fail "You do not have permission to access this project" 403
    else
      let bids := (s.bids.filter (fun b => decide (b.projectId = projectId))).insertionSort
        (fun a b => JsNum.sortsBefore a.bidAmount b.bidAmount = true)
      .ok ⟨200, bids.map (fun b => ⟨b, (s.findUser b.sellerId).map User.card⟩)⟩

/-- Handler `getDeliverables` of `deliverable.controller.js`: the deliverables
of the project, newest first. -/
def getDeliverables (user : User) (projectId : Id) (s : Store) :
    Except Failure (Reply (List Deliverable)) :=
  match s.findProject projectId with
  | none => fail "Project not found" 404
  | some project =>
    if (user.role = Role.BUYER ∧ project.buyerId ≠ user.id) ∨
        (user.role = Role.SELLER ∧
          ((s.selectedBid project).isNone ∨
            (s.selectedBid project).map (fun b => b.sellerId) ≠ some user.id)) then
      fail "You do not have permission to access this project" 403
    else
      .ok ⟨200, (s.deliverablesOf projectId).insertionSort
        (fun a b => b.createdAt ≤ a.createdAt)⟩

/-- Middleware `restrictTo(...roles)` of `auth.middleware.js`. -/
def restrictTo (roles : List Role) (user : User) : Except Failure Unit :=
  if user.role ∉ roles then fail "You do not have permission to perform this action" 403
  else .ok ()

/-- Middleware `isOwner(model, paramId, ownerField)` of `auth.middleware.js`:
`lookup` is `req.prisma[model].findUnique` and `owner` reads `ownerField`; the
resource found is what it attaches to the request. -/
def isOwner {α : Type} (model : String) (lookup : Id → Option α) (owner : α → Id)
    (user : User) (resourceId : Id) : Except Failure α :=
  match lookup resourceId with
  | none => fail (model ++ " not found") 404
  | some resource =>
    if owner resource ≠ user.id then
      fail "You do not have permission to perform this action" 403
    else .ok resource

/-- An error object given to `next`: `statusCode` is `undefined` on anything
that is not an `AppError`. -/
structure JsError where
  statusCode : Option Nat
  message : String
  deriving DecidableEq, Repr

/-- Body of an error response. -/
structure ErrorBody where
  status : String
  message : String
  deriving DecidableEq, Repr

/-- The error handling middleware of `index.js`:
`res.status(err.statusCode || 500).json(...)` with `err.message` or, when that
is empty, `Internal Server Error`. -/
def errorMiddleware (err : JsError) : Reply ErrorBody :=
  ⟨(match err.statusCode with
      | some c => if c = 0 then 500 else c
      | none => 500),
    ⟨"error", if err.message.isEmpty then "Internal Server Error" else err.message⟩⟩

/-- The error object a failed handler hands to `next`. -/
def Failure.toJsError : Failure → JsError
  | .app e => ⟨some e.statusCode, e.message⟩
  | .thrown what => ⟨none, what⟩

/-! ## Calls to outside services, and requests in flight -/

/-- Handler `submitDeliverable` with the buffers it hands to
`uploadToCloudinary` recorded, in order, next to its outcome. -/
def submitDeliverableTraced (sv : Services) (now : Int) (user : User) (projectId : Id)
    (file : Option String) (description : Option String) (s : Store) :
    List String × Outcome Deliverable :=
  if user.role ≠ Role.SELLER then ([], fail "Only sellers can submit deliverables" 403)
  else
    match file with
    | none => ([], fail "Please provide a file" 400)
    | some buffer =>
      match s.findProject projectId with
      | none => ([], fail "Project not found" 404)
      | some project =>
        if project.status ≠ Status.IN_PROGRESS then
          ([], fail "Cannot submit deliverables for a project that is not in progress" 400)
        else
          match s.selectedBid project with
          | none => ([], fail "You are not the selected seller for this project" 403)
          | some selected =>
            if selected.sellerId ≠ user.id then
              ([], fail "You are not the selected seller for this project" 403)
            else
              match sv.upload buffer with
              | none => ([buffer], .error (.thrown "upload"))
              | some secureUrl =>
                let created := s.insertDeliverable now secureUrl description projectId
                ([buffer], .ok (⟨201, created.1⟩, created.2))

/-- The response of `selectBid`: the updated project with its `selectedBid` and
that bid's `seller` included, read from the store after the update. -/
def selectBidReply (after : Store) (updatedProject : Project) : Reply SelectedProject :=
  ⟨200, ⟨updatedProject, (after.selectedBid updatedProject).map
    (fun b => ⟨b, after.findUser b.sellerId⟩)⟩⟩

/-- Where a `selectBid` request stands between two of its `await`ed calls to
the store; other requests may reach the store in between. -/
inductive SelectProgress where
  | start
  | projectRead (project : Project)
  | bidRead (project : Project) (bid : Bid)
  | finished (result : Except Failure (Reply SelectedProject))

/-- One call to the store by a `selectBid` request, with the code that runs on
its answer up to the next call: `project.findUnique` and the guards on the
project, then `bid.findFirst` and its guard, then `project.update` with
`where: {id}` and the response. The update returns the row as it then is. -/
def selectBidAdvance (sv : Services) (user : User) (projectId bidId : Id) :
    SelectProgress → Store → SelectProgress × Store
  | .start, s =>
    if user.role ≠ Role.BUYER then (.finished (fail "Only buyers can select bids" 403), s)
    else
      match s.findProject projectId with
      | none => (.finished (fail "Project not found" 404), s)
      | some project =>
        if project.buyerId ≠ user.id then
          (.finished
            (fail "You do not have permission to select a bid for this project" 403), s)
        else if project.status ≠ Status.PENDING then
          (.finished
            (fail "Cannot select a bid for a project that is not in PENDING status" 400), s)
        else (.projectRead project, s)
  | .projectRead project, s =>
    match s.bids.find? (fun b => decide (b.id = bidId ∧ b.projectId = projectId)) with
    | none => (.finished (fail "Bid not found for this project" 404), s)
    | some bid => (.bidRead project bid, s)
  | .bidRead project bid, s =>
    match s.findProject projectId with
    | none => (.finished (.error (.thrown "PrismaClientKnownRequestError")), s)
    | some current =>
      let after := s.updateProject projectId
        (fun p => { p with selectedBidId := some bidId, status := Status.IN_PROGRESS })
      let updatedProject : Project :=
        { current with selectedBidId := some bidId, status := Status.IN_PROGRESS }
      let _delivered := (s.findUser bid.sellerId).map
        (fun seller => sv.sendMail (.bidSelection seller.email seller.name project.title))
      (.finished (.ok (selectBidReply after updatedProject)), after)
  | .finished result, s => (.finished result, s)

/-- Two `selectBid` requests in flight over one store. -/
structure Race where
  first : SelectProgress
  second : SelectProgress
  store : Store

/-- A `selectBid` request: caller, project and bid. -/
structure SelectRequest where
  user : User
  projectId : Id
  bidId : Id

/-- Let one of the two requests make its next call: `true` the first request,
`false` the second. -/
def raceStep (sv : Services) (ra rb : SelectRequest) (who : Bool) (st : Race) : Race :=
  if who then
    let r := selectBidAdvance sv ra.user ra.projectId ra.bidId st.first st.store
    { st with first := r.1, store := r.2 }
  else
    let r := selectBidAdvance sv rb.user rb.projectId rb.bidId st.second st.store
    { st with second := r.1, store := r.2 }

/-- Run two requests from the start under a schedule of their calls. -/
def raceRun (sv : Services) (ra rb : SelectRequest) (schedule : List Bool) (s : Store) : Race :=
  schedule.foldl (fun st who => raceStep sv ra rb who st) ⟨.start, .start, s⟩

/-- The response of a request that has answered 200. -/
def SelectProgress.succeeded : SelectProgress → Option (Reply SelectedProject)
  | .finished (.ok r) => some r
  | _ => none

/-- The error of a request that has failed. -/
def SelectProgress.failed : SelectProgress → Option Failure
  | .finished (.error e) => some e
  | _ => none

/-! ### A second sample run: two sellers bid on the project -/

/-- The second seller. -/
def demoSeller2 : User := ⟨4, "Sam", "sam@example.com", "hash:sam-pw", Role.SELLER⟩

/-- The requests up to the two bids. -/
def raceActions : List Action :=
  demoActions.take 4 ++
  [ .register ⟨some "Sam", some "sam@example.com", some "sam-pw", some "SELLER"⟩,
    .createBid demoNow demoSeller2 1
      ⟨.num (.fin 250), .str "2026-11-08T21:17:00.000Z", some "Me too"⟩ ]

/-- The store with the project PENDING and the bids 3 and 5 on it. -/
def raceStore : Store :=
  (runSteps demoServices raceActions Store.empty).getD Store.empty

/-- A buyer who owns no project of the sample run. -/
def demoOtherBuyer : User := ⟨7, "Eve", "eve@example.com", "hash:eve-pw", Role.BUYER⟩

/-- The store of the sample run after the bid, with other password hashes. -/
def demoStore4Rehashed : Store :=
  { demoStore 4 with
    users := (demoStore 4).users.map (fun u => { u with password := "hash:changed" }) }

/-- All lists of `k` booleans. -/
def bitLists : Nat → List (List Bool)
  | 0 => [[]]
  | k + 1 => (bitLists k).map (fun l => true :: l) ++ (bitLists k).map (fun l => false :: l)

/-- All the ways to interleave `m` calls of the first request (`true`) with `n`
calls of the second (`false`). -/
def interleavings (m n : Nat) : List (List Bool) :=
  (bitLists (m + n)).filter (fun l => l.count true = m)

/-- Two stores that differ at most in the `password` field of user rows. -/
def SamePublic (s1 s2 : Store) : Prop :=
  s1.users.map User.withoutPassword = s2.users.map User.withoutPassword ∧
  s1.projects = s2.projects ∧ s1.bids = s2.bids ∧ s1.deliverables = s2.deliverables ∧
  s1.reviews = s2.reviews ∧ s1.nextId = s2.nextId

/-! ## Requests handled while `selectBid` requests are in flight -/

/-- A `selectBid` request that has arrived: the request and where it stands
between its calls to the store. -/
structure InFlight where
  request : SelectRequest
  progress : SelectProgress

/-- States reached from the empty store when `selectBid` requests stay in
flight across other requests: a request is handled from its first call to its
response (a step), a `selectBid` request arrives (its caller a user of the
store, as `protect` checks), or a `selectBid` request that has arrived makes
its next call to the store. The list holds the requests that have arrived. -/
inductive FlightReachable : Store → List InFlight → Prop where
  | init : FlightReachable Store.empty []
  | step {sv : Services} {s t : Store} {a : Action} {flights : List InFlight} :
      FlightReachable s flights → Step sv s a t → FlightReachable t flights
  | arrive {s : Store} {flights : List InFlight} (request : SelectRequest) :
      FlightReachable s flights → request.user ∈ s.users →
      FlightReachable s (⟨request, .start⟩ :: flights)
  | advance (sv : Services) {s : Store} (before after : List InFlight)
      (request : SelectRequest) (progress : SelectProgress) :
      FlightReachable s (before ++ ⟨request, progress⟩ :: after) →
      FlightReachable
        (selectBidAdvance sv request.user request.projectId request.bidId progress s).2
        (before ++ ⟨request,
          (selectBidAdvance sv request.user request.projectId request.bidId progress s).1⟩
          :: after)

/-- The store without its review table: what the well-formedness of projects
and bids reads. -/
def Store.withoutReviews (s : Store) : Store := { s with reviews := [] }

/-- What holds of a request in flight that has read its bid: the bid is the
one it names, on the project it names, and it is still in the store unless the
project has been deleted (bids leave the store only with their project, and the
identifier of a deleted project is not given out again). -/
def InFlight.Sound (s : Store) (x : InFlight) : Prop :=
  match x.progress with
  | .bidRead _ bid =>
    bid.id = x.request.bidId ∧ bid.projectId = x.request.projectId ∧
      x.request.projectId < s.nextId ∧
      (bid ∈ s.bids ∨ ∀ p ∈ s.projects, p.id ≠ x.request.projectId)
  | _ => True

/-! ### A third sample run: a `selectBid` request held in flight

On the store of the second sample run the buyer sends selectBid for bid 5; the
request reads the project (PENDING) and the bid and is then held before its
update. Meanwhile the buyer's selectBid for bid 3 is handled, the first seller
delivers, the buyer completes the project and reviews it. Then the held request
makes its update. -/

/-- The request that is held. -/
def heldRequest : SelectRequest := ⟨demoBuyer, 1, 5⟩

/-- The held request after its two reads on the store of the second sample run. -/
def heldProgress : SelectProgress :=
  (selectBidAdvance demoServices demoBuyer 1 5
    (selectBidAdvance demoServices demoBuyer 1 5 .start raceStore).1 raceStore).1

/-- The requests handled while the request is held. -/
def heldActions : List Action :=
  [ .selectBid demoBuyer 1 3,
    .submitDeliverable demoNow demoSeller 1 (some "logo.png") (some "final logo"),
    .completeProject demoBuyer 1,
    .createReview demoNow demoBuyer 1 ⟨.num (.fin 5), some "great"⟩ ]

/-- The store after the first `k` requests handled while the request is held. -/
def heldStore (k : Nat) : Store :=
  (runSteps demoServices (heldActions.take k) raceStore).getD raceStore

/-- The store after the held request has made its update, the first `k`
requests having been handled before it. -/
def heldStoreUpdated (k : Nat) : Store :=
  (selectBidAdvance demoServices demoBuyer 1 5 heldProgress (heldStore k)).2

/-! ### A fourth sample run: three reviews for one seller

After the first sample run the buyer posts two more projects; each time the
seller bids, is selected, delivers, and the buyer completes the project and
reviews it with rating 4. -/

/-- The requests of one more round on the project `pid`, whose bid gets the id
`pid + 1`, reviewed with `rating`. -/
def roundActions (pid : Id) (rating : JsVal) : List Action :=
  [ .createProject demoNow demoBuyer demoProjectBody,
    .createBid demoNow demoSeller pid demoBidBody,
    .selectBid demoBuyer pid (pid + 1),
    .submitDeliverable demoNow demoSeller pid (some "logo.png") (some "final logo"),
    .completeProject demoBuyer pid,
    .createReview demoNow demoBuyer pid ⟨rating, some "good"⟩ ]

/-- The requests of the fourth sample run. -/
def ratedActions : List Action :=
  demoActions ++ roundActions 6 (.num (.fin 4)) ++ roundActions 10 (.num (.fin 4))

/-- The store with the seller's three reviews, of ratings 5, 4 and 4. -/
def ratedStore : Store :=
  (runSteps demoServices ratedActions Store.empty).getD Store.empty
/-! ## What a successful handler has checked and written -/

section HandlerSuccess

theorem register_ok {sv : Services} {body : RegisterBody} {s t : Store} {r : Reply AuthData}
    (h : register sv body s = .ok (r, t)) :
    ∃ name email password role, t = (s.insertUser name email password role).2 := by
  unfold register fail at h
  split at h
  · cases h
  split at h
  · cases h
  split at h
  · cases h
  simp only [Except.ok.injEq, Prod.mk.injEq] at h
  exact ⟨_, _, _, _, h.2.symm⟩

theorem createProject_ok {now : Int} {user : User} {body : ProjectBody} {s t : Store}
    {r : Reply Project} (h : createProject now user body s = .ok (r, t)) :
    user.role = Role.BUYER ∧
    JsNum.ge (parseFloat body.budgetMin) (parseFloat body.budgetMax) = false ∧
    JsNum.le (newDate body.deadline).toNum (JsDate.toNum (some now)) = false ∧
    r = ⟨201, (s.insertProject now (body.title.getD "") (body.description.getD "")
        (parseFloat body.budgetMin) (parseFloat body.budgetMax) (newDate body.deadline)
        user.id).1⟩ ∧
    t = (s.insertProject now (body.title.getD "") (body.description.getD "")
        (parseFloat body.budgetMin) (parseFloat body.budgetMax) (newDate body.deadline)
        user.id).2 := by
  unfold createProject fail at h
  split at h
  · cases h
  split at h
  · cases h
  split at h
  · cases h
  dsimp only at h
  split at h
  · cases h
  simp only [Except.ok.injEq, Prod.mk.injEq] at h
  obtain ⟨rfl, rfl⟩ := h
  simp_all

theorem updateProject_ok {now : Int} {user : User} {id : Id} {body : ProjectBody} {s t : Store}
    {r : Reply Project} (h : updateProject now user id body s = .ok (r, t)) :
    ∃ project deadlineDate, s.findProject id = some project ∧ project.buyerId = user.id ∧
      project.status = Status.PENDING ∧
      (truthy body.budgetMin && truthy body.budgetMax
        && JsNum.ge (parseFloat body.budgetMin) (parseFloat body.budgetMax)) = false ∧
      r = ⟨200, applyProjectPatch body deadlineDate project⟩ ∧
      t = s.updateProject id (applyProjectPatch body deadlineDate) := by
  unfold updateProject fail at h
  split at h
  · cases h
  split at h
  · cases h
  split at h
  · cases h
  split at h
  · cases h
  dsimp only at h
  split at h
  · cases h
  simp only [Except.ok.injEq, Prod.mk.injEq] at h
  obtain ⟨rfl, rfl⟩ := h
  rename_i project hp h1 h2 h3 h4
  refine ⟨project, _, hp, ?_, ?_, ?_, rfl, rfl⟩
  · simpa using h1
  · simpa using h2
  · simpa using h3

theorem deleteProject_ok {user : User} {id : Id} {s t : Store} {r : Reply Unit}
    (h : deleteProject user id s = .ok (r, t)) :
    ∃ project, s.findProject id = some project ∧ project.buyerId = user.id ∧
      project.status = Status.PENDING ∧ t = s.deleteProject id := by
  unfold deleteProject fail at h
  split at h
  · cases h
  split at h
  · cases h
  split at h
  · cases h
  simp only [Except.ok.injEq, Prod.mk.injEq] at h
  obtain ⟨rfl, rfl⟩ := h
  simp_all

theorem createBid_ok {now : Int} {user : User} {pid : Id} {body : BidBody} {s t : Store}
    {r : Reply BidWithSeller} (h : createBid now user pid body s = .ok (r, t)) :
    user.role = Role.SELLER ∧ truthy body.bidAmount = true ∧
    truthy body.estimatedCompletion = true ∧ textTruthy body.message = true ∧
    ∃ project, s.findProject pid = some project ∧ project.status = Status.PENDING ∧
      s.bids.find? (fun b => decide (b.projectId = pid ∧ b.sellerId = user.id)) = none ∧
      JsNum.lt (parseFloat body.bidAmount) project.budgetMin = false ∧
      JsNum.gt (parseFloat body.bidAmount) project.budgetMax = false ∧
      JsNum.le (newDate body.estimatedCompletion).toNum (JsDate.toNum (some now)) = false ∧
      JsNum.gt (newDate body.estimatedCompletion).toNum project.deadline.toNum = false ∧
      t = (s.insertBid (parseFloat body.bidAmount) (newDate body.estimatedCompletion)
        (body.message.getD "") pid user.id).2 := by
  unfold createBid fail at h
  split at h
  · cases h
  split at h
  · cases h
  split at h
  · cases h
  split at h
  · cases h
  split at h
  · cases h
  split at h
  · cases h
  dsimp only at h
  split at h
  · cases h
  split at h
  · cases h
  simp only [Except.ok.injEq, Prod.mk.injEq] at h
  obtain ⟨rfl, rfl⟩ := h
  simp_all

theorem selectBid_ok {sv : Services} {user : User} {pid bidId : Id} {s t : Store}
    {r : Reply SelectedProject} (h : selectBid sv user pid bidId s = .ok (r, t)) :
    user.role = Role.BUYER ∧
    ∃ project bid, s.findProject pid = some project ∧ project.buyerId = user.id ∧
      project.status = Status.PENDING ∧
      s.bids.find? (fun b => decide (b.id = bidId ∧ b.projectId = pid)) = some bid ∧
      r.status = 200 ∧
      r.data.project = { project with selectedBidId := some bidId,
                                      status := Status.IN_PROGRESS } ∧
      t = s.updateProject pid
        (fun p => { p with selectedBidId := some bidId, status := Status.IN_PROGRESS }) := by
  unfold selectBid fail at h
  split at h
  · cases h
  split at h
  · cases h
  split at h
  · cases h
  split at h
  · cases h
  split at h
  · cases h
  simp only [Except.ok.injEq, Prod.mk.injEq] at h
  obtain ⟨rfl, rfl⟩ := h
  simp_all

theorem submitDeliverable_ok {sv : Services} {now : Int} {user : User} {pid : Id}
    {file description : Option String} {s t : Store} {r : Reply Deliverable}
    (h : submitDeliverable sv now user pid file description s = .ok (r, t)) :
    user.role = Role.SELLER ∧
    ∃ buffer project selected url, file = some buffer ∧ s.findProject pid = some project ∧
      project.status = Status.IN_PROGRESS ∧ s.selectedBid project = some selected ∧
      selected.sellerId = user.id ∧ sv.upload buffer = some url ∧
      r = ⟨201, (s.insertDeliverable now url description pid).1⟩ ∧
      t = (s.insertDeliverable now url description pid).2 := by
  unfold submitDeliverable fail at h
  split at h
  · cases h
  split at h
  · cases h
  split at h
  · cases h
  split at h
  · cases h
  split at h
  · cases h
  split at h
  · cases h
  split at h
  · cases h
  simp only [Except.ok.injEq, Prod.mk.injEq] at h
  obtain ⟨rfl, rfl⟩ := h
  simp_all

theorem completeProject_ok {sv : Services} {user : User} {pid : Id} {s t : Store}
    {r : Reply Project} (h : completeProject sv user pid s = .ok (r, t)) :
    user.role = Role.BUYER ∧
    ∃ project, s.findProject pid = some project ∧ project.buyerId = user.id ∧
      project.status = Status.IN_PROGRESS ∧ (s.deliverablesOf pid).length ≠ 0 ∧
      r = ⟨200, { project with status := Status.COMPLETED }⟩ ∧
      t = s.updateProject pid (fun p => { p with status := Status.COMPLETED }) := by
  unfold completeProject fail at h
  split at h
  · cases h
  split at h
  · cases h
  split at h
  · cases h
  split at h
  · cases h
  split at h
  · cases h
  simp only [Except.ok.injEq, Prod.mk.injEq] at h
  obtain ⟨rfl, rfl⟩ := h
  simp_all

theorem createReview_ok {now : Int} {user : User} {pid : Id} {body : ReviewBody} {s t : Store}
    {r : Reply Review} (h : createReview now user pid body s = .ok (r, t)) :
    user.role = Role.BUYER ∧
    ∃ project selected q, s.findProject pid = some project ∧ project.buyerId = user.id ∧
      project.status = Status.COMPLETED ∧ s.reviewOf project = none ∧
      s.selectedBid project = some selected ∧ body.rating = JsVal.num (JsNum.fin q) ∧
      1 ≤ q ∧ q ≤ 5 ∧
      r = ⟨201, (s.insertReview now q body.reviewText user.id selected.sellerId pid).1⟩ ∧
      t = (s.insertReview now q body.reviewText user.id selected.sellerId pid).2 := by
  unfold createReview fail at h
  split at h
  · cases h
  split at h
  · cases h
  split at h
  · cases h
  split at h
  · cases h
  split at h
  · cases h
  split at h
  · cases h
  split at h
  · cases h
  split at h
  · simp only [Except.ok.injEq, Prod.mk.injEq] at h
    obtain ⟨rfl, rfl⟩ := h
    rename_i h1 h2 _ project hp h3 h4 h5 _ selected hs _ created hc
    unfold Store.createReview at hc
    split at hc
    · rename_i q hq
      simp only [Option.some.injEq] at hc
      subst hc
      simp only [hq, toNumber, JsNum.lt, JsNum.gt, Bool.or_eq_true, not_or, decide_eq_true_eq,
        not_lt] at h2
      refine ⟨by simpa using h1, project, selected, q, hp, by simpa using h3,
        by simpa using h4, by simpa using h5, hs, hq, h2.1.2, h2.2, rfl, rfl⟩
    · cases hc
  · cases h

end HandlerSuccess
/-! ## The store operations keep the store well-formed -/

section Preservation

theorem findProject_mem {s : Store} {id : Id} {p : Project} (h : s.findProject id = some p) :
    p ∈ s.projects ∧ p.id = id := by
  unfold Store.findProject at h
  exact ⟨List.mem_of_find?_eq_some h, by simpa using List.find?_some h⟩

theorem findBid_mem {s : Store} {id : Id} {b : Bid} (h : s.findBid id = some b) :
    b ∈ s.bids ∧ b.id = id := by
  unfold Store.findBid at h
  exact ⟨List.mem_of_find?_eq_some h, by simpa using List.find?_some h⟩

theorem selectedBid_mem {s : Store} {p : Project} {b : Bid} (h : s.selectedBid p = some b) :
    b ∈ s.bids ∧ p.selectedBidId = some b.id := by
  unfold Store.selectedBid at h
  cases hsel : p.selectedBidId with
  | none => simp [hsel] at h
  | some i =>
    simp only [hsel, Option.some_bind] at h
    obtain ⟨hm, hi⟩ := findBid_mem h
    exact ⟨hm, by rw [hi]⟩

/-- Two rows of a list related by `R`, where no two rows at different places
are, are one row. -/
theorem eq_of_pairwise_not {α : Type} {R : α → α → Prop} (hsymm : ∀ a b, R a b → R b a)
    {l : List α} (hl : l.Pairwise (fun a b => ¬R a b)) {x y : α} (hx : x ∈ l) (hy : y ∈ l)
    (hxy : R x y) : x = y := by
  induction l with
  | nil => cases hx
  | cons a l ih =>
    rw [List.pairwise_cons] at hl
    rcases List.mem_cons.1 hx with rfl | hx1
    · rcases List.mem_cons.1 hy with rfl | hy1
      · rfl
      · exact absurd hxy (hl.1 y hy1)
    · rcases List.mem_cons.1 hy with rfl | hy1
      · exact absurd (hsymm _ _ hxy) (hl.1 x hx1)
      · exact ih hl.2 hx1 hy1

/-- Two rows of a list with pairwise distinct keys and the same key are one row. -/
theorem eq_of_pairwise_key {α : Type} {k : α → Id} {l : List α}
    (hl : l.Pairwise (fun a b => k a ≠ k b)) {x y : α} (hx : x ∈ l) (hy : y ∈ l)
    (hxy : k x = k y) : x = y :=
  eq_of_pairwise_not (R := fun a b => k a = k b) (fun _ _ h => h.symm) hl hx hy hxy

theorem Inv.project_unique {s : Store} (hs : Inv s) {p q : Project} (hp : p ∈ s.projects)
    (hq : q ∈ s.projects) (h : p.id = q.id) : p = q :=
  eq_of_pairwise_key hs.projectIds hp hq h

theorem Inv.bid_unique {s : Store} (hs : Inv s) {a b : Bid} (ha : a ∈ s.bids)
    (hb : b ∈ s.bids) (h : a.id = b.id) : a = b :=
  eq_of_pairwise_key hs.bidIds ha hb h

theorem Inv.empty : Inv Store.empty := by
  constructor <;> simp [Store.empty]

theorem Inv.insertUser {s : Store} (hs : Inv s) (name email password : String) (role : Role) :
    Inv (s.insertUser name email password role).2 := by
  obtain ⟨h1, h2, h3, h4, h5, h6, h7, h8, h9⟩ := hs
  refine ⟨?_, ?_, h3, h4, h5, h6, h7, h8, h9⟩
  · intro p hp; exact Nat.lt_succ_of_lt (h1 p hp)
  · intro b hb; exact Nat.lt_succ_of_lt (h2 b hb)

theorem Inv.insertDeliverable {s : Store} (hs : Inv s) (now : Int) (url : String)
    (d : Option String) (pid : Id) : Inv (s.insertDeliverable now url d pid).2 := by
  obtain ⟨h1, h2, h3, h4, h5, h6, h7, h8, h9⟩ := hs
  refine ⟨?_, ?_, h3, h4, h5, h6, h7, h8, h9⟩
  · intro p hp; exact Nat.lt_succ_of_lt (h1 p hp)
  · intro b hb; exact Nat.lt_succ_of_lt (h2 b hb)

theorem Inv.insertProject {s : Store} (hs : Inv s) (now : Int) (title description : String)
    (lo hi : JsNum) (deadline : JsDate) (buyerId : Id) :
    Inv (s.insertProject now title description lo hi deadline buyerId).2 := by
  obtain ⟨h1, h2, h3, h4, h5, h6, h7, h8, h9⟩ := hs
  refine ⟨?_, ?_, ?_, h4, ?_, h6, ?_, ?_, h9⟩
  · intro p hp
    simp only [Store.insertProject, List.mem_append, List.mem_singleton] at hp
    rcases hp with hp | rfl
    · exact Nat.lt_succ_of_lt (h1 p hp)
    · exact Nat.lt_succ_self _
  · intro b hb; exact Nat.lt_succ_of_lt (h2 b hb)
  · simp only [Store.insertProject]
    rw [List.pairwise_append]
    refine ⟨h3, List.pairwise_singleton _ _, ?_⟩
    intro a ha b hb
    rw [List.mem_singleton] at hb
    subst hb
    exact Nat.ne_of_lt (h1 a ha)
  · intro p hp b hb
    simp only [Store.insertProject, List.mem_append, List.mem_singleton] at hp
    rcases hp with hp | rfl
    · exact h5 p hp b hb
    · cases hb
  · intro b hb
    obtain ⟨p, hp, hpb⟩ := h7 b hb
    exact ⟨p, by simp [Store.insertProject, hp], hpb⟩
  · intro r hr
    obtain ⟨p, hp, rest⟩ := h8 r hr
    exact ⟨p, by simp [Store.insertProject, hp], rest⟩

theorem Inv.insertBid {s : Store} (hs : Inv s) (amount : JsNum) (ec : JsDate) (msg : String)
    {pid sellerId : Id} {project : Project} (hp : s.findProject pid = some project)
    (hnone : s.bids.find? (fun b => decide (b.projectId = pid ∧ b.sellerId = sellerId)) = none) :
    Inv (s.insertBid amount ec msg pid sellerId).2 := by
  obtain ⟨h1, h2, h3, h4, h5, h6, h7, h8, h9⟩ := hs
  refine ⟨?_, ?_, h3, ?_, ?_, ?_, ?_, ?_, h9⟩
  · intro p hp; exact Nat.lt_succ_of_lt (h1 p hp)
  · intro b hb
    simp only [Store.insertBid, List.mem_append, List.mem_singleton] at hb
    rcases hb with hb | rfl
    · exact Nat.lt_succ_of_lt (h2 b hb)
    · exact Nat.lt_succ_self _
  · simp only [Store.insertBid]
    rw [List.pairwise_append]
    refine ⟨h4, List.pairwise_singleton _ _, ?_⟩
    intro a ha b hb
    rw [List.mem_singleton] at hb
    subst hb
    exact Nat.ne_of_lt (h2 a ha)
  · intro p hp b hb
    obtain ⟨hst, bid, hbid, rest⟩ := h5 p hp b hb
    exact ⟨hst, bid, by simp [Store.insertBid, hbid], rest⟩
  · simp only [Store.insertBid]
    rw [List.pairwise_append]
    refine ⟨h6, List.pairwise_singleton _ _, ?_⟩
    intro a ha b hb
    rw [List.mem_singleton] at hb
    subst hb
    have := List.find?_eq_none.1 hnone a ha
    simpa using this
  · intro b hb
    simp only [Store.insertBid, List.mem_append, List.mem_singleton] at hb
    rcases hb with hb | rfl
    · exact h7 b hb
    · exact ⟨project, (findProject_mem hp).1, (findProject_mem hp).2⟩
  · intro r hr
    obtain ⟨p, hp, e1, e2, e3, bid, hbid, rest⟩ := h8 r hr
    exact ⟨p, hp, e1, e2, e3, bid, by simp [Store.insertBid, hbid], rest⟩

theorem Inv.insertReview {s : Store} (hs : Inv s) (now : Int) (q : ℚ) (txt : Option String)
    {pid : Id} {project : Project} {sel : Bid} (hp : s.findProject pid = some project)
    (hst : project.status = Status.COMPLETED) (hnone : s.reviewOf project = none)
    (hsel : s.selectedBid project = some sel) :
    Inv (s.insertReview now q txt project.buyerId sel.sellerId pid).2 := by
  obtain ⟨h1, h2, h3, h4, h5, h6, h7, h8, h9⟩ := hs
  obtain ⟨hpm, hpid⟩ := findProject_mem hp
  refine ⟨?_, ?_, h3, h4, h5, h6, h7, ?_, ?_⟩
  · intro p hp; exact Nat.lt_succ_of_lt (h1 p hp)
  · intro b hb; exact Nat.lt_succ_of_lt (h2 b hb)
  · intro r hr
    simp only [Store.insertReview, List.mem_append, List.mem_singleton] at hr
    rcases hr with hr | rfl
    · exact h8 r hr
    · obtain ⟨hm, hi⟩ := selectedBid_mem hsel
      exact ⟨project, hpm, hpid, hst, rfl, sel, hm, hi, rfl⟩
  · simp only [Store.insertReview]
    rw [List.pairwise_append]
    refine ⟨h9, List.pairwise_singleton _ _, ?_⟩
    intro a ha b hb
    rw [List.mem_singleton] at hb
    subst hb
    unfold Store.reviewOf at hnone
    have := List.find?_eq_none.1 hnone a ha
    simpa [hpid] using this

theorem Inv.deleteProject {s : Store} (hs : Inv s) (id : Id) : Inv (s.deleteProject id) := by
  obtain ⟨h1, h2, h3, h4, h5, h6, h7, h8, h9⟩ := hs
  refine ⟨?_, ?_, h3.filter _, h4.filter _, ?_, h6.filter _, ?_, ?_, h9.filter _⟩
  · intro p hp
    exact h1 p (List.mem_of_mem_filter hp)
  · intro b hb
    exact h2 b (List.mem_of_mem_filter hb)
  · intro p hp b hb
    simp only [Store.deleteProject, List.mem_filter, decide_eq_true_eq] at hp
    obtain ⟨hst, bid, hbid, e1, e2⟩ := h5 p hp.1 b hb
    refine ⟨hst, bid, ?_, e1, e2⟩
    simp only [Store.deleteProject, List.mem_filter, decide_eq_true_eq]
    exact ⟨hbid, by rw [e2]; exact hp.2⟩
  · intro b hb
    simp only [Store.deleteProject, List.mem_filter, decide_eq_true_eq] at hb
    obtain ⟨p, hp, e⟩ := h7 b hb.1
    refine ⟨p, ?_, e⟩
    simp only [Store.deleteProject, List.mem_filter, decide_eq_true_eq]
    exact ⟨hp, by rw [e]; exact hb.2⟩
  · intro r hr
    simp only [Store.deleteProject, List.mem_filter, decide_eq_true_eq] at hr
    obtain ⟨p, hp, e1, e2, e3, bid, hbid, e4, e5⟩ := h8 r hr.1
    obtain ⟨_, bid2, hbid2, e6, e7⟩ := h5 p hp bid.id e4
    have hb : bid2 = bid := eq_of_pairwise_key h4 hbid2 hbid e6
    subst hb
    refine ⟨p, ?_, e1, e2, e3, bid2, ?_, e4, e5⟩
    · simp only [Store.deleteProject, List.mem_filter, decide_eq_true_eq]
      exact ⟨hp, by rw [e1]; exact hr.2⟩
    · simp only [Store.deleteProject, List.mem_filter, decide_eq_true_eq]
      exact ⟨hbid, by rw [e7, e1]; exact hr.2⟩

end Preservation
section PreservationUpdate

theorem mem_updateProject {s : Store} {id : Id} {f : Project → Project} {q : Project} :
    q ∈ (s.updateProject id f).projects ↔
      ∃ p ∈ s.projects, (if p.id = id then f p else p) = q := by
  simp [Store.updateProject, List.mem_map]

theorem Inv.updateProject {s : Store} (hs : Inv s) {id : Id} {f : Project → Project}
    (hid : ∀ p, (f p).id = p.id) (hbuyer : ∀ p, (f p).buyerId = p.buyerId)
    (hsel : ∀ p ∈ s.projects, p.id = id → ∀ b, (f p).selectedBidId = some b →
      (f p).status ≠ Status.PENDING ∧ ∃ bid ∈ s.bids, bid.id = b ∧ bid.projectId = p.id)
    (hrev : ∀ p ∈ s.projects, p.id = id → p.status = Status.COMPLETED →
      (f p).status = Status.COMPLETED ∧ (f p).selectedBidId = p.selectedBidId) :
    Inv (s.updateProject id f) := by
  obtain ⟨h1, h2, h3, h4, h5, h6, h7, h8, h9⟩ := hs
  have gid : ∀ p : Project, (if p.id = id then f p else p).id = p.id := by
    intro p; split
    · exact hid p
    · rfl
  refine ⟨?_, h2, ?_, h4, ?_, h6, ?_, ?_, h9⟩
  · intro q hq
    obtain ⟨p, hp, rfl⟩ := mem_updateProject.1 hq
    rw [gid]; exact h1 p hp
  · simp only [Store.updateProject]
    rw [List.pairwise_map]
    exact h3.imp (fun {a b} hab => by rw [gid, gid]; exact hab)
  · intro q hq b hb
    obtain ⟨p, hp, rfl⟩ := mem_updateProject.1 hq
    by_cases hpid : p.id = id
    · rw [if_pos hpid] at hb ⊢
      rw [hid]
      exact hsel p hp hpid b hb
    · rw [if_neg hpid] at hb ⊢
      exact h5 p hp b hb
  · intro b hb
    obtain ⟨p, hp, e⟩ := h7 b hb
    exact ⟨_, mem_updateProject.2 ⟨p, hp, rfl⟩, by rw [gid]; exact e⟩
  · intro r hr
    obtain ⟨p, hp, e1, e2, e3, bid, hbid, e4, e5⟩ := h8 r hr
    refine ⟨_, mem_updateProject.2 ⟨p, hp, rfl⟩, by rw [gid]; exact e1, ?_, ?_, bid, hbid, ?_, e5⟩
    · by_cases hpid : p.id = id
      · simp only [hpid, if_true]; exact (hrev p hp hpid e2).1
      · simp only [hpid, if_false]; exact e2
    · by_cases hpid : p.id = id
      · simp only [hpid, if_true]; rw [hbuyer]; exact e3
      · simp only [hpid, if_false]; exact e3
    · by_cases hpid : p.id = id
      · simp only [hpid, if_true]; rw [(hrev p hp hpid e2).2]; exact e4
      · simp only [hpid, if_false]; exact e4

/-- Every step keeps the store well-formed. -/
theorem Inv.step {sv : Services} {s t : Store} {a : Action} (hs : Inv s)
    (h : Step sv s a t) : Inv t := by
  obtain ⟨_, hrun⟩ := h
  cases a with
  | register body =>
    simp only [Action.run] at hrun
    cases hr : register sv body s with
    | error e => simp [hr, Outcome.written] at hrun
    | ok v =>
      obtain ⟨r, t2⟩ := v
      simp only [hr, Outcome.written, Option.some.injEq] at hrun
      subst hrun
      obtain ⟨n, e, p, ro, rfl⟩ := register_ok hr
      exact hs.insertUser n e p ro
  | createProject now u body =>
    simp only [Action.run] at hrun
    cases hr : createProject now u body s with
    | error e => simp [hr, Outcome.written] at hrun
    | ok v =>
      obtain ⟨r, t2⟩ := v
      simp only [hr, Outcome.written, Option.some.injEq] at hrun
      subst hrun
      obtain ⟨_, _, _, _, rfl⟩ := createProject_ok hr
      exact hs.insertProject _ _ _ _ _ _ _
  | updateProject now u id body =>
    simp only [Action.run] at hrun
    cases hr : Marketplace.updateProject now u id body s with
    | error e => simp [hr, Outcome.written] at hrun
    | ok v =>
      obtain ⟨r, t2⟩ := v
      simp only [hr, Outcome.written, Option.some.injEq] at hrun
      subst hrun
      obtain ⟨project, dd, hp, _, hst, _, _, rfl⟩ := updateProject_ok hr
      refine hs.updateProject (fun p => rfl) (fun p => rfl) ?_ ?_
      · intro p hpp _ b hb
        exact hs.selected p hpp b hb
      · intro p _ _ hc
        exact ⟨hc, rfl⟩
  | deleteProject u id =>
    simp only [Action.run] at hrun
    cases hr : Marketplace.deleteProject u id s with
    | error e => simp [hr, Outcome.written] at hrun
    | ok v =>
      obtain ⟨r, t2⟩ := v
      simp only [hr, Outcome.written, Option.some.injEq] at hrun
      subst hrun
      obtain ⟨project, _, _, _, rfl⟩ := deleteProject_ok hr
      exact hs.deleteProject id
  | createBid now u pid body =>
    simp only [Action.run] at hrun
    cases hr : createBid now u pid body s with
    | error e => simp [hr, Outcome.written] at hrun
    | ok v =>
      obtain ⟨r, t2⟩ := v
      simp only [hr, Outcome.written, Option.some.injEq] at hrun
      subst hrun
      obtain ⟨_, _, _, _, project, hp, _, hnone, _, _, _, _, rfl⟩ := createBid_ok hr
      exact hs.insertBid _ _ _ hp hnone
  | selectBid u pid bidId =>
    simp only [Action.run] at hrun
    cases hr : selectBid sv u pid bidId s with
    | error e => simp [hr, Outcome.written] at hrun
    | ok v =>
      obtain ⟨r, t2⟩ := v
      simp only [hr, Outcome.written, Option.some.injEq] at hrun
      subst hrun
      obtain ⟨_, project, bid, hp, _, hst, hbid, _, _, rfl⟩ := selectBid_ok hr
      obtain ⟨hpm, hpid⟩ := findProject_mem hp
      refine hs.updateProject (fun p => rfl) (fun p => rfl) ?_ ?_
      · intro p hpp hpe b hb
        simp only [Option.some.injEq] at hb
        subst hb
        refine ⟨by simp, bid, List.mem_of_find?_eq_some hbid, ?_⟩
        have := List.find?_some hbid
        simp only [decide_eq_true_eq] at this
        exact ⟨this.1, by rw [this.2, hpe]⟩
      · intro p hpp hpe hc
        have : p = project := hs.project_unique hpp hpm (by rw [hpe, hpid])
        subst this
        rw [hst] at hc
        cases hc
  | submitDeliverable now u pid file d =>
    simp only [Action.run] at hrun
    cases hr : submitDeliverable sv now u pid file d s with
    | error e => simp [hr, Outcome.written] at hrun
    | ok v =>
      obtain ⟨r, t2⟩ := v
      simp only [hr, Outcome.written, Option.some.injEq] at hrun
      subst hrun
      obtain ⟨_, _, _, _, url, _, _, _, _, _, _, _, rfl⟩ := submitDeliverable_ok hr
      exact hs.insertDeliverable _ _ _ _
  | completeProject u pid =>
    simp only [Action.run] at hrun
    cases hr : completeProject sv u pid s with
    | error e => simp [hr, Outcome.written] at hrun
    | ok v =>
      obtain ⟨r, t2⟩ := v
      simp only [hr, Outcome.written, Option.some.injEq] at hrun
      subst hrun
      obtain ⟨_, project, hp, _, hst, _, _, rfl⟩ := completeProject_ok hr
      refine hs.updateProject (fun p => rfl) (fun p => rfl) ?_ ?_
      · intro p hpp hpe b hb
        obtain ⟨_, rest⟩ := hs.selected p hpp b hb
        exact ⟨by simp, rest⟩
      · intro p hpp hpe hc
        exact ⟨rfl, rfl⟩
  | createReview now u pid body =>
    simp only [Action.run] at hrun
    cases hr : createReview now u pid body s with
    | error e => simp [hr, Outcome.written] at hrun
    | ok v =>
      obtain ⟨r, t2⟩ := v
      simp only [hr, Outcome.written, Option.some.injEq] at hrun
      subst hrun
      obtain ⟨_, project, sel, q, hp, hb, hst, hnone, hsel, _, _, _, _, rfl⟩ :=
        createReview_ok hr
      rw [← hb]
      exact hs.insertReview now q _ hp hst hnone hsel

/-- Every reachable store is well-formed. -/
theorem Reachable.inv {s : Store} (h : Reachable s) : Inv s := by
  induction h with
  | init => exact Inv.empty
  | step _ hstep ih => exact ih.step hstep

end PreservationUpdate

/-! ## How one step changes the projects -/

section StepEffect

/-- The run of a request that succeeds, unfolded to its handler. -/
theorem written_eq_some {α : Type} {o : Outcome α} {t : Store} (h : o.written = some t) :
    ∃ r, o = .ok (r, t) := by
  cases o with
  | error e => simp [Outcome.written] at h
  | ok v =>
    obtain ⟨r, t2⟩ := v
    simp only [Outcome.written, Option.some.injEq] at h
    subst h
    exact ⟨r, rfl⟩

/-- Every project after a step is either a project of before with the same id
and buyer, whose status and selected bid are unchanged or moved by `selectBid`
(PENDING to IN_PROGRESS, the bid set) or by `completeProject` (IN_PROGRESS to
COMPLETED), or a project just created, PENDING, without a selected bid. -/
theorem step_project_change_of {sv : Services} {s t : Store} {a : Action}
    (hfresh : ∀ p ∈ s.projects, p.id < s.nextId)
    (huniq : s.projects.Pairwise (fun a b => a.id ≠ b.id))
    (h : Step sv s a t) :
    ∀ q ∈ t.projects,
      (∃ p ∈ s.projects, p.id = q.id ∧ q.buyerId = p.buyerId ∧
        ((q.status = p.status ∧ q.selectedBidId = p.selectedBidId) ∨
         (p.status = Status.PENDING ∧ q.status = Status.IN_PROGRESS ∧
            ∃ u bidId, a = Action.selectBid u p.id bidId ∧ q.selectedBidId = some bidId) ∨
         (p.status = Status.IN_PROGRESS ∧ q.status = Status.COMPLETED ∧
            q.selectedBidId = p.selectedBidId ∧ ∃ u, a = Action.completeProject u p.id))) ∨
      ((∀ p ∈ s.projects, p.id ≠ q.id) ∧ q.status = Status.PENDING ∧
        q.selectedBidId = none ∧ ∃ now u body, a = Action.createProject now u body) := by
  have same : ∀ q ∈ s.projects, ∃ p ∈ s.projects, p.id = q.id ∧ q.buyerId = p.buyerId ∧
      ((q.status = p.status ∧ q.selectedBidId = p.selectedBidId) ∨
       (p.status = Status.PENDING ∧ q.status = Status.IN_PROGRESS ∧
          ∃ u bidId, a = Action.selectBid u p.id bidId ∧ q.selectedBidId = some bidId) ∨
       (p.status = Status.IN_PROGRESS ∧ q.status = Status.COMPLETED ∧
          q.selectedBidId = p.selectedBidId ∧ ∃ u, a = Action.completeProject u p.id)) :=
    fun q hq => ⟨q, hq, rfl, rfl, Or.inl ⟨rfl, rfl⟩⟩
  obtain ⟨_, hrun⟩ := h
  intro q hq
  cases a with
  | register body =>
    obtain ⟨r, hr⟩ := written_eq_some hrun
    obtain ⟨n, e, p, ro, rfl⟩ := register_ok hr
    exact Or.inl (same q hq)
  | createProject now u body =>
    obtain ⟨r, hr⟩ := written_eq_some hrun
    obtain ⟨_, _, _, _, rfl⟩ := createProject_ok hr
    simp only [Store.insertProject, List.mem_append, List.mem_singleton] at hq
    rcases hq with hq | rfl
    · exact Or.inl (same q hq)
    · refine Or.inr ⟨?_, rfl, rfl, now, u, body, rfl⟩
      intro p hp
      exact Nat.ne_of_lt (hfresh p hp)
  | updateProject now u id body =>
    obtain ⟨r, hr⟩ := written_eq_some hrun
    obtain ⟨project, dd, hp, _, hst, _, _, rfl⟩ := updateProject_ok hr
    obtain ⟨p, hpm, rfl⟩ := mem_updateProject.1 hq
    refine Or.inl ⟨p, hpm, ?_⟩
    by_cases hpid : p.id = id
    · rw [if_pos hpid]; exact ⟨rfl, rfl, Or.inl ⟨rfl, rfl⟩⟩
    · rw [if_neg hpid]; exact ⟨rfl, rfl, Or.inl ⟨rfl, rfl⟩⟩
  | deleteProject u id =>
    obtain ⟨r, hr⟩ := written_eq_some hrun
    obtain ⟨project, _, _, _, rfl⟩ := deleteProject_ok hr
    exact Or.inl (same q (List.mem_of_mem_filter hq))
  | createBid now u pid body =>
    obtain ⟨r, hr⟩ := written_eq_some hrun
    obtain ⟨_, _, _, _, project, hp, _, hnone, _, _, _, _, rfl⟩ := createBid_ok hr
    exact Or.inl (same q hq)
  | selectBid u pid bidId =>
    obtain ⟨r, hr⟩ := written_eq_some hrun
    obtain ⟨_, project, bid, hp, _, hst, hbid, _, _, rfl⟩ := selectBid_ok hr
    obtain ⟨hpm, hpid⟩ := findProject_mem hp
    obtain ⟨p, hpp, rfl⟩ := mem_updateProject.1 hq
    refine Or.inl ⟨p, hpp, ?_⟩
    by_cases hpe : p.id = pid
    · rw [if_pos hpe]
      have : p = project := eq_of_pairwise_key huniq hpp hpm (by rw [hpe, hpid])
      subst this
      exact ⟨rfl, rfl, Or.inr (Or.inl ⟨hst, rfl, u, bidId, by rw [hpe], rfl⟩)⟩
    · rw [if_neg hpe]; exact ⟨rfl, rfl, Or.inl ⟨rfl, rfl⟩⟩
  | submitDeliverable now u pid file d =>
    obtain ⟨r, hr⟩ := written_eq_some hrun
    obtain ⟨_, _, _, _, url, _, _, _, _, _, _, _, rfl⟩ := submitDeliverable_ok hr
    exact Or.inl (same q hq)
  | completeProject u pid =>
    obtain ⟨r, hr⟩ := written_eq_some hrun
    obtain ⟨_, project, hp, _, hst, _, _, rfl⟩ := completeProject_ok hr
    obtain ⟨hpm, hpid⟩ := findProject_mem hp
    obtain ⟨p, hpp, rfl⟩ := mem_updateProject.1 hq
    refine Or.inl ⟨p, hpp, ?_⟩
    by_cases hpe : p.id = pid
    · rw [if_pos hpe]
      have : p = project := eq_of_pairwise_key huniq hpp hpm (by rw [hpe, hpid])
      subst this
      exact ⟨rfl, rfl, Or.inr (Or.inr ⟨hst, rfl, rfl, u, by rw [hpe]⟩)⟩
    · rw [if_neg hpe]; exact ⟨rfl, rfl, Or.inl ⟨rfl, rfl⟩⟩
  | createReview now u pid body =>
    obtain ⟨r, hr⟩ := written_eq_some hrun
    obtain ⟨_, project, sel, q2, hp, hb, hst, hnone, hsel, _, _, _, _, rfl⟩ :=
      createReview_ok hr
    exact Or.inl (same q hq)

/-- The same over a well-formed store. -/
theorem step_project_change {sv : Services} {s t : Store} {a : Action} (hs : Inv s)
    (h : Step sv s a t) :
    ∀ q ∈ t.projects,
      (∃ p ∈ s.projects, p.id = q.id ∧ q.buyerId = p.buyerId ∧
        ((q.status = p.status ∧ q.selectedBidId = p.selectedBidId) ∨
         (p.status = Status.PENDING ∧ q.status = Status.IN_PROGRESS ∧
            ∃ u bidId, a = Action.selectBid u p.id bidId ∧ q.selectedBidId = some bidId) ∨
         (p.status = Status.IN_PROGRESS ∧ q.status = Status.COMPLETED ∧
            q.selectedBidId = p.selectedBidId ∧ ∃ u, a = Action.completeProject u p.id))) ∨
      ((∀ p ∈ s.projects, p.id ≠ q.id) ∧ q.status = Status.PENDING ∧
        q.selectedBidId = none ∧ ∃ now u body, a = Action.createProject now u body) :=
  step_project_change_of hs.projectFresh hs.projectIds h

/-- A project that has left PENDING is still there after any step. -/
theorem step_project_kept_of {sv : Services} {s t : Store} {a : Action}
    (huniq : s.projects.Pairwise (fun a b => a.id ≠ b.id))
    (h : Step sv s a t) :
    ∀ p ∈ s.projects, p.status ≠ Status.PENDING → ∃ q ∈ t.projects, q.id = p.id := by
  obtain ⟨_, hrun⟩ := h
  intro p hpm hne
  cases a with
  | register body =>
    obtain ⟨r, hr⟩ := written_eq_some hrun
    obtain ⟨n, e, pw, ro, rfl⟩ := register_ok hr
    exact ⟨p, hpm, rfl⟩
  | createProject now u body =>
    obtain ⟨r, hr⟩ := written_eq_some hrun
    obtain ⟨_, _, _, _, rfl⟩ := createProject_ok hr
    exact ⟨p, by simp [Store.insertProject, hpm], rfl⟩
  | updateProject now u id body =>
    obtain ⟨r, hr⟩ := written_eq_some hrun
    obtain ⟨project, dd, hp, _, hst, _, _, rfl⟩ := updateProject_ok hr
    refine ⟨_, mem_updateProject.2 ⟨p, hpm, rfl⟩, ?_⟩
    split <;> rfl
  | deleteProject u id =>
    obtain ⟨r, hr⟩ := written_eq_some hrun
    obtain ⟨project, hfind, _, hst, rfl⟩ := deleteProject_ok hr
    obtain ⟨hprm, hpid⟩ := findProject_mem hfind
    refine ⟨p, ?_, rfl⟩
    simp only [Store.deleteProject, List.mem_filter, decide_eq_true_eq]
    refine ⟨hpm, fun hpe => hne ?_⟩
    have : p = project := eq_of_pairwise_key huniq hpm hprm (by rw [hpe, hpid])
    rw [this]; exact hst
  | createBid now u pid body =>
    obtain ⟨r, hr⟩ := written_eq_some hrun
    obtain ⟨_, _, _, _, project, hp, _, hnone, _, _, _, _, rfl⟩ := createBid_ok hr
    exact ⟨p, hpm, rfl⟩
  | selectBid u pid bidId =>
    obtain ⟨r, hr⟩ := written_eq_some hrun
    obtain ⟨_, project, bid, hp, _, hst, hbid, _, _, rfl⟩ := selectBid_ok hr
    refine ⟨_, mem_updateProject.2 ⟨p, hpm, rfl⟩, ?_⟩
    split <;> rfl
  | submitDeliverable now u pid file d =>
    obtain ⟨r, hr⟩ := written_eq_some hrun
    obtain ⟨_, _, _, _, url, _, _, _, _, _, _, _, rfl⟩ := submitDeliverable_ok hr
    exact ⟨p, hpm, rfl⟩
  | completeProject u pid =>
    obtain ⟨r, hr⟩ := written_eq_some hrun
    obtain ⟨_, project, hp, _, hst, _, _, rfl⟩ := completeProject_ok hr
    refine ⟨_, mem_updateProject.2 ⟨p, hpm, rfl⟩, ?_⟩
    split <;> rfl
  | createReview now u pid body =>
    obtain ⟨r, hr⟩ := written_eq_some hrun
    obtain ⟨_, project, sel, q2, hp, hb, hst, hnone, hsel, _, _, _, _, rfl⟩ :=
      createReview_ok hr
    exact ⟨p, hpm, rfl⟩

/-- The same over a well-formed store. -/
theorem step_project_kept {sv : Services} {s t : Store} {a : Action} (hs : Inv s)
    (h : Step sv s a t) :
    ∀ p ∈ s.projects, p.status ≠ Status.PENDING → ∃ q ∈ t.projects, q.id = p.id :=
  step_project_kept_of hs.projectIds h

end StepEffect

/-! ## Sample run -/

section SampleRun

theorem authentic_iff {a : Action} {s : Store} :
    a.authentic s = true ↔ ∀ u, a.caller = some u → u ∈ s.users := by
  unfold Action.authentic
  cases a.caller <;> simp

/-- A checked run reaches only reachable stores. -/
theorem runSteps_reachable {sv : Services} {as : List Action} {s t : Store}
    (hs : Reachable s) (h : runSteps sv as s = some t) : Reachable t := by
  induction as generalizing s with
  | nil =>
    simp only [runSteps, Option.some.injEq] at h
    subst h; exact hs
  | cons a rest ih =>
    simp only [runSteps] at h
    split at h
    · rename_i ha
      cases hrun : a.run sv s with
      | none => simp [hrun] at h
      | some m =>
        simp only [hrun, Option.some_bind] at h
        exact ih (Reachable.step hs ⟨authentic_iff.1 ha, hrun⟩) h
    · cases h

/-- Every store of the sample run is reachable. -/
theorem demoStore_reachable (k : Nat) : Reachable (demoStore k) := by
  unfold demoStore
  cases h : runSteps demoServices (demoActions.take k) Store.empty with
  | none => exact Reachable.init
  | some t => exact runSteps_reachable Reachable.init h

end SampleRun

/-! ## Claims -/

/-- C1: over the steps of the successful handlers from a reachable store, a
project that appears in a step has status PENDING, a project that is there
before and after keeps its status or moves PENDING to IN_PROGRESS (the step
being a selectBid on it) or IN_PROGRESS to COMPLETED (the step being a
completeProject on it), so its rank never decreases and grows by at most one;
the project `createProject` answers with is PENDING. -/
theorem status_only_moves_forward {sv : Services} {s t : Store} {a : Action}
    (hs : Reachable s) (h : Step sv s a t) :
    (∀ q ∈ t.projects, (∀ p ∈ s.projects, p.id ≠ q.id) → q.status = Status.PENDING) ∧
    (∀ p ∈ s.projects, ∀ q ∈ t.projects, q.id = p.id →
      (q.status = p.status ∨
       (p.status = Status.PENDING ∧ q.status = Status.IN_PROGRESS ∧
          ∃ u bidId, a = Action.selectBid u p.id bidId) ∨
       (p.status = Status.IN_PROGRESS ∧ q.status = Status.COMPLETED ∧
          ∃ u, a = Action.completeProject u p.id)) ∧
      p.status.rank ≤ q.status.rank ∧ q.status.rank ≤ p.status.rank + 1) ∧
    (∀ now u body r m, createProject now u body s = .ok (r, m) →
      r.data.status = Status.PENDING ∧ r.data ∈ m.projects) := by
  have hi := hs.inv
  refine ⟨?_, ?_, ?_⟩
  · intro q hq hnew
    rcases step_project_change hi h q hq with ⟨p, hp, hid, _⟩ | ⟨_, hst, _⟩
    · exact absurd hid (hnew p hp)
    · exact hst
  · intro p hp q hq hid
    rcases step_project_change hi h q hq with ⟨p2, hp2, hid2, _, hch⟩ | ⟨hnew, _⟩
    · have : p2 = p := hi.project_unique hp2 hp (by rw [hid2, hid])
      subst this
      rcases hch with ⟨e, _⟩ | ⟨e1, e2, u, b, ea, _⟩ | ⟨e1, e2, _, u, ea⟩
      · exact ⟨Or.inl e, by rw [e], by rw [e]; exact Nat.le_succ _⟩
      · exact ⟨Or.inr (Or.inl ⟨e1, e2, u, b, ea⟩), by rw [e1, e2]; decide,
          by rw [e1, e2]; decide⟩
      · exact ⟨Or.inr (Or.inr ⟨e1, e2, u, ea⟩), by rw [e1, e2]; decide,
          by rw [e1, e2]; decide⟩
    · exact absurd hid.symm (hnew p hp)
  · intro now u body r m hr
    obtain ⟨_, _, _, rfl, rfl⟩ := createProject_ok hr
    exact ⟨rfl, by simp [Store.insertProject]⟩

/-- C1 at the sample run: the step that selects the bid. -/
theorem status_only_moves_forward_witness :
    Reachable (demoStore 4) ∧
    Step demoServices (demoStore 4) (Action.selectBid demoBuyer 1 3) (demoStore 5) ∧
    ((∀ q ∈ (demoStore 5).projects, (∀ p ∈ (demoStore 4).projects, p.id ≠ q.id) →
        q.status = Status.PENDING) ∧
    (∀ p ∈ (demoStore 4).projects, ∀ q ∈ (demoStore 5).projects, q.id = p.id →
      (q.status = p.status ∨
       (p.status = Status.PENDING ∧ q.status = Status.IN_PROGRESS ∧
          ∃ u bidId, Action.selectBid demoBuyer 1 3 = Action.selectBid u p.id bidId) ∨
       (p.status = Status.IN_PROGRESS ∧ q.status = Status.COMPLETED ∧
          ∃ u, Action.selectBid demoBuyer 1 3 = Action.completeProject u p.id)) ∧
      p.status.rank ≤ q.status.rank ∧ q.status.rank ≤ p.status.rank + 1) ∧
    (∀ now u body r m, createProject now u body (demoStore 4) = .ok (r, m) →
      r.data.status = Status.PENDING ∧ r.data ∈ m.projects)) :=
  have hstep : Step demoServices (demoStore 4) (Action.selectBid demoBuyer 1 3) (demoStore 5) := by
    decide
  ⟨demoStore_reachable 4, hstep, status_only_moves_forward (demoStore_reachable 4) hstep⟩

/-- C5: in every reachable store no two bids share their (projectId, sellerId)
pair, and createBid by a seller who already has a bid on the project answers
400 and writes nothing. -/
theorem one_bid_per_seller_and_project {s : Store} (hs : Reachable s) :
    s.bids.Pairwise (fun a b => ¬(a.projectId = b.projectId ∧ a.sellerId = b.sellerId)) ∧
    (∀ a ∈ s.bids, ∀ b ∈ s.bids, a.projectId = b.projectId → a.sellerId = b.sellerId →
      a = b) ∧
    (∀ now u pid body, u.role = Role.SELLER →
      (∃ b ∈ s.bids, b.projectId = pid ∧ b.sellerId = u.id) →
      (createBid now u pid body s).httpStatus = 400 ∧
      (createBid now u pid body s).written = none ∧
      (createBid now u pid body s).storeAfter s = s) := by
  have hi := hs.inv
  refine ⟨hi.bidPairs, ?_, ?_⟩
  · intro a ha b hb h1 h2
    exact eq_of_pairwise_not (R := fun a b : Bid => a.projectId = b.projectId ∧ a.sellerId = b.sellerId)
      (fun _ _ h => ⟨h.1.symm, h.2.symm⟩) hi.bidPairs ha hb ⟨h1, h2⟩
  · intro now u pid body hrole ⟨b, hb, hbp, hbs⟩
    have key : ∃ msg, createBid now u pid body s = fail msg 400 := by
      unfold createBid
      split
      · rename_i h; exact absurd hrole h
      split
      · exact ⟨_, rfl⟩
      split
      · rename_i hnone
        obtain ⟨p, hp, hpid⟩ := hi.bidProject b hb
        unfold Store.findProject at hnone
        have := List.find?_eq_none.1 hnone p hp
        simp [hpid, hbp] at this
      split
      · exact ⟨_, rfl⟩
      split
      · exact ⟨_, rfl⟩
      · rename_i hnone
        have := List.find?_eq_none.1 hnone b hb
        simp [hbp, hbs] at this
    obtain ⟨msg, hmsg⟩ := key
    rw [hmsg]
    exact ⟨rfl, rfl, rfl⟩

/-- C5 at the sample run: the seller bids a second time on the project. -/
theorem one_bid_per_seller_and_project_witness :
    Reachable (demoStore 4) ∧
    (createBid demoNow demoSeller 1 demoBidBody (demoStore 4)).httpStatus = 400 ∧
    ((demoStore 4).bids.Pairwise
      (fun a b => ¬(a.projectId = b.projectId ∧ a.sellerId = b.sellerId)) ∧
    (∀ a ∈ (demoStore 4).bids, ∀ b ∈ (demoStore 4).bids, a.projectId = b.projectId →
      a.sellerId = b.sellerId → a = b) ∧
    (∀ now u pid body, u.role = Role.SELLER →
      (∃ b ∈ (demoStore 4).bids, b.projectId = pid ∧ b.sellerId = u.id) →
      (createBid now u pid body (demoStore 4)).httpStatus = 400 ∧
      (createBid now u pid body (demoStore 4)).written = none ∧
      (createBid now u pid body (demoStore 4)).storeAfter (demoStore 4) = demoStore 4)) :=
  ⟨demoStore_reachable 4, by decide, one_bid_per_seller_and_project (demoStore_reachable 4)⟩

/-- In a well-formed store the lookup by id finds the project of that id. -/
theorem Inv.findProject_of_mem {s : Store} (hs : Inv s) {p : Project} (hp : p ∈ s.projects) :
    s.findProject p.id = some p := by
  cases h : s.findProject p.id with
  | none =>
    unfold Store.findProject at h
    have := List.find?_eq_none.1 h p hp
    simp at this
  | some q =>
    obtain ⟨hq, hid⟩ := findProject_mem h
    rw [hs.project_unique hq hp hid]

/-- The guards of `createReview` on the project fail the request. -/
theorem createReview_refused {s : Store} (now : Int) (u : User) {pid : Id} (body : ReviewBody)
    {project : Project} (hp : s.findProject pid = some project)
    (hbad : project.status ≠ Status.COMPLETED ∨ (s.reviewOf project).isSome = true ∨
      s.selectedBid project = none) :
    ∃ msg code, createReview now u pid body s = fail msg code ∧ (code = 400 ∨ code = 403) ∧
      (u.role = Role.BUYER → project.buyerId = u.id → code = 400) := by
  unfold createReview
  split
  · rename_i h; exact ⟨_, _, rfl, Or.inr rfl, fun hr => absurd hr h⟩
  split
  · exact ⟨_, _, rfl, Or.inl rfl, fun _ _ => rfl⟩
  rw [hp]
  dsimp only
  split
  · rename_i h; exact ⟨_, _, rfl, Or.inr rfl, fun _ hb => absurd hb h⟩
  split
  · exact ⟨_, _, rfl, Or.inl rfl, fun _ _ => rfl⟩
  split
  · exact ⟨_, _, rfl, Or.inl rfl, fun _ _ => rfl⟩
  split
  · exact ⟨_, _, rfl, Or.inl rfl, fun _ _ => rfl⟩
  · rename_i h1 h2 _ sel hsel
    rcases hbad with h | h | h
    · exact absurd (by simpa using h1) h
    · exact absurd h h2
    · rw [h] at hsel; cases hsel

/-- C6, amended: in every store reached by requests handled one after the
other, each review sits on a project that is COMPLETED and has a selected bid,
with the review's seller the seller of that bid and its buyer the project's
buyer, and no two reviews are on one project; createReview on a project that is
not COMPLETED, already has a review or has no selected bid fails with a 400 or
a 403 and writes nothing, the answer being 400 when the caller is a BUYER who
owns the project. -/
theorem review_only_on_completed_project {s : Store} (hs : Reachable s) :
    (∀ r ∈ s.reviews, ∃ p ∈ s.projects, p.id = r.projectId ∧
      p.status = Status.COMPLETED ∧ r.buyerId = p.buyerId ∧
      ∃ bid ∈ s.bids, p.selectedBidId = some bid.id ∧ bid.projectId = p.id ∧
        r.sellerId = bid.sellerId) ∧
    s.reviews.Pairwise (fun a b => a.projectId ≠ b.projectId) ∧
    (∀ a ∈ s.reviews, ∀ b ∈ s.reviews, a.projectId = b.projectId → a = b) ∧
    (∀ now u body, ∀ p ∈ s.projects,
      (p.status ≠ Status.COMPLETED ∨ (∃ r ∈ s.reviews, r.projectId = p.id) ∨
        p.selectedBidId = none) →
      (createReview now u p.id body s).written = none ∧
      (createReview now u p.id body s).storeAfter s = s ∧
      ((createReview now u p.id body s).httpStatus = 400 ∨
        (createReview now u p.id body s).httpStatus = 403) ∧
      (u.role = Role.BUYER → p.buyerId = u.id →
        (createReview now u p.id body s).httpStatus = 400)) := by
  have hi := hs.inv
  refine ⟨?_, hi.reviewPairs, ?_, ?_⟩
  · intro r hr
    obtain ⟨p, hp, e1, e2, e3, bid, hbid, e4, e5⟩ := hi.reviewed r hr
    obtain ⟨_, bid2, hbid2, e6, e7⟩ := hi.selected p hp bid.id e4
    have hb : bid2 = bid := hi.bid_unique hbid2 hbid e6
    subst hb
    exact ⟨p, hp, e1, e2, e3, bid2, hbid, e4, e7, e5.symm⟩
  · intro a ha b hb h
    exact eq_of_pairwise_key (k := fun r : Review => r.projectId) hi.reviewPairs ha hb h
  · intro now u body p hp hbad
    have hfind := hi.findProject_of_mem hp
    have hbad2 : p.status ≠ Status.COMPLETED ∨ (s.reviewOf p).isSome = true ∨
        s.selectedBid p = none := by
      rcases hbad with h | ⟨r, hr, hrp⟩ | h
      · exact Or.inl h
      · refine Or.inr (Or.inl ?_)
        unfold Store.reviewOf
        rw [List.find?_isSome]
        exact ⟨r, hr, by simpa using hrp⟩
      · refine Or.inr (Or.inr ?_)
        unfold Store.selectedBid
        rw [h]; rfl
    obtain ⟨msg, code, hres, hcode, hown⟩ :=
      createReview_refused now u body hfind hbad2
    rw [hres]
    exact ⟨rfl, rfl, hcode, hown⟩

/-- C6, amended, at the end of the sample run: the project is reviewed, and a
second review by its buyer is refused. -/
theorem review_only_on_completed_project_witness :
    Reachable (demoStore 8) ∧
    (demoStore 8).reviews.map (fun r => (r.projectId, r.sellerId, r.buyerId)) = [(1, 2, 0)] ∧
    ((∀ r ∈ (demoStore 8).reviews, ∃ p ∈ (demoStore 8).projects, p.id = r.projectId ∧
      p.status = Status.COMPLETED ∧ r.buyerId = p.buyerId ∧
      ∃ bid ∈ (demoStore 8).bids, p.selectedBidId = some bid.id ∧ bid.projectId = p.id ∧
        r.sellerId = bid.sellerId) ∧
    (demoStore 8).reviews.Pairwise (fun a b => a.projectId ≠ b.projectId) ∧
    (∀ a ∈ (demoStore 8).reviews, ∀ b ∈ (demoStore 8).reviews,
      a.projectId = b.projectId → a = b) ∧
    (∀ now u body, ∀ p ∈ (demoStore 8).projects,
      (p.status ≠ Status.COMPLETED ∨ (∃ r ∈ (demoStore 8).reviews, r.projectId = p.id) ∨
        p.selectedBidId = none) →
      (createReview now u p.id body (demoStore 8)).written = none ∧
      (createReview now u p.id body (demoStore 8)).storeAfter (demoStore 8) = demoStore 8 ∧
      ((createReview now u p.id body (demoStore 8)).httpStatus = 400 ∨
        (createReview now u p.id body (demoStore 8)).httpStatus = 403) ∧
      (u.role = Role.BUYER → p.buyerId = u.id →
        (createReview now u p.id body (demoStore 8)).httpStatus = 400))) :=
  ⟨demoStore_reachable 8, by decide, review_only_on_completed_project (demoStore_reachable 8)⟩

/-- A non-empty text field is truthy. -/
theorem textTruthy_some {t : String} (h : t ≠ "") : textTruthy (some t) = true := by
  unfold textTruthy
  have : t.isEmpty = false := by
    cases hte : t.isEmpty with
    | false => rfl
    | true =>
      exact absurd (by simpa [String.isEmpty_iff] using hte) h
  simp [this]

/-- C10: for a non-empty email and password, login on a store without a user
of that email and login on a store where the user is found but the password
does not verify give the same failure, status 401 with message
`Invalid email or password`. -/
theorem login_uniform_failure (sv : Services) (email password : String) (s1 s2 : Store)
    (u : User) (he : email ≠ "") (hp : password ≠ "")
    (h1 : ∀ x ∈ s1.users, x.email ≠ email)
    (h2 : s2.findUserByEmail email = some u)
    (hwrong : sv.compare password u.password = false) :
    login sv ⟨some email, some password⟩ s1 = fail "Invalid email or password" 401 ∧
    login sv ⟨some email, some password⟩ s2 = fail "Invalid email or password" 401 ∧
    login sv ⟨some email, some password⟩ s1 = login sv ⟨some email, some password⟩ s2 := by
  have hnone : s1.findUserByEmail email = none := by
    unfold Store.findUserByEmail
    rw [List.find?_eq_none]
    intro x hx
    simpa using h1 x hx
  have a : login sv ⟨some email, some password⟩ s1 = fail "Invalid email or password" 401 := by
    unfold login
    simp [textTruthy_some he, textTruthy_some hp, hnone]
  have b : login sv ⟨some email, some password⟩ s2 = fail "Invalid email or password" 401 := by
    unfold login
    simp [textTruthy_some he, textTruthy_some hp, h2, hwrong]
  exact ⟨a, b, a.trans b.symm⟩

/-- C10 at the sample run: the seller's email before the seller registers, and
the seller's email with a wrong password after. -/
theorem login_uniform_failure_witness :
    "sol@example.com" ≠ "" ∧ "wrong-pw" ≠ "" ∧
    (∀ x ∈ (demoStore 2).users, x.email ≠ "sol@example.com") ∧
    (demoStore 3).findUserByEmail "sol@example.com" = some demoSeller ∧
    demoServices.compare "wrong-pw" demoSeller.password = false ∧
    login demoServices ⟨some "sol@example.com", some "wrong-pw"⟩ (demoStore 2)
      = fail "Invalid email or password" 401 ∧
    login demoServices ⟨some "sol@example.com", some "wrong-pw"⟩ (demoStore 3)
      = fail "Invalid email or password" 401 ∧
    login demoServices ⟨some "sol@example.com", some "wrong-pw"⟩ (demoStore 2)
      = login demoServices ⟨some "sol@example.com", some "wrong-pw"⟩ (demoStore 3) :=
  ⟨by decide, by decide, by decide, by decide, by decide,
    login_uniform_failure demoServices "sol@example.com" "wrong-pw" (demoStore 2) (demoStore 3)
      demoSeller (by decide) (by decide) (by decide) (by decide) (by decide)⟩

/-! ### Guards that a `NaN` slips through -/

/-- Between two numbers neither of which is `NaN`, `a < b` being false means
`b <= a`. -/
theorem JsNum.le_of_lt_eq_false {a b : JsNum} (ha : a ≠ JsNum.nan) (hb : b ≠ JsNum.nan)
    (h : JsNum.lt a b = false) : JsNum.le b a = true := by
  cases a <;> cases b <;> simp_all [JsNum.lt, JsNum.le]

/-- What the budget guard of `createBid` does ensure: a bid is persisted only
with an amount inside the budget range, bounds included, unless the parsed
amount or one of the two budgets is `NaN`. -/
theorem createBid_amount_checked {now : Int} {u : User} {pid : Id} {body : BidBody}
    {s t : Store} {r : Reply BidWithSeller} (h : createBid now u pid body s = .ok (r, t)) :
    ∃ project, s.findProject pid = some project ∧
      (parseFloat body.bidAmount = JsNum.nan ∨ project.budgetMin = JsNum.nan ∨
        project.budgetMax = JsNum.nan ∨
        JsNum.Within project.budgetMin (parseFloat body.bidAmount) project.budgetMax) := by
  obtain ⟨_, _, _, _, project, hp, _, _, hlo, hhi, _, _, _⟩ := createBid_ok h
  refine ⟨project, hp, ?_⟩
  by_cases h1 : parseFloat body.bidAmount = JsNum.nan
  · exact Or.inl h1
  by_cases h2 : project.budgetMin = JsNum.nan
  · exact Or.inr (Or.inl h2)
  by_cases h3 : project.budgetMax = JsNum.nan
  · exact Or.inr (Or.inr (Or.inl h3))
  exact Or.inr (Or.inr (Or.inr
    ⟨JsNum.le_of_lt_eq_false h1 h2 hlo, JsNum.le_of_lt_eq_false h3 h1 hhi⟩))

/-- What the date guards of `createBid` do ensure: a bid is persisted only with
a completion date after now and not after the deadline, unless the completion
date or the deadline is an Invalid Date. -/
theorem createBid_completion_checked {now : Int} {u : User} {pid : Id} {body : BidBody}
    {s t : Store} {r : Reply BidWithSeller} (h : createBid now u pid body s = .ok (r, t)) :
    ∃ project, s.findProject pid = some project ∧
      (newDate body.estimatedCompletion = none ∨
        ∃ c, newDate body.estimatedCompletion = some c ∧ now < c ∧
          (project.deadline = none ∨ ∃ d, project.deadline = some d ∧ c ≤ d)) := by
  obtain ⟨_, _, _, _, project, hp, _, _, _, _, hnow, hdl, _⟩ := createBid_ok h
  refine ⟨project, hp, ?_⟩
  cases hc : newDate body.estimatedCompletion with
  | none => exact Or.inl rfl
  | some c =>
    refine Or.inr ⟨c, rfl, ?_, ?_⟩
    · rw [hc] at hnow
      simpa [JsDate.toNum, JsNum.le, JsNum.lt] using hnow
    · cases hd : project.deadline with
      | none => exact Or.inl rfl
      | some d =>
        refine Or.inr ⟨d, rfl, ?_⟩
        rw [hc, hd] at hdl
        simpa [JsDate.toNum, JsNum.gt, JsNum.lt] using hdl

/-- C3, the defect: in the sample run the project's budget is 100 to 500 and the
seller bids with bidAmount `abc`. `parseFloat` gives `NaN`, which is not inside
the range, both comparisons of the guard are false, and the bid is created (201)
with amount `NaN`; amounts equal to a bound are accepted, and 99 and 501 are
refused with 400. -/
theorem createBid_accepts_unparsable_amount :
    (demoStore 3).projects.map (fun p => (p.id, p.budgetMin, p.budgetMax, p.status))
      = [(1, JsNum.fin 100, JsNum.fin 500, Status.PENDING)] ∧
    parseFloat (.str "abc") = JsNum.nan ∧
    ¬JsNum.Within (JsNum.fin 100) (parseFloat (.str "abc")) (JsNum.fin 500) ∧
    (createBid demoNow demoSeller 1
      ⟨.str "abc", .str "2026-11-07T21:17:00.000Z", some "I can do it"⟩
      (demoStore 3)).httpStatus = 201 ∧
    (createBid demoNow demoSeller 1
      ⟨.str "abc", .str "2026-11-07T21:17:00.000Z", some "I can do it"⟩
      (demoStore 3)).written.map (fun t => t.bids.map (fun b => (b.projectId, b.bidAmount)))
      = some [(1, JsNum.nan)] ∧
    (createBid demoNow demoSeller 1
      ⟨.str "100", .str "2026-11-07T21:17:00.000Z", some "I can do it"⟩
      (demoStore 3)).httpStatus = 201 ∧
    (createBid demoNow demoSeller 1
      ⟨.num (.fin 500), .str "2026-11-07T21:17:00.000Z", some "I can do it"⟩
      (demoStore 3)).httpStatus = 201 ∧
    (createBid demoNow demoSeller 1
      ⟨.num (.fin 99), .str "2026-11-07T21:17:00.000Z", some "I can do it"⟩
      (demoStore 3)).httpStatus = 400 ∧
    (createBid demoNow demoSeller 1
      ⟨.str "501", .str "2026-11-07T21:17:00.000Z", some "I can do it"⟩
      (demoStore 3)).httpStatus = 400 := by
  decide

/-- C4, the defect: in the sample run the seller bids with estimatedCompletion
`soon`, or with the number 1e16. `new Date` gives an Invalid Date, which is
neither after now nor on or before the deadline, both comparisons of the guards
are false, and the bid is created (201) with that date; a date equal to the
deadline is accepted, and now itself and a date past the deadline are refused
with 400. -/
theorem createBid_accepts_invalid_completion_date :
    (demoStore 3).projects.map (fun p => (p.id, p.deadline, p.status))
      = [(1, some 1794431820000, Status.PENDING)] ∧
    newDate (.str "soon") = none ∧
    newDate (.num (.fin 10000000000000000)) = none ∧
    (createBid demoNow demoSeller 1 ⟨.num (.fin 300), .str "soon", some "I can do it"⟩
      (demoStore 3)).httpStatus = 201 ∧
    (createBid demoNow demoSeller 1 ⟨.num (.fin 300), .str "soon", some "I can do it"⟩
      (demoStore 3)).written.map
        (fun t => t.bids.map (fun b => (b.projectId, b.estimatedCompletion)))
      = some [(1, none)] ∧
    (createBid demoNow demoSeller 1
      ⟨.num (.fin 300), .num (.fin 10000000000000000), some "I can do it"⟩
      (demoStore 3)).httpStatus = 201 ∧
    (createBid demoNow demoSeller 1
      ⟨.num (.fin 300), .str "2026-11-11T21:17:00.000Z", some "I can do it"⟩
      (demoStore 3)).httpStatus = 201 ∧
    (createBid demoNow demoSeller 1
      ⟨.num (.fin 300), .str "2026-11-04T21:17:00.000Z", some "I can do it"⟩
      (demoStore 3)).httpStatus = 400 ∧
    (createBid demoNow demoSeller 1
      ⟨.num (.fin 300), .str "2026-11-11T21:17:00.001Z", some "I can do it"⟩
      (demoStore 3)).httpStatus = 400 := by
  decide

/-- Between two numbers neither of which is `NaN`, `a >= b` being false means
`a < b`. -/
theorem JsNum.lt_of_ge_eq_false {a b : JsNum} (ha : a ≠ JsNum.nan) (hb : b ≠ JsNum.nan)
    (h : JsNum.ge a b = false) : JsNum.lt a b = true := by
  cases a <;> cases b <;> simp_all [JsNum.lt, JsNum.le, JsNum.ge]

/-- What the budget guard of `createProject` does ensure: the project is
persisted with the parsed budgets, the minimum below the maximum unless one of
them parsed to `NaN`. -/
theorem createProject_budget_checked {now : Int} {u : User} {body : ProjectBody}
    {s t : Store} {r : Reply Project} (h : createProject now u body s = .ok (r, t)) :
    r.data.budgetMin = parseFloat body.budgetMin ∧
    r.data.budgetMax = parseFloat body.budgetMax ∧ r.data ∈ t.projects ∧
    (r.data.budgetMin = JsNum.nan ∨ r.data.budgetMax = JsNum.nan ∨
      JsNum.lt r.data.budgetMin r.data.budgetMax = true) := by
  obtain ⟨_, hge, _, rfl, rfl⟩ := createProject_ok h
  refine ⟨rfl, rfl, by simp [Store.insertProject], ?_⟩
  by_cases h1 : parseFloat body.budgetMin = JsNum.nan
  · exact Or.inl h1
  by_cases h2 : parseFloat body.budgetMax = JsNum.nan
  · exact Or.inr (Or.inl h2)
  exact Or.inr (Or.inr (JsNum.lt_of_ge_eq_false h1 h2 hge))

/-- What the budget guard of `updateProject` does ensure: when the body gives
both budgets, the project is left with the minimum below the maximum unless one
of them parsed to `NaN`. -/
theorem updateProject_both_budgets_checked {now : Int} {u : User} {id : Id}
    {body : ProjectBody} {s t : Store} {r : Reply Project}
    (h : updateProject now u id body s = .ok (r, t))
    (hmin : truthy body.budgetMin = true) (hmax : truthy body.budgetMax = true) :
    r.data.budgetMin = parseFloat body.budgetMin ∧
    r.data.budgetMax = parseFloat body.budgetMax ∧
    (r.data.budgetMin = JsNum.nan ∨ r.data.budgetMax = JsNum.nan ∨
      JsNum.lt r.data.budgetMin r.data.budgetMax = true) := by
  obtain ⟨project, dd, _, _, _, hge, rfl, _⟩ := updateProject_ok h
  simp only [hmin, hmax, Bool.true_and] at hge
  have e1 : (applyProjectPatch body dd project).budgetMin = parseFloat body.budgetMin := by
    simp [applyProjectPatch, hmin]
  have e2 : (applyProjectPatch body dd project).budgetMax = parseFloat body.budgetMax := by
    simp [applyProjectPatch, hmax]
  refine ⟨e1, e2, ?_⟩
  show (applyProjectPatch body dd project).budgetMin = JsNum.nan ∨
    (applyProjectPatch body dd project).budgetMax = JsNum.nan ∨
    JsNum.lt (applyProjectPatch body dd project).budgetMin
      (applyProjectPatch body dd project).budgetMax = true
  rw [e1, e2]
  by_cases h1 : parseFloat body.budgetMin = JsNum.nan
  · exact Or.inl h1
  by_cases h2 : parseFloat body.budgetMax = JsNum.nan
  · exact Or.inr (Or.inl h2)
  exact Or.inr (Or.inr (JsNum.lt_of_ge_eq_false h1 h2 hge))

/-- C7, the defect: in the sample run the project has budget 100 to 500 and its
buyer sends an update with budgetMin 1000 alone. The budget guard runs only
when both budgets are given: the update succeeds (200) and the stored project
has budgetMin 1000 above budgetMax 500; likewise budgetMax 50 alone leaves 100
above 50. `createProject` with budgetMin `abc` persists a `NaN` minimum. -/
theorem updateProject_stores_min_above_max :
    (demoStore 2).projects.map (fun p => (p.id, p.budgetMin, p.budgetMax, p.status, p.buyerId))
      = [(1, JsNum.fin 100, JsNum.fin 500, Status.PENDING, 0)] ∧
    (updateProject demoNow demoBuyer 1
      ⟨none, none, .num (.fin 1000), .undefined, .undefined⟩ (demoStore 2)).httpStatus = 200 ∧
    (updateProject demoNow demoBuyer 1
      ⟨none, none, .num (.fin 1000), .undefined, .undefined⟩ (demoStore 2)).written.map
        (fun t => t.projects.map (fun p => (p.id, p.budgetMin, p.budgetMax)))
      = some [(1, JsNum.fin 1000, JsNum.fin 500)] ∧
    JsNum.lt (JsNum.fin 1000) (JsNum.fin 500) = false ∧
    (updateProject demoNow demoBuyer 1
      ⟨none, none, .undefined, .str "50", .undefined⟩ (demoStore 2)).written.map
        (fun t => t.projects.map (fun p => (p.id, p.budgetMin, p.budgetMax)))
      = some [(1, JsNum.fin 100, JsNum.fin 50)] ∧
    (createProject demoNow demoBuyer
      ⟨some "Logo", some "A logo", .str "abc", .num (.fin 500), .str "2026-11-11T21:17:00.000Z"⟩
      (demoStore 1)).written.map
        (fun t => t.projects.map (fun p => (p.id, p.budgetMin, p.budgetMax)))
      = some [(1, JsNum.nan, JsNum.fin 500)] := by
  decide

/-- What the rating guard of `createReview` does ensure for a number: every
number outside 1 to 5, `NaN` and the infinities included, is refused with
`Rating must be between 1 and 5`, as is an absent rating. -/
theorem createReview_number_rating_checked (now : Int) (u : User) (pid : Id)
    (txt : Option String) (s : Store) (hrole : u.role = Role.BUYER) :
    (∀ n, ¬JsNum.Within (JsNum.fin 1) n (JsNum.fin 5) →
      createReview now u pid ⟨.num n, txt⟩ s = fail "Rating must be between 1 and 5" 400) ∧
    createReview now u pid ⟨.undefined, txt⟩ s = fail "Rating must be between 1 and 5" 400 := by
  refine ⟨?_, ?_⟩
  · intro n hn
    have hguard : (!truthy (.num n) || JsNum.lt (toNumber (.num n)) (JsNum.fin 1)
        || JsNum.gt (toNumber (.num n)) (JsNum.fin 5)) = true := by
      cases n with
      | nan => rfl
      | negInf => rfl
      | posInf => rfl
      | fin q =>
        simp only [JsNum.Within, JsNum.le, JsNum.lt, Bool.not_eq_true', decide_eq_false_iff_not,
          not_lt, not_and, not_le] at hn
        simp only [truthy, JsNum.truthy, toNumber, JsNum.lt, JsNum.gt, Bool.or_eq_true,
          Bool.not_eq_true', decide_eq_false_iff_not, decide_eq_true_eq]
        by_cases h1 : q < 1
        · exact Or.inl (Or.inr h1)
        · exact Or.inr (hn (not_lt.1 h1))
    unfold createReview
    rw [if_neg (by simp [hrole]), if_pos hguard]
  · unfold createReview
    rw [if_neg (by simp [hrole])]
    rfl

/-- C9, the defect: at the end of the sample run, before the review, the buyer
sends rating `abc`. The string is truthy and converts to `NaN`, so neither
`rating < 1` nor `rating > 5` holds and the guard lets it through; no
`Rating must be between 1 and 5` is answered, the value reaches `review.create`
and the store's refusal surfaces as a 500. Ratings 0, 6 and an absent rating get
the 400, and rating 5 is accepted. -/
theorem createReview_passes_non_numeric_rating :
    (demoStore 7).projects.map (fun p => (p.id, p.status, p.buyerId, p.selectedBidId))
      = [(1, Status.COMPLETED, 0, some 3)] ∧
    (demoStore 7).reviews = [] ∧
    toNumber (.str "abc") = JsNum.nan ∧
    (!truthy (.str "abc") || JsNum.lt (toNumber (.str "abc")) (JsNum.fin 1)
      || JsNum.gt (toNumber (.str "abc")) (JsNum.fin 5)) = false ∧
    createReview demoNow demoBuyer 1 ⟨.str "abc", some "great"⟩ (demoStore 7)
      = .error (.thrown "PrismaClientValidationError") ∧
    (createReview demoNow demoBuyer 1 ⟨.str "abc", some "great"⟩ (demoStore 7)).httpStatus
      = 500 ∧
    createReview demoNow demoBuyer 1 ⟨.num (.fin 0), some "great"⟩ (demoStore 7)
      = fail "Rating must be between 1 and 5" 400 ∧
    createReview demoNow demoBuyer 1 ⟨.num (.fin 6), some "great"⟩ (demoStore 7)
      = fail "Rating must be between 1 and 5" 400 ∧
    createReview demoNow demoBuyer 1 ⟨.undefined, some "great"⟩ (demoStore 7)
      = fail "Rating must be between 1 and 5" 400 ∧
    (createReview demoNow demoBuyer 1 ⟨.num (.fin 5), some "great"⟩ (demoStore 7)).httpStatus
      = 201 := by
  exact ⟨by decide, by decide, by decide, by decide, rfl, by decide, rfl, rfl, rfl, by decide⟩


/-! ## Bids and deliverables across a step -/

section StepBids

/-- A bid of the store after a step was there before, or was just created by
`createBid` on a project then PENDING. -/
theorem step_bids {sv : Services} {s t : Store} {a : Action} (h : Step sv s a t) :
    ∀ b ∈ t.bids, b ∈ s.bids ∨
      ∃ now u body project, a = Action.createBid now u b.projectId body ∧
        s.findProject b.projectId = some project ∧ project.status = Status.PENDING ∧
        b.sellerId = u.id := by
  obtain ⟨_, hrun⟩ := h
  intro b hb
  cases a with
  | register body =>
    obtain ⟨r, hr⟩ := written_eq_some hrun
    obtain ⟨n, e, p, ro, rfl⟩ := register_ok hr
    exact Or.inl hb
  | createProject now u body =>
    obtain ⟨r, hr⟩ := written_eq_some hrun
    obtain ⟨_, _, _, _, rfl⟩ := createProject_ok hr
    exact Or.inl hb
  | updateProject now u id body =>
    obtain ⟨r, hr⟩ := written_eq_some hrun
    obtain ⟨project, dd, hp, _, hst, _, _, rfl⟩ := updateProject_ok hr
    exact Or.inl hb
  | deleteProject u id =>
    obtain ⟨r, hr⟩ := written_eq_some hrun
    obtain ⟨project, _, _, _, rfl⟩ := deleteProject_ok hr
    exact Or.inl (List.mem_of_mem_filter hb)
  | createBid now u pid body =>
    obtain ⟨r, hr⟩ := written_eq_some hrun
    obtain ⟨_, _, _, _, project, hp, hst, hnone, _, _, _, _, rfl⟩ := createBid_ok hr
    simp only [Store.insertBid, List.mem_append, List.mem_singleton] at hb
    rcases hb with hb | rfl
    · exact Or.inl hb
    · exact Or.inr ⟨now, u, body, project, rfl, hp, hst, rfl⟩
  | selectBid u pid bidId =>
    obtain ⟨r, hr⟩ := written_eq_some hrun
    obtain ⟨_, project, bid, hp, _, hst, hbid, _, _, rfl⟩ := selectBid_ok hr
    exact Or.inl hb
  | submitDeliverable now u pid file d =>
    obtain ⟨r, hr⟩ := written_eq_some hrun
    obtain ⟨_, _, _, _, url, _, _, _, _, _, _, _, rfl⟩ := submitDeliverable_ok hr
    exact Or.inl hb
  | completeProject u pid =>
    obtain ⟨r, hr⟩ := written_eq_some hrun
    obtain ⟨_, project, hp, _, hst, _, _, rfl⟩ := completeProject_ok hr
    exact Or.inl hb
  | createReview now u pid body =>
    obtain ⟨r, hr⟩ := written_eq_some hrun
    obtain ⟨_, project, sel, q2, hp, hb2, hst, hnone, hsel, _, _, _, _, rfl⟩ :=
      createReview_ok hr
    exact Or.inl hb

/-- A deliverable of the store is still there after a step, unless the step
deletes its project, then PENDING. -/
theorem step_deliverables {sv : Services} {s t : Store} {a : Action} (h : Step sv s a t) :
    ∀ d ∈ s.deliverables, d ∈ t.deliverables ∨
      ∃ u project, a = Action.deleteProject u d.projectId ∧
        s.findProject d.projectId = some project ∧ project.status = Status.PENDING := by
  obtain ⟨_, hrun⟩ := h
  intro d hd
  cases a with
  | register body =>
    obtain ⟨r, hr⟩ := written_eq_some hrun
    obtain ⟨n, e, p, ro, rfl⟩ := register_ok hr
    exact Or.inl hd
  | createProject now u body =>
    obtain ⟨r, hr⟩ := written_eq_some hrun
    obtain ⟨_, _, _, _, rfl⟩ := createProject_ok hr
    exact Or.inl hd
  | updateProject now u id body =>
    obtain ⟨r, hr⟩ := written_eq_some hrun
    obtain ⟨project, dd, hp, _, hst, _, _, rfl⟩ := updateProject_ok hr
    exact Or.inl hd
  | deleteProject u id =>
    obtain ⟨r, hr⟩ := written_eq_some hrun
    obtain ⟨project, hp, _, hst, rfl⟩ := deleteProject_ok hr
    by_cases hid : d.projectId = id
    · subst hid
      exact Or.inr ⟨u, project, rfl, hp, hst⟩
    · refine Or.inl ?_
      simp only [Store.deleteProject, List.mem_filter, decide_eq_true_eq]
      exact ⟨hd, hid⟩
  | createBid now u pid body =>
    obtain ⟨r, hr⟩ := written_eq_some hrun
    obtain ⟨_, _, _, _, project, hp, hst, hnone, _, _, _, _, rfl⟩ := createBid_ok hr
    exact Or.inl hd
  | selectBid u pid bidId =>
    obtain ⟨r, hr⟩ := written_eq_some hrun
    obtain ⟨_, project, bid, hp, _, hst, hbid, _, _, rfl⟩ := selectBid_ok hr
    exact Or.inl hd
  | submitDeliverable now u pid file d2 =>
    obtain ⟨r, hr⟩ := written_eq_some hrun
    obtain ⟨_, _, _, _, url, _, _, _, _, _, _, _, rfl⟩ := submitDeliverable_ok hr
    exact Or.inl (by simp [Store.insertDeliverable, hd])
  | completeProject u pid =>
    obtain ⟨r, hr⟩ := written_eq_some hrun
    obtain ⟨_, project, hp, _, hst, _, _, rfl⟩ := completeProject_ok hr
    exact Or.inl hd
  | createReview now u pid body =>
    obtain ⟨r, hr⟩ := written_eq_some hrun
    obtain ⟨_, project, sel, q2, hp, hb2, hst, hnone, hsel, _, _, _, _, rfl⟩ :=
      createReview_ok hr
    exact Or.inl hd

end StepBids

/-- C11: on an existing project that is not PENDING, createBid by any seller
with any body that has its three fields fails with the 400
`Cannot bid on a project that is not in PENDING status` and writes nothing; and
a bid that appears in a step was created by createBid on a project then
PENDING. -/
theorem createBid_refused_off_pending (s : Store) (pid : Id) (project : Project)
    (hp : s.findProject pid = some project) (hst : project.status ≠ Status.PENDING) :
    (∀ now u body, u.role = Role.SELLER → truthy body.bidAmount = true →
      truthy body.estimatedCompletion = true → textTruthy body.message = true →
      createBid now u pid body s
        = fail "Cannot bid on a project that is not in PENDING status" 400 ∧
      (createBid now u pid body s).written = none ∧
      (createBid now u pid body s).storeAfter s = s) ∧
    (∀ now u body, (createBid now u pid body s).written = none) ∧
    (∀ sv a t, Step sv s a t → ∀ b ∈ t.bids, b ∉ s.bids →
      ∃ p ∈ s.projects, p.id = b.projectId ∧ p.status = Status.PENDING) := by
  refine ⟨?_, ?_, ?_⟩
  · intro now u body hrole h1 h2 h3
    have key : createBid now u pid body s
        = fail "Cannot bid on a project that is not in PENDING status" 400 := by
      unfold createBid
      rw [if_neg (by simp [hrole]), if_neg (by simp [h1, h2, h3]), hp]
      dsimp only
      rw [if_pos hst]
    rw [key]
    exact ⟨rfl, rfl, rfl⟩
  · intro now u body
    cases hc : createBid now u pid body s with
    | error e => rfl
    | ok v =>
      obtain ⟨r, t⟩ := v
      obtain ⟨_, _, _, _, project2, hp2, hst2, _⟩ := createBid_ok hc
      rw [hp] at hp2
      cases hp2
      exact absurd hst2 hst
  · intro sv a t hstep b hb hnew
    rcases step_bids hstep b hb with hold | ⟨now, u, body, pr, _, hfind, hpen, _⟩
    · exact absurd hold hnew
    · exact ⟨pr, (findProject_mem hfind).1, (findProject_mem hfind).2, hpen⟩

/-- C11 at the sample run: the project is IN_PROGRESS and the second seller
bids. -/
theorem createBid_refused_off_pending_witness :
    (demoStore 5).findProject 1 = some ⟨1, "Logo", "A logo for the shop", JsNum.fin 100,
      JsNum.fin 500, some 1794431820000, Status.IN_PROGRESS, some 3, 0, demoNow⟩ ∧
    createBid demoNow demoSeller2 1 demoBidBody (demoStore 5)
      = fail "Cannot bid on a project that is not in PENDING status" 400 ∧
    ((∀ now u body, u.role = Role.SELLER → truthy body.bidAmount = true →
      truthy body.estimatedCompletion = true → textTruthy body.message = true →
      createBid now u 1 body (demoStore 5)
        = fail "Cannot bid on a project that is not in PENDING status" 400 ∧
      (createBid now u 1 body (demoStore 5)).written = none ∧
      (createBid now u 1 body (demoStore 5)).storeAfter (demoStore 5) = demoStore 5) ∧
    (∀ now u body, (createBid now u 1 body (demoStore 5)).written = none) ∧
    (∀ sv a t, Step sv (demoStore 5) a t → ∀ b ∈ t.bids, b ∉ (demoStore 5).bids →
      ∃ p ∈ (demoStore 5).projects, p.id = b.projectId ∧ p.status = Status.PENDING)) :=
  ⟨by decide, rfl,
    createBid_refused_off_pending (demoStore 5) 1 _ (by decide : (demoStore 5).findProject 1 =
      some ⟨1, "Logo", "A logo for the shop", JsNum.fin 100,
        JsNum.fin 500, some 1794431820000, Status.IN_PROGRESS, some 3, 0, demoNow⟩)
      (by decide)⟩

/-- In every reachable store a COMPLETED project has a deliverable. -/
theorem completed_has_deliverable {s : Store} (hs : Reachable s) :
    ∀ p ∈ s.projects, p.status = Status.COMPLETED →
      ∃ d ∈ s.deliverables, d.projectId = p.id := by
  induction hs with
  | init => intro p hp; simp [Store.empty] at hp
  | @step sv s t a hreach hstep ih =>
    have hi := hreach.inv
    intro q hq hc
    have keep : ∀ p ∈ s.projects, p.id = q.id → p.status = Status.COMPLETED →
        ∃ d ∈ t.deliverables, d.projectId = q.id := by
      intro p hp hid hpc
      obtain ⟨d, hd, hdp⟩ := ih p hp hpc
      rcases step_deliverables hstep d hd with hkept | ⟨u, project, _, hfind, hpen⟩
      · exact ⟨d, hkept, by rw [hdp, hid]⟩
      · obtain ⟨hm, hmid⟩ := findProject_mem hfind
        have : project = p := hi.project_unique hm hp (by rw [hmid, hdp])
        rw [this, hpc] at hpen
        cases hpen
    rcases step_project_change hi hstep q hq with ⟨p, hp, hid, _, hch⟩ | ⟨_, hst, _⟩
    · rcases hch with ⟨e, _⟩ | ⟨_, e2, _⟩ | ⟨_, _, _, u, ea⟩
      · exact keep p hp hid (by rw [← e]; exact hc)
      · rw [hc] at e2; cases e2
      · subst ea
        obtain ⟨_, hrun⟩ := hstep
        obtain ⟨r, hr⟩ := written_eq_some hrun
        obtain ⟨_, project, _, _, _, hlen, _, rfl⟩ := completeProject_ok hr
        obtain ⟨d, hd⟩ := List.exists_mem_of_length_pos (Nat.pos_of_ne_zero hlen)
        unfold Store.deliverablesOf at hd
        simp only [List.mem_filter, decide_eq_true_eq] at hd
        exact ⟨d, hd.1, by rw [hd.2, hid]⟩
    · rw [hc] at hst; cases hst

/-- C12: completeProject succeeds exactly when the caller is a BUYER, owns the
project, the project is IN_PROGRESS and a deliverable of it exists; it then
answers 200 and sets the status to COMPLETED; otherwise it fails with 403, 404
or 400 and writes nothing; and in every reachable store a COMPLETED project
has a deliverable. -/
theorem completeProject_iff_guards {s : Store} (hs : Reachable s) :
    (∀ sv u pid, (∃ r t, completeProject sv u pid s = .ok (r, t)) ↔
      (u.role = Role.BUYER ∧ ∃ project, s.findProject pid = some project ∧
        project.buyerId = u.id ∧ project.status = Status.IN_PROGRESS ∧
        ∃ d ∈ s.deliverables, d.projectId = pid)) ∧
    (∀ sv u pid r t, completeProject sv u pid s = .ok (r, t) →
      r.status = 200 ∧ r.data.status = Status.COMPLETED ∧ r.data.id = pid ∧
      (∃ q ∈ t.projects, q.id = pid) ∧
      (∀ q ∈ t.projects, q.id = pid → q.status = Status.COMPLETED) ∧
      (∀ q ∈ t.projects, q.id ≠ pid → q ∈ s.projects)) ∧
    (∀ sv u pid e, completeProject sv u pid s = .error e →
      ((completeProject sv u pid s).httpStatus = 403 ∨
        (completeProject sv u pid s).httpStatus = 404 ∨
        (completeProject sv u pid s).httpStatus = 400) ∧
      (completeProject sv u pid s).storeAfter s = s) ∧
    (∀ p ∈ s.projects, p.status = Status.COMPLETED →
      ∃ d ∈ s.deliverables, d.projectId = p.id) := by
  refine ⟨?_, ?_, ?_, completed_has_deliverable hs⟩
  · intro sv u pid
    constructor
    · rintro ⟨r, t, hr⟩
      obtain ⟨hrole, project, hp, hb, hst, hlen, _, _⟩ := completeProject_ok hr
      obtain ⟨d, hd⟩ := List.exists_mem_of_length_pos (Nat.pos_of_ne_zero hlen)
      unfold Store.deliverablesOf at hd
      simp only [List.mem_filter, decide_eq_true_eq] at hd
      exact ⟨hrole, project, hp, hb, hst, d, hd.1, hd.2⟩
    · rintro ⟨hrole, project, hp, hb, hst, d, hd, hdp⟩
      have hlen : ¬(s.deliverablesOf pid).length = 0 := by
        intro h0
        have hnil := List.length_eq_zero.1 h0
        have hmem : d ∈ s.deliverablesOf pid := by
          unfold Store.deliverablesOf
          simp only [List.mem_filter, decide_eq_true_eq]
          exact ⟨hd, hdp⟩
        rw [hnil] at hmem
        cases hmem
      unfold completeProject
      rw [if_neg (by simp [hrole]), hp]
      dsimp only
      rw [if_neg (by simp [hb]), if_neg (by simp [hst]), if_neg hlen]
      exact ⟨_, _, rfl⟩
  · intro sv u pid r t hr
    obtain ⟨_, project, hp, _, _, _, rfl, rfl⟩ := completeProject_ok hr
    obtain ⟨hpm, hpid⟩ := findProject_mem hp
    refine ⟨rfl, rfl, hpid, ?_, ?_, ?_⟩
    · refine ⟨_, mem_updateProject.2 ⟨project, hpm, rfl⟩, ?_⟩
      rw [if_pos hpid]; exact hpid
    · intro q hq hqid
      obtain ⟨p, _, rfl⟩ := mem_updateProject.1 hq
      by_cases hpe : p.id = pid
      · rw [if_pos hpe]
      · rw [if_neg hpe] at hqid; exact absurd hqid hpe
    · intro q hq hqid
      obtain ⟨p, hpp, rfl⟩ := mem_updateProject.1 hq
      by_cases hpe : p.id = pid
      · rw [if_pos hpe] at hqid; exact absurd hpe hqid
      · rw [if_neg hpe]; exact hpp
  · intro sv u pid e he
    rw [he]
    refine ⟨?_, rfl⟩
    unfold completeProject fail at he
    split at he
    · cases he; exact Or.inl rfl
    split at he
    · cases he; exact Or.inr (Or.inl rfl)
    split at he
    · cases he; exact Or.inl rfl
    split at he
    · cases he; exact Or.inr (Or.inr rfl)
    split at he
    · cases he; exact Or.inr (Or.inr rfl)
    · cases he

/-- C12 at the sample run: the buyer completes the delivered project. -/
theorem completeProject_iff_guards_witness :
    Reachable (demoStore 6) ∧
    (∃ r t, completeProject demoServices demoBuyer 1 (demoStore 6) = .ok (r, t)) ∧
    ((∀ sv u pid, (∃ r t, completeProject sv u pid (demoStore 6) = .ok (r, t)) ↔
      (u.role = Role.BUYER ∧ ∃ project, (demoStore 6).findProject pid = some project ∧
        project.buyerId = u.id ∧ project.status = Status.IN_PROGRESS ∧
        ∃ d ∈ (demoStore 6).deliverables, d.projectId = pid)) ∧
    (∀ sv u pid r t, completeProject sv u pid (demoStore 6) = .ok (r, t) →
      r.status = 200 ∧ r.data.status = Status.COMPLETED ∧ r.data.id = pid ∧
      (∃ q ∈ t.projects, q.id = pid) ∧
      (∀ q ∈ t.projects, q.id = pid → q.status = Status.COMPLETED) ∧
      (∀ q ∈ t.projects, q.id ≠ pid → q ∈ (demoStore 6).projects)) ∧
    (∀ sv u pid e, completeProject sv u pid (demoStore 6) = .error e →
      ((completeProject sv u pid (demoStore 6)).httpStatus = 403 ∨
        (completeProject sv u pid (demoStore 6)).httpStatus = 404 ∨
        (completeProject sv u pid (demoStore 6)).httpStatus = 400) ∧
      (completeProject sv u pid (demoStore 6)).storeAfter (demoStore 6) = demoStore 6) ∧
    (∀ p ∈ (demoStore 6).projects, p.status = Status.COMPLETED →
      ∃ d ∈ (demoStore 6).deliverables, d.projectId = p.id)) :=
  ⟨demoStore_reachable 6, ⟨_, _, rfl⟩, completeProject_iff_guards (demoStore_reachable 6)⟩

/-- The traced handler answers as `submitDeliverable` does. -/
theorem submitDeliverableTraced_outcome (sv : Services) (now : Int) (u : User) (pid : Id)
    (file description : Option String) (s : Store) :
    (submitDeliverableTraced sv now u pid file description s).2
      = submitDeliverable sv now u pid file description s := by
  unfold submitDeliverableTraced submitDeliverable
  split
  · rfl
  split
  · rfl
  split
  · rfl
  split
  · rfl
  split
  · rfl
  split
  · rfl
  split <;> rfl

/-- C13: a deliverable is created only when a file is present, the project is
IN_PROGRESS, the caller is the seller of its selected bid and the upload
returned a url, the one upload being of that file; for a seller sending a file,
a project that is not IN_PROGRESS gets a 400 and, on an IN_PROGRESS project, a
seller who is not the selected one gets a 403, in both cases without any upload
and without a deliverable; and when the upload fails nothing is written. -/
theorem submitDeliverable_guards (sv : Services) (now : Int) (u : User) (pid : Id)
    (file description : Option String) (s : Store) :
    (∀ r t, submitDeliverable sv now u pid file description s = .ok (r, t) →
      u.role = Role.SELLER ∧
      ∃ buffer project selected url, file = some buffer ∧ s.findProject pid = some project ∧
        project.status = Status.IN_PROGRESS ∧ s.selectedBid project = some selected ∧
        selected.sellerId = u.id ∧ sv.upload buffer = some url ∧
        (submitDeliverableTraced sv now u pid file description s).1 = [buffer] ∧
        r.status = 201 ∧ r.data.fileUrl = url ∧ r.data.projectId = pid ∧
        t.deliverables = s.deliverables ++ [r.data]) ∧
    (∀ buffer project, u.role = Role.SELLER → file = some buffer →
      s.findProject pid = some project →
      (project.status ≠ Status.IN_PROGRESS →
        (submitDeliverable sv now u pid file description s).httpStatus = 400 ∧
        (submitDeliverable sv now u pid file description s).written = none ∧
        (submitDeliverableTraced sv now u pid file description s).1 = []) ∧
      (project.status = Status.IN_PROGRESS →
        (∀ selected, s.selectedBid project = some selected → selected.sellerId ≠ u.id) →
        (submitDeliverable sv now u pid file description s).httpStatus = 403 ∧
        (submitDeliverable sv now u pid file description s).written = none ∧
        (submitDeliverableTraced sv now u pid file description s).1 = [])) ∧
    (∀ buffer, file = some buffer → sv.upload buffer = none →
      (submitDeliverable sv now u pid file description s).written = none ∧
      (submitDeliverable sv now u pid file description s).storeAfter s = s) ∧
    ((submitDeliverable sv now u pid file description s).written = none →
      (submitDeliverable sv now u pid file description s).storeAfter s = s) := by
  refine ⟨?_, ?_, ?_, ?_⟩
  · intro r t hr
    obtain ⟨hrole, buffer, project, selected, url, hf, hp, hst, hsel, hsid, hup, rfl, rfl⟩ :=
      submitDeliverable_ok hr
    refine ⟨hrole, buffer, project, selected, url, hf, hp, hst, hsel, hsid, hup, ?_, rfl, rfl,
      rfl, rfl⟩
    unfold submitDeliverableTraced
    rw [if_neg (by simp [hrole]), hf]
    dsimp only
    rw [hp]
    dsimp only
    rw [if_neg (by simp [hst]), hsel]
    dsimp only
    rw [if_neg (by simp [hsid]), hup]
  · intro buffer project hrole hf hp
    constructor
    · intro hst
      unfold submitDeliverableTraced submitDeliverable
      rw [if_neg (by simp [hrole]), if_neg (by simp [hrole]), hf]
      dsimp only
      rw [hp]
      dsimp only
      rw [if_pos hst, if_pos hst]
      exact ⟨rfl, rfl, rfl⟩
    · intro hst hnot
      unfold submitDeliverableTraced submitDeliverable
      rw [if_neg (by simp [hrole]), if_neg (by simp [hrole]), hf]
      dsimp only
      rw [hp]
      dsimp only
      rw [if_neg (by simp [hst]), if_neg (by simp [hst])]
      cases hsel : s.selectedBid project with
      | none => exact ⟨rfl, rfl, rfl⟩
      | some selected =>
        dsimp only
        rw [if_pos (hnot selected hsel), if_pos (hnot selected hsel)]
        exact ⟨rfl, rfl, rfl⟩
  · intro buffer hf hup
    cases hc : submitDeliverable sv now u pid file description s with
    | error e => exact ⟨rfl, rfl⟩
    | ok v =>
      obtain ⟨r, t⟩ := v
      obtain ⟨_, buffer2, _, _, url, hf2, _, _, _, _, hup2, _⟩ := submitDeliverable_ok hc
      rw [hf] at hf2
      cases hf2
      rw [hup] at hup2
      cases hup2
  · intro hw
    cases hc : submitDeliverable sv now u pid file description s with
    | error e => rfl
    | ok v => rw [hc] at hw; cases hw

/-- C13 at the sample run: the selected seller delivers; the second seller is
turned away with a 403 and the seller's delivery on the COMPLETED project with
a 400, without an upload. -/
theorem submitDeliverable_guards_witness :
    (submitDeliverable demoServices demoNow demoSeller 1 (some "logo.png") (some "final logo")
      (demoStore 5)).httpStatus = 201 ∧
    (submitDeliverable demoServices demoNow demoSeller2 1 (some "x.png") none
      (demoStore 5)).httpStatus = 403 ∧
    (submitDeliverableTraced demoServices demoNow demoSeller2 1 (some "x.png") none
      (demoStore 5)).1 = [] ∧
    (submitDeliverable demoServices demoNow demoSeller 1 (some "logo.png") none
      (demoStore 7)).httpStatus = 400 ∧
    (∀ r t, submitDeliverable demoServices demoNow demoSeller 1 (some "logo.png")
        (some "final logo") (demoStore 5) = .ok (r, t) →
      demoSeller.role = Role.SELLER ∧
      ∃ buffer project selected url, some "logo.png" = some buffer ∧
        (demoStore 5).findProject 1 = some project ∧
        project.status = Status.IN_PROGRESS ∧
        (demoStore 5).selectedBid project = some selected ∧
        selected.sellerId = demoSeller.id ∧ demoServices.upload buffer = some url ∧
        (submitDeliverableTraced demoServices demoNow demoSeller 1 (some "logo.png")
          (some "final logo") (demoStore 5)).1 = [buffer] ∧
        r.status = 201 ∧ r.data.fileUrl = url ∧ r.data.projectId = 1 ∧
        t.deliverables = (demoStore 5).deliverables ++ [r.data]) :=
  ⟨by decide, by decide, by decide, by decide,
    (submitDeliverable_guards demoServices demoNow demoSeller 1 (some "logo.png")
      (some "final logo") (demoStore 5)).1⟩

/-- A project of the store is still there after a step, unless the step is
`deleteProject` on it by its buyer while it is PENDING. -/
theorem step_project_removed {sv : Services} {s t : Store} {a : Action} (hs : Inv s)
    (h : Step sv s a t) :
    ∀ p ∈ s.projects, (∃ q ∈ t.projects, q.id = p.id) ∨
      ∃ u, a = Action.deleteProject u p.id ∧ p.buyerId = u.id ∧
        p.status = Status.PENDING := by
  obtain ⟨_, hrun⟩ := h
  intro p hpm
  cases a with
  | register body =>
    obtain ⟨r, hr⟩ := written_eq_some hrun
    obtain ⟨n, e, pw, ro, rfl⟩ := register_ok hr
    exact Or.inl ⟨p, hpm, rfl⟩
  | createProject now u body =>
    obtain ⟨r, hr⟩ := written_eq_some hrun
    obtain ⟨_, _, _, _, rfl⟩ := createProject_ok hr
    exact Or.inl ⟨p, by simp [Store.insertProject, hpm], rfl⟩
  | updateProject now u id body =>
    obtain ⟨r, hr⟩ := written_eq_some hrun
    obtain ⟨project, dd, hp, _, hst, _, _, rfl⟩ := updateProject_ok hr
    refine Or.inl ⟨_, mem_updateProject.2 ⟨p, hpm, rfl⟩, ?_⟩
    split <;> rfl
  | deleteProject u id =>
    obtain ⟨r, hr⟩ := written_eq_some hrun
    obtain ⟨project, hfind, hown, hst, rfl⟩ := deleteProject_ok hr
    obtain ⟨hprm, hpid⟩ := findProject_mem hfind
    by_cases hpe : p.id = id
    · have : p = project := hs.project_unique hpm hprm (by rw [hpe, hpid])
      subst this
      subst hpe
      exact Or.inr ⟨u, rfl, hown, hst⟩
    · refine Or.inl ⟨p, ?_, rfl⟩
      simp only [Store.deleteProject, List.mem_filter, decide_eq_true_eq]
      exact ⟨hpm, hpe⟩
  | createBid now u pid body =>
    obtain ⟨r, hr⟩ := written_eq_some hrun
    obtain ⟨_, _, _, _, project, hp, _, hnone, _, _, _, _, rfl⟩ := createBid_ok hr
    exact Or.inl ⟨p, hpm, rfl⟩
  | selectBid u pid bidId =>
    obtain ⟨r, hr⟩ := written_eq_some hrun
    obtain ⟨_, project, bid, hp, _, hst, hbid, _, _, rfl⟩ := selectBid_ok hr
    refine Or.inl ⟨_, mem_updateProject.2 ⟨p, hpm, rfl⟩, ?_⟩
    split <;> rfl
  | submitDeliverable now u pid file d =>
    obtain ⟨r, hr⟩ := written_eq_some hrun
    obtain ⟨_, _, _, _, url, _, _, _, _, _, _, _, rfl⟩ := submitDeliverable_ok hr
    exact Or.inl ⟨p, hpm, rfl⟩
  | completeProject u pid =>
    obtain ⟨r, hr⟩ := written_eq_some hrun
    obtain ⟨_, project, hp, _, hst, _, _, rfl⟩ := completeProject_ok hr
    refine Or.inl ⟨_, mem_updateProject.2 ⟨p, hpm, rfl⟩, ?_⟩
    split <;> rfl
  | createReview now u pid body =>
    obtain ⟨r, hr⟩ := written_eq_some hrun
    obtain ⟨_, project, sel, q2, hp, hb, hst, hnone, hsel, _, _, _, _, rfl⟩ :=
      createReview_ok hr
    exact Or.inl ⟨p, hpm, rfl⟩

/-- C14: for a project of a reachable store that is IN_PROGRESS or COMPLETED,
updateProject and deleteProject called by its buyer fail with a 400 and write
nothing; deleteProject succeeds only on a PENDING project of the caller, and a
project leaves the store only by such a deleteProject. -/
theorem frozen_once_in_progress {s : Store} (hs : Reachable s) :
    (∀ now u body, ∀ p ∈ s.projects, p.status ≠ Status.PENDING → p.buyerId = u.id →
      updateProject now u p.id body s
        = fail "Cannot update a project that is already in progress or completed" 400 ∧
      (updateProject now u p.id body s).storeAfter s = s ∧
      deleteProject u p.id s
        = fail "Cannot delete a project that is already in progress or completed" 400 ∧
      (deleteProject u p.id s).storeAfter s = s) ∧
    (∀ u id r t, deleteProject u id s = .ok (r, t) →
      r.status = 204 ∧
      ∃ project ∈ s.projects, project.id = id ∧ project.buyerId = u.id ∧
        project.status = Status.PENDING ∧
        t.projects = s.projects.filter (fun p => decide (p.id ≠ id))) ∧
    (∀ sv a t, Step sv s a t → ∀ p ∈ s.projects, (∀ q ∈ t.projects, q.id ≠ p.id) →
      ∃ u, a = Action.deleteProject u p.id ∧ p.buyerId = u.id ∧
        p.status = Status.PENDING) := by
  have hi := hs.inv
  refine ⟨?_, ?_, ?_⟩
  · intro now u body p hp hst hown
    have hfind := hi.findProject_of_mem hp
    have h1 : updateProject now u p.id body s
        = fail "Cannot update a project that is already in progress or completed" 400 := by
      unfold updateProject
      rw [hfind]
      dsimp only
      rw [if_neg (by simp [hown]), if_pos hst]
    have h2 : deleteProject u p.id s
        = fail "Cannot delete a project that is already in progress or completed" 400 := by
      unfold deleteProject
      rw [hfind]
      dsimp only
      rw [if_neg (by simp [hown]), if_pos hst]
    rw [h1, h2]
    exact ⟨rfl, rfl, rfl, rfl⟩
  · intro u id r t hr
    have hstat : r.status = 204 := by
      unfold deleteProject fail at hr
      split at hr
      · cases hr
      split at hr
      · cases hr
      split at hr
      · cases hr
      simp only [Except.ok.injEq, Prod.mk.injEq] at hr
      rw [← hr.1]
    obtain ⟨project, hfind, hown, hst, rfl⟩ := deleteProject_ok hr
    obtain ⟨hm, hid⟩ := findProject_mem hfind
    exact ⟨hstat, project, hm, hid, hown, hst, rfl⟩
  · intro sv a t hstep p hp hgone
    rcases step_project_removed hi hstep p hp with ⟨q, hq, hid⟩ | hdel
    · exact absurd hid (hgone q hq)
    · exact hdel

/-- C14 at the sample run: the project is IN_PROGRESS and its buyer tries to
update and to delete it. -/
theorem frozen_once_in_progress_witness :
    Reachable (demoStore 5) ∧
    (demoStore 5).projects.map (fun p => (p.id, p.status, p.buyerId))
      = [(1, Status.IN_PROGRESS, 0)] ∧
    (deleteProject demoBuyer 1 (demoStore 5)).httpStatus = 400 ∧
    (deleteProject demoBuyer 1 (demoStore 2)).httpStatus = 204 ∧
    ((∀ now u body, ∀ p ∈ (demoStore 5).projects, p.status ≠ Status.PENDING →
      p.buyerId = u.id →
      updateProject now u p.id body (demoStore 5)
        = fail "Cannot update a project that is already in progress or completed" 400 ∧
      (updateProject now u p.id body (demoStore 5)).storeAfter (demoStore 5) = demoStore 5 ∧
      deleteProject u p.id (demoStore 5)
        = fail "Cannot delete a project that is already in progress or completed" 400 ∧
      (deleteProject u p.id (demoStore 5)).storeAfter (demoStore 5) = demoStore 5) ∧
    (∀ u id r t, deleteProject u id (demoStore 5) = .ok (r, t) →
      r.status = 204 ∧
      ∃ project ∈ (demoStore 5).projects, project.id = id ∧ project.buyerId = u.id ∧
        project.status = Status.PENDING ∧
        t.projects = (demoStore 5).projects.filter (fun p => decide (p.id ≠ id))) ∧
    (∀ sv a t, Step sv (demoStore 5) a t → ∀ p ∈ (demoStore 5).projects,
      (∀ q ∈ t.projects, q.id ≠ p.id) →
      ∃ u, a = Action.deleteProject u p.id ∧ p.buyerId = u.id ∧
        p.status = Status.PENDING)) :=
  ⟨demoStore_reachable 5, by decide, by decide, by decide,
    frozen_once_in_progress (demoStore_reachable 5)⟩

/-- C15: a BUYER who is not the buyer of an existing project is refused by each
of the ten handlers that take its id, with a 403 (or, from createReview, the 400
of a bad rating), and nothing is written; `restrictTo` with the SELLER role and
the ownership middleware refuse the caller too; and getAllProjects called by a
BUYER returns only projects of the store whose buyerId is the caller's id. -/
theorem buyer_confined_to_own_projects (s : Store) (u : User) (pid : Id) (project : Project)
    (hrole : u.role = Role.BUYER) (hp : s.findProject pid = some project)
    (hother : project.buyerId ≠ u.id) :
    getProject u pid s = fail "You do not have permission to access this project" 403 ∧
    (∀ now body, updateProject now u pid body s
      = fail "You do not have permission to update this project" 403) ∧
    deleteProject u pid s = fail "You do not have permission to delete this project" 403 ∧
    getBidsForProject u pid s
      = fail "You do not have permission to access this project" 403 ∧
    (∀ sv bidId, selectBid sv u pid bidId s
      = fail "You do not have permission to select a bid for this project" 403) ∧
    getDeliverables u pid s = fail "You do not have permission to access this project" 403 ∧
    (∀ sv, completeProject sv u pid s
      = fail "You do not have permission to complete this project" 403) ∧
    (∀ now body, createReview now u pid body s = fail "Rating must be between 1 and 5" 400 ∨
      createReview now u pid body s
        = fail "You do not have permission to review this project" 403) ∧
    (∀ now body, createBid now u pid body s = fail "Only sellers can create bids" 403) ∧
    (∀ sv now file description, submitDeliverable sv now u pid file description s
      = fail "Only sellers can submit deliverables" 403) ∧
    restrictTo [Role.SELLER] u = fail "You do not have permission to perform this action" 403 ∧
    isOwner "project" s.findProject (fun p => p.buyerId) u pid
      = fail "You do not have permission to perform this action" 403 ∧
    (∀ q r, getAllProjects u q s = .ok r →
      ∀ item ∈ r.data, item.project.buyerId = u.id ∧ item.project ∈ s.projects) := by
  refine ⟨?_, ?_, ?_, ?_, ?_, ?_, ?_, ?_, ?_, ?_, ?_, ?_, ?_⟩
  · unfold getProject
    rw [hp]
    dsimp only
    rw [if_pos ⟨hrole, hother⟩]
  · intro now body
    unfold updateProject
    rw [hp]
    dsimp only
    rw [if_pos hother]
  · unfold deleteProject
    rw [hp]
    dsimp only
    rw [if_pos hother]
  · unfold getBidsForProject
    rw [hp]
    dsimp only
    rw [if_pos ⟨hrole, hother⟩]
  · intro sv bidId
    unfold selectBid
    rw [if_neg (by simp [hrole]), hp]
    dsimp only
    rw [if_pos hother]
  · unfold getDeliverables
    rw [hp]
    dsimp only
    rw [if_pos (Or.inl ⟨hrole, hother⟩)]
  · intro sv
    unfold completeProject
    rw [if_neg (by simp [hrole]), hp]
    dsimp only
    rw [if_pos hother]
  · intro now body
    unfold createReview
    rw [if_neg (by simp [hrole])]
    split
    · exact Or.inl rfl
    · rw [hp]
      dsimp only
      rw [if_pos hother]
      exact Or.inr rfl
  · intro now body
    unfold createBid
    rw [if_pos (by simp [hrole])]
  · intro sv now file description
    unfold submitDeliverable
    rw [if_pos (by simp [hrole])]
  · unfold restrictTo
    rw [if_pos (by simp [hrole])]
  · unfold isOwner
    rw [hp]
    dsimp only
    rw [if_pos hother]
  · intro q r hr item hitem
    unfold getAllProjects at hr
    split at hr
    · cases hr
    · simp only [Except.ok.injEq] at hr
      subst hr
      simp only [List.mem_map] at hitem
      obtain ⟨p, hpm, rfl⟩ := hitem
      have hpf := (List.perm_insertionSort _ _).mem_iff.1 hpm
      simp only [List.mem_filter] at hpf
      obtain ⟨hmem, hfilter⟩ := hpf
      refine ⟨?_, hmem⟩
      unfold projectFilter at hfilter
      simp only [Bool.and_eq_true, hrole, if_true, decide_eq_true_eq] at hfilter
      exact hfilter.2

/-- C15 at the sample run: another buyer asks for the project of the run. -/
theorem buyer_confined_to_own_projects_witness :
    demoOtherBuyer.role = Role.BUYER ∧
    (demoStore 5).findProject 1 = some ⟨1, "Logo", "A logo for the shop", JsNum.fin 100,
      JsNum.fin 500, some 1794431820000, Status.IN_PROGRESS, some 3, 0, demoNow⟩ ∧
    (0 : Id) ≠ demoOtherBuyer.id ∧
    (getAllProjects demoBuyer ⟨none, none, none⟩ (demoStore 5)).toOption.map
      (fun r => r.data.map (fun item => item.project.id)) = some [1] ∧
    (getAllProjects demoOtherBuyer ⟨none, none, none⟩ (demoStore 5)).toOption.map
      (fun r => r.data.map (fun item => item.project.id)) = some [] ∧
    getProject demoOtherBuyer 1 (demoStore 5)
      = fail "You do not have permission to access this project" 403 ∧
    (∀ sv bidId, selectBid sv demoOtherBuyer 1 bidId (demoStore 5)
      = fail "You do not have permission to select a bid for this project" 403) ∧
    (∀ q r, getAllProjects demoOtherBuyer q (demoStore 5) = .ok r →
      ∀ item ∈ r.data, item.project.buyerId = demoOtherBuyer.id ∧
        item.project ∈ (demoStore 5).projects) :=
  have h := buyer_confined_to_own_projects (demoStore 5) demoOtherBuyer 1
    ⟨1, "Logo", "A logo for the shop", JsNum.fin 100, JsNum.fin 500, some 1794431820000,
      Status.IN_PROGRESS, some 3, 0, demoNow⟩ rfl (by decide) (by decide)
  ⟨rfl, by decide, by decide, by decide, by decide, h.1, h.2.2.2.2.1, h.2.2.2.2.2.2.2.2.2.2.2.2⟩

/-- C16: when the guards of selectBid pass, it answers 200 with the updated
project and writes the update whatever the mail service does, and so does
completeProject: the response and the store are the same for a mailer that
delivers and for one that throws. -/
theorem notification_failure_is_swallowed (sv : Services) (s : Store) (u : User) (pid : Id)
    (project : Project) (hrole : u.role = Role.BUYER) (hp : s.findProject pid = some project)
    (hown : project.buyerId = u.id) :
    (∀ bidId bid, project.status = Status.PENDING →
      s.bids.find? (fun b => decide (b.id = bidId ∧ b.projectId = pid)) = some bid →
      ∃ r t, r.status = 200 ∧
        r.data.project = { project with selectedBidId := some bidId,
                                        status := Status.IN_PROGRESS } ∧
        t = s.updateProject pid
          (fun p => { p with selectedBidId := some bidId, status := Status.IN_PROGRESS }) ∧
        ∀ mail, selectBid { sv with sendMail := mail } u pid bidId s = .ok (r, t)) ∧
    (project.status = Status.IN_PROGRESS → (∃ d ∈ s.deliverables, d.projectId = pid) →
      ∃ r t, r = ⟨200, { project with status := Status.COMPLETED }⟩ ∧
        t = s.updateProject pid (fun p => { p with status := Status.COMPLETED }) ∧
        ∀ mail, completeProject { sv with sendMail := mail } u pid s = .ok (r, t)) ∧
    (∀ mail bidId, selectBid { sv with sendMail := mail } u pid bidId s
      = selectBid sv u pid bidId s) ∧
    (∀ mail, completeProject { sv with sendMail := mail } u pid s
      = completeProject sv u pid s) := by
  refine ⟨?_, ?_, fun _ _ => rfl, fun _ => rfl⟩
  · intro bidId bid hst hbid
    refine ⟨⟨200, ⟨{ project with selectedBidId := some bidId, status := Status.IN_PROGRESS },
      ((s.updateProject pid
          (fun p => { p with selectedBidId := some bidId,
                             status := Status.IN_PROGRESS })).selectedBid
        { project with selectedBidId := some bidId, status := Status.IN_PROGRESS }).map
        (fun b => ⟨b, (s.updateProject pid
          (fun p => { p with selectedBidId := some bidId,
                             status := Status.IN_PROGRESS })).findUser b.sellerId⟩)⟩⟩,
      _, rfl, rfl, rfl, ?_⟩
    intro mail
    unfold selectBid
    rw [if_neg (by simp [hrole]), hp]
    dsimp only
    rw [if_neg (by simp [hown]), if_neg (by simp [hst]), hbid]
  · intro hst ⟨d, hd, hdp⟩
    have hlen : ¬(s.deliverablesOf pid).length = 0 := by
      intro h0
      have hnil := List.length_eq_zero.1 h0
      have hmem : d ∈ s.deliverablesOf pid := by
        unfold Store.deliverablesOf
        simp only [List.mem_filter, decide_eq_true_eq]
        exact ⟨hd, hdp⟩
      rw [hnil] at hmem
      cases hmem
    refine ⟨_, _, rfl, rfl, ?_⟩
    intro mail
    unfold completeProject
    rw [if_neg (by simp [hrole]), hp]
    dsimp only
    rw [if_neg (by simp [hown]), if_neg (by simp [hst]), if_neg hlen]

/-- C16 at the sample run: the bid is selected with the mail service down and
with it up. -/
theorem notification_failure_is_swallowed_witness :
    demoBuyer.role = Role.BUYER ∧
    (demoStore 4).findProject 1 = some ⟨1, "Logo", "A logo for the shop", JsNum.fin 100,
      JsNum.fin 500, some 1794431820000, Status.PENDING, none, 0, demoNow⟩ ∧
    (selectBid demoServices demoBuyer 1 3 (demoStore 4)).httpStatus = 200 ∧
    (∀ mail bidId, selectBid { demoServices with sendMail := mail } demoBuyer 1 bidId
        (demoStore 4)
      = selectBid demoServices demoBuyer 1 bidId (demoStore 4)) ∧
    (∀ mail, completeProject { demoServices with sendMail := mail } demoBuyer 1 (demoStore 4)
      = completeProject demoServices demoBuyer 1 (demoStore 4)) :=
  ⟨rfl, by decide, by decide,
    (notification_failure_is_swallowed demoServices (demoStore 4) demoBuyer 1
      ⟨1, "Logo", "A logo for the shop", JsNum.fin 100, JsNum.fin 500, some 1794431820000,
        Status.PENDING, none, 0, demoNow⟩ rfl (by decide) rfl).2.2⟩

/-- C17, as stated, fails: two exceptions that carry no statusCode, the store's
validation error and a failed upload, are both answered with status 500 but
with different bodies, each carrying the exception's own message. -/
theorem error_middleware_leaks_message :
    (Failure.toJsError (.thrown "PrismaClientValidationError")).statusCode = none ∧
    (Failure.toJsError (.thrown "upload")).statusCode = none ∧
    (errorMiddleware (Failure.toJsError (.thrown "PrismaClientValidationError"))).status = 500 ∧
    (errorMiddleware (Failure.toJsError (.thrown "upload"))).status = 500 ∧
    (errorMiddleware (Failure.toJsError (.thrown "PrismaClientValidationError"))).data.message
      = "PrismaClientValidationError" ∧
    (errorMiddleware (Failure.toJsError (.thrown "upload"))).data.message = "upload" ∧
    errorMiddleware (Failure.toJsError (.thrown "PrismaClientValidationError"))
      ≠ errorMiddleware (Failure.toJsError (.thrown "upload")) := by
  decide

/-- C17, amended: an error without a statusCode is answered with status 500
and the body `status: error` with the error's own message, the generic
`Internal Server Error` standing in only for an empty message, so two such
errors with non-empty messages get the same response exactly when their
messages are equal; an error with a non-zero statusCode is answered with that
status and the same kind of body. -/
theorem error_middleware_response (err : JsError) :
    (err.statusCode = none →
      (errorMiddleware err).status = 500 ∧ (errorMiddleware err).data.status = "error" ∧
      (err.message.isEmpty = false → (errorMiddleware err).data.message = err.message) ∧
      (err.message.isEmpty = true →
        (errorMiddleware err).data.message = "Internal Server Error")) ∧
    (∀ c, err.statusCode = some c → c ≠ 0 →
      (errorMiddleware err).status = c ∧ (errorMiddleware err).data.status = "error" ∧
      (err.message.isEmpty = false → (errorMiddleware err).data.message = err.message)) ∧
    (∀ other : JsError, err.statusCode = none → other.statusCode = none →
      err.message.isEmpty = false → other.message.isEmpty = false →
      (errorMiddleware err = errorMiddleware other ↔ err.message = other.message)) := by
  refine ⟨?_, ?_, ?_⟩
  · intro hc
    refine ⟨by simp [errorMiddleware, hc], rfl, ?_, ?_⟩
    · intro hm; simp [errorMiddleware, hm]
    · intro hm; simp [errorMiddleware, hm]
  · intro c hc hc0
    refine ⟨by simp [errorMiddleware, hc, hc0], rfl, ?_⟩
    intro hm; simp [errorMiddleware, hm]
  · intro other h1 h2 m1 m2
    constructor
    · intro heq
      have := congrArg (fun r => r.data.message) heq
      simpa [errorMiddleware, m1, m2] using this
    · intro hmsg
      simp [errorMiddleware, h1, h2, hmsg]

/-- C17, amended, at a domain error of a handler and at an exception. -/
theorem error_middleware_response_witness :
    (errorMiddleware (Failure.toJsError (.app ⟨"Project not found", 404⟩)))
      = ⟨404, ⟨"error", "Project not found"⟩⟩ ∧
    (errorMiddleware (Failure.toJsError (.thrown "upload"))) = ⟨500, ⟨"error", "upload"⟩⟩ ∧
    (errorMiddleware ⟨none, ""⟩) = ⟨500, ⟨"error", "Internal Server Error"⟩⟩ ∧
    (∀ other : JsError, (Failure.toJsError (.thrown "upload")).statusCode = none →
      other.statusCode = none →
      (Failure.toJsError (.thrown "upload")).message.isEmpty = false →
      other.message.isEmpty = false →
      (errorMiddleware (Failure.toJsError (.thrown "upload")) = errorMiddleware other ↔
        (Failure.toJsError (.thrown "upload")).message = other.message)) :=
  ⟨by decide, by decide, by decide,
    (error_middleware_response (Failure.toJsError (.thrown "upload"))).2.2⟩

/-! ## Two `selectBid` requests in flight -/

section Race

/-- The lookup by id in a store whose project of that id was rewritten. -/
theorem findProject_updateProject {s : Store} {pid : Id} {project : Project}
    (f : Project → Project) (hid : ∀ p, (f p).id = p.id)
    (hp : s.findProject pid = some project) :
    (s.updateProject pid f).findProject pid = some (f project) := by
  unfold Store.findProject Store.updateProject at *
  rw [List.find?_map]
  have hcomp : ((fun p : Project => decide (p.id = pid)) ∘
      fun p : Project => if p.id = pid then f p else p)
      = fun p : Project => decide (p.id = pid) := by
    funext p
    simp only [Function.comp]
    split
    · rw [hid]
    · rfl
  rw [hcomp, hp]
  have hpid : project.id = pid := by simpa using List.find?_some hp
  simp [hpid]

/-- The three calls of a request made one after the other, with no other
request in between, are the handler `selectBid`. -/
theorem selectBidAdvance_thrice (sv : Services) (u : User) (pid bidId : Id) (s : Store) :
    (selectBidAdvance sv u pid bidId
      (selectBidAdvance sv u pid bidId
        (selectBidAdvance sv u pid bidId .start s).1
        (selectBidAdvance sv u pid bidId .start s).2).1
      (selectBidAdvance sv u pid bidId
        (selectBidAdvance sv u pid bidId .start s).1
        (selectBidAdvance sv u pid bidId .start s).2).2)
    = match selectBid sv u pid bidId s with
      | .ok (r, t) => (.finished (.ok r), t)
      | .error e => (.finished (.error e), s) := by
  unfold selectBid
  by_cases hrole : u.role ≠ Role.BUYER
  · simp only [selectBidAdvance, if_pos hrole, fail]
  · simp only [selectBidAdvance, if_neg hrole]
    cases hp : s.findProject pid with
    | none => simp only [selectBidAdvance, fail]
    | some project =>
      dsimp only
      by_cases hown : project.buyerId ≠ u.id
      · simp only [if_pos hown, selectBidAdvance, fail]
      · simp only [if_neg hown]
        by_cases hst : project.status ≠ Status.PENDING
        · simp only [if_pos hst, selectBidAdvance, fail]
        · simp only [if_neg hst, selectBidAdvance]
          cases hb : s.bids.find? (fun b => decide (b.id = bidId ∧ b.projectId = pid)) with
          | none => simp only [selectBidAdvance, fail]
          | some bid => simp only [selectBidAdvance, hp, selectBidReply]

end Race

/-- C18, as stated, fails: in the second sample run the project is PENDING
with bids 3 and 5, and its buyer sends selectBid for each. When the calls to
the store alternate, both requests read the project PENDING, both answer 200,
the first with selectedBidId 3 and the second with 5, and the store ends with
bid 5 selected; both succeed in 18 of the 20 interleavings. -/
theorem selectBid_race_both_succeed :
    raceStore.projects.map (fun p => (p.id, p.status, p.buyerId))
      = [(1, Status.PENDING, 0)] ∧
    raceStore.bids.map (fun b => (b.id, b.projectId)) = [(3, 1), (5, 1)] ∧
    (raceRun demoServices ⟨demoBuyer, 1, 3⟩ ⟨demoBuyer, 1, 5⟩
      [true, false, true, false, true, false] raceStore).first.succeeded.map
        (fun r => (r.status, r.data.project.selectedBidId)) = some (200, some 3) ∧
    (raceRun demoServices ⟨demoBuyer, 1, 3⟩ ⟨demoBuyer, 1, 5⟩
      [true, false, true, false, true, false] raceStore).second.succeeded.map
        (fun r => (r.status, r.data.project.selectedBidId)) = some (200, some 5) ∧
    (raceRun demoServices ⟨demoBuyer, 1, 3⟩ ⟨demoBuyer, 1, 5⟩
      [true, false, true, false, true, false] raceStore).store.projects.map
        (fun p => (p.id, p.status, p.selectedBidId)) = [(1, Status.IN_PROGRESS, some 5)] ∧
    ((interleavings 3 3).filter (fun schedule =>
      ((raceRun demoServices ⟨demoBuyer, 1, 3⟩ ⟨demoBuyer, 1, 5⟩ schedule
          raceStore).first.succeeded.isSome
        && (raceRun demoServices ⟨demoBuyer, 1, 3⟩ ⟨demoBuyer, 1, 5⟩ schedule
          raceStore).second.succeeded.isSome))).length = 18 := by
  decide

/-- C18, amended: two selectBid requests by the buyer of a PENDING project,
each naming a bid of the project. When one request is handled before the other
starts, the first succeeds and the other fails with the 400
`Cannot select a bid for a project that is not in PENDING status`. The update
is by id alone: a request that has read the project and its bid completes with
200 and rewrites the project whatever its status has become, so in every other
interleaving of the calls both requests succeed. -/
theorem selectBid_race (sv : Services) (s : Store) (u : User) (pid b1 b2 : Id)
    (project : Project) (bid1 bid2 : Bid) (hrole : u.role = Role.BUYER)
    (hp : s.findProject pid = some project) (hown : project.buyerId = u.id)
    (hst : project.status = Status.PENDING)
    (h1 : s.bids.find? (fun b => decide (b.id = b1 ∧ b.projectId = pid)) = some bid1)
    (h2 : s.bids.find? (fun b => decide (b.id = b2 ∧ b.projectId = pid)) = some bid2) :
    (∃ r t, selectBid sv u pid b1 s = .ok (r, t) ∧ r.status = 200 ∧
      selectBid sv u pid b2 t
        = fail "Cannot select a bid for a project that is not in PENDING status" 400) ∧
    ((raceRun sv ⟨u, pid, b1⟩ ⟨u, pid, b2⟩ [true, true, true, false, false, false]
        s).first.succeeded.isSome = true ∧
      (raceRun sv ⟨u, pid, b1⟩ ⟨u, pid, b2⟩ [true, true, true, false, false, false]
        s).second.failed = some (.app
          ⟨"Cannot select a bid for a project that is not in PENDING status", 400⟩)) ∧
    (∀ t current, t.findProject pid = some current →
      ∃ r, r.status = 200 ∧ r.data.project.selectedBidId = some b2 ∧
        selectBidAdvance sv u pid b2 (.bidRead project bid2) t
          = (.finished (.ok r), t.updateProject pid
              (fun p => { p with selectedBidId := some b2, status := Status.IN_PROGRESS }))) ∧
    (∀ schedule ∈ interleavings 3 3,
      schedule ≠ [true, true, true, false, false, false] →
      schedule ≠ [false, false, false, true, true, true] →
      (raceRun sv ⟨u, pid, b1⟩ ⟨u, pid, b2⟩ schedule s).first.succeeded.isSome = true ∧
      (raceRun sv ⟨u, pid, b1⟩ ⟨u, pid, b2⟩ schedule s).second.succeeded.isSome = true) := by
  have hp1 := findProject_updateProject (s := s)
    (fun p => { p with selectedBidId := some b1, status := Status.IN_PROGRESS })
    (fun _ => rfl) hp
  have hp2 := findProject_updateProject (s := s)
    (fun p => { p with selectedBidId := some b2, status := Status.IN_PROGRESS })
    (fun _ => rfl) hp
  have hserial : ∃ r, selectBid sv u pid b1 s = .ok (r, s.updateProject pid
      (fun p => { p with selectedBidId := some b1, status := Status.IN_PROGRESS })) ∧
      r.status = 200 := by
    unfold selectBid
    rw [if_neg (by simp [hrole]), hp]
    dsimp only
    rw [if_neg (by simp [hown]), if_neg (by simp [hst]), h1]
    exact ⟨_, rfl, rfl⟩
  have hall : interleavings 3 3 =
      [[true, true, true, false, false, false], [true, true, false, true, false, false],
       [true, true, false, false, true, false], [true, true, false, false, false, true],
       [true, false, true, true, false, false], [true, false, true, false, true, false],
       [true, false, true, false, false, true], [true, false, false, true, true, false],
       [true, false, false, true, false, true], [true, false, false, false, true, true],
       [false, true, true, true, false, false], [false, true, true, false, true, false],
       [false, true, true, false, false, true], [false, true, false, true, true, false],
       [false, true, false, true, false, true], [false, true, false, false, true, true],
       [false, false, true, true, true, false], [false, false, true, true, false, true],
       [false, false, true, false, true, true], [false, false, false, true, true, true]] := by
    decide
  -- the calls of a request, one by one
  have read : ∀ b, selectBidAdvance sv u pid b .start s = (.projectRead project, s) := by
    intro b
    simp only [selectBidAdvance]
    rw [if_neg (by simp [hrole]), hp]
    dsimp only
    rw [if_neg (by simp [hown]), if_neg (by simp [hst])]
  have late : ∀ b b0, selectBidAdvance sv u pid b .start (s.updateProject pid
      (fun p => { p with selectedBidId := some b0, status := Status.IN_PROGRESS }))
      = (.finished
          (fail "Cannot select a bid for a project that is not in PENDING status" 400),
        s.updateProject pid
          (fun p => { p with selectedBidId := some b0, status := Status.IN_PROGRESS })) := by
    intro b b0
    have hpx := findProject_updateProject (s := s)
      (fun p => { p with selectedBidId := some b0, status := Status.IN_PROGRESS })
      (fun _ => rfl) hp
    simp only [selectBidAdvance]
    rw [if_neg (by simp [hrole]), hpx]
    dsimp only
    rw [if_neg (by simp [hown]), if_pos (by simp)]
  have look1 : ∀ t : Store, t.bids = s.bids →
      selectBidAdvance sv u pid b1 (.projectRead project) t = (.bidRead project bid1, t) := by
    intro t ht
    simp only [selectBidAdvance]
    rw [ht, h1]
  have look2 : ∀ t : Store, t.bids = s.bids →
      selectBidAdvance sv u pid b2 (.projectRead project) t = (.bidRead project bid2, t) := by
    intro t ht
    simp only [selectBidAdvance]
    rw [ht, h2]
  have write : ∀ (t : Store) (cur : Project) (b : Id) (bid : Bid),
      t.findProject pid = some cur →
      selectBidAdvance sv u pid b (.bidRead project bid) t
        = (.finished (.ok (selectBidReply
            (t.updateProject pid
              (fun p => { p with selectedBidId := some b, status := Status.IN_PROGRESS }))
            { cur with selectedBidId := some b, status := Status.IN_PROGRESS })),
          t.updateProject pid
            (fun p => { p with selectedBidId := some b, status := Status.IN_PROGRESS })) := by
    intro t cur b bid hcur
    simp only [selectBidAdvance, hcur]
  have stay : ∀ b r t, selectBidAdvance sv u pid b (.finished r) t = (.finished r, t) := by
    intro b r t
    simp only [selectBidAdvance]
  have look1s := look1 s rfl
  have look2s := look2 s rfl
  have look1u := fun b => look1 (s.updateProject pid
    (fun p => { p with selectedBidId := some b, status := Status.IN_PROGRESS })) rfl
  have look2u := fun b => look2 (s.updateProject pid
    (fun p => { p with selectedBidId := some b, status := Status.IN_PROGRESS })) rfl
  have writes := fun b bid => write s project b bid hp
  have write1 := fun b bid => write _ _ b bid hp1
  have write2 := fun b bid => write _ _ b bid hp2
  refine ⟨?_, ?_, ?_, ?_⟩
  · obtain ⟨r, hr, hstat⟩ := hserial
    refine ⟨r, _, hr, hstat, ?_⟩
    unfold selectBid
    rw [if_neg (by simp [hrole]), hp1]
    dsimp only
    rw [if_neg (by simp [hown]), if_pos (by simp)]
  · simp only [raceRun, List.foldl, raceStep, if_true, Bool.false_eq_true, if_false, read,
      look1s, writes, late, stay, SelectProgress.succeeded, SelectProgress.failed,
      Option.isSome, fail, and_self]
  · intro t current hcur
    rw [write t current b2 bid2 hcur]
    exact ⟨_, rfl, rfl, rfl⟩
  · intro schedule hmem hne1 hne2
    rw [hall] at hmem
    simp only [List.mem_cons, List.mem_singleton, List.not_mem_nil, or_false] at hmem
    rcases hmem with rfl | rfl | rfl | rfl | rfl | rfl | rfl | rfl | rfl | rfl | rfl | rfl |
      rfl | rfl | rfl | rfl | rfl | rfl | rfl | rfl
    all_goals first
      | exact absurd rfl hne1
      | exact absurd rfl hne2
      | simp only [raceRun, List.foldl, raceStep, if_true, Bool.false_eq_true, if_false, read,
          look1s, look2s, look1u, look2u, writes, write1, write2, stay,
          SelectProgress.succeeded, Option.isSome, and_self]

/-- C18, amended, at the second sample run. -/
theorem selectBid_race_witness :
    demoBuyer.role = Role.BUYER ∧
    raceStore.findProject 1 = some ⟨1, "Logo", "A logo for the shop", JsNum.fin 100,
      JsNum.fin 500, some 1794431820000, Status.PENDING, none, 0, demoNow⟩ ∧
    raceStore.bids.find? (fun b => decide (b.id = 3 ∧ b.projectId = 1))
      = some ⟨3, JsNum.fin 300, some 1794086220000, "I can do it", 1, 2⟩ ∧
    raceStore.bids.find? (fun b => decide (b.id = 5 ∧ b.projectId = 1))
      = some ⟨5, JsNum.fin 250, some 1794172620000, "Me too", 1, 4⟩ ∧
    (∃ r t, selectBid demoServices demoBuyer 1 3 raceStore = .ok (r, t) ∧ r.status = 200 ∧
      selectBid demoServices demoBuyer 1 5 t
        = fail "Cannot select a bid for a project that is not in PENDING status" 400) ∧
    (∀ schedule ∈ interleavings 3 3,
      schedule ≠ [true, true, true, false, false, false] →
      schedule ≠ [false, false, false, true, true, true] →
      (raceRun demoServices ⟨demoBuyer, 1, 3⟩ ⟨demoBuyer, 1, 5⟩ schedule
        raceStore).first.succeeded.isSome = true ∧
      (raceRun demoServices ⟨demoBuyer, 1, 3⟩ ⟨demoBuyer, 1, 5⟩ schedule
        raceStore).second.succeeded.isSome = true) :=
  have h := selectBid_race demoServices raceStore demoBuyer 1 3 5
    ⟨1, "Logo", "A logo for the shop", JsNum.fin 100, JsNum.fin 500, some 1794431820000,
      Status.PENDING, none, 0, demoNow⟩
    ⟨3, JsNum.fin 300, some 1794086220000, "I can do it", 1, 2⟩
    ⟨5, JsNum.fin 250, some 1794172620000, "Me too", 1, 4⟩
    rfl (by decide) rfl rfl (by decide) (by decide)
  ⟨rfl, by decide, by decide, by decide, h.1, h.2.2.2⟩

/-- C19, the defect: in the sample run the buyer selects the bid. The response
includes the selected bid with `seller: true`, the whole user row, so it
carries the seller's stored password hash; on a store that differs only in the
password fields the response differs, in the hash. -/
theorem selectBid_reply_carries_password_hash :
    demoStore4Rehashed.users.map User.withoutPassword
      = (demoStore 4).users.map User.withoutPassword ∧
    demoStore4Rehashed.projects = (demoStore 4).projects ∧
    demoStore4Rehashed.bids = (demoStore 4).bids ∧
    demoStore4Rehashed.deliverables = (demoStore 4).deliverables ∧
    demoStore4Rehashed.reviews = (demoStore 4).reviews ∧
    (selectBid demoServices demoBuyer 1 3 (demoStore 4)).httpStatus = 200 ∧
    (selectBid demoServices demoBuyer 1 3 (demoStore 4)).toOption.map
      (fun r => r.1.data.selectedBid.map (fun b => b.seller.map (fun u => u.password)))
      = some (some (some "hash:seller-pw")) ∧
    (selectBid demoServices { demoBuyer with password := "hash:changed" } 1 3
      demoStore4Rehashed).toOption.map
      (fun r => r.1.data.selectedBid.map (fun b => b.seller.map (fun u => u.password)))
      = some (some (some "hash:changed")) ∧
    (selectBid demoServices demoBuyer 1 3 (demoStore 4)).toOption.map (fun r => r.1)
      ≠ (selectBid demoServices { demoBuyer with password := "hash:changed" } 1 3
          demoStore4Rehashed).toOption.map (fun r => r.1) := by
  decide

/-! ## Responses and the stored password hash -/

section Public

/-- A lookup that reads no password finds users that agree outside it. -/
theorem find_public {l1 l2 : List User}
    (h : l1.map User.withoutPassword = l2.map User.withoutPassword)
    (q : UserWithoutPassword → Bool) :
    (l1.find? (fun u => q u.withoutPassword)).map User.withoutPassword
      = (l2.find? (fun u => q u.withoutPassword)).map User.withoutPassword := by
  have e1 := List.find?_map (p := q) User.withoutPassword l1
  have e2 := List.find?_map (p := q) User.withoutPassword l2
  simp only [Function.comp_def] at e1 e2
  rw [← e1, ← e2, h]

/-- In two stores that agree outside passwords, the lookups by id and by email
find users that agree outside passwords. -/
theorem SamePublic.findUser {s1 s2 : Store} (hs : SamePublic s1 s2) :
    (∀ id, (s1.findUser id).map User.withoutPassword
      = (s2.findUser id).map User.withoutPassword) ∧
    (∀ email, (s1.findUserByEmail email).map User.withoutPassword
      = (s2.findUserByEmail email).map User.withoutPassword) ∧
    (∀ id, (s1.users.find? (fun u => decide (u.id = id ∧ u.role = Role.SELLER))).map
        User.withoutPassword
      = (s2.users.find? (fun u => decide (u.id = id ∧ u.role = Role.SELLER))).map
        User.withoutPassword) :=
  ⟨fun id => find_public hs.1 (fun w => decide (w.id = id)),
    fun email => find_public hs.1 (fun w => decide (w.email = email)),
    fun id => find_public hs.1 (fun w => decide (w.id = id ∧ w.role = Role.SELLER))⟩

/-- The projections of a found user that the responses use. -/
theorem SamePublic.projections {s1 s2 : Store} (hs : SamePublic s1 s2) (id : Id) :
    (s1.findUser id).map User.card = (s2.findUser id).map User.card ∧
    (s1.findUser id).map (fun u => (u.id, u.name))
      = (s2.findUser id).map (fun u => (u.id, u.name)) := by
  have h := hs.findUser.1 id
  constructor
  · have := congrArg (Option.map (fun w : UserWithoutPassword =>
      (⟨w.id, w.name, w.email⟩ : UserCard))) h
    simpa [Option.map_map, Function.comp_def, User.card, User.withoutPassword] using this
  · have := congrArg (Option.map (fun w : UserWithoutPassword => (w.id, w.name))) h
    simpa [Option.map_map, Function.comp_def, User.withoutPassword] using this

end Public

/-- Responses outside `selectBid` carry no password hash: on two stores that
differ at most in password fields, with callers that agree outside their
password, the read handlers answer the same, createBid, completeProject and
register answer the same (their stores keep differing in the passwords), and
login answers the same whenever it succeeds on both. -/
theorem responses_hide_password (sv : Services) (s1 s2 : Store) (u1 u2 : User)
    (hs : SamePublic s1 s2) (hu : u1.withoutPassword = u2.withoutPassword) :
    getMe u1 = getMe u2 ∧
    (∀ id, getProject u1 id s1 = getProject u2 id s2) ∧
    (∀ q, getAllProjects u1 q s1 = getAllProjects u2 q s2) ∧
    (∀ pid, getBidsForProject u1 pid s1 = getBidsForProject u2 pid s2) ∧
    (∀ pid, getDeliverables u1 pid s1 = getDeliverables u2 pid s2) ∧
    (∀ sellerId, getSellerReviews sellerId s1 = getSellerReviews sellerId s2) ∧
    (∀ now pid body, (createBid now u1 pid body s1).map Prod.fst
      = (createBid now u2 pid body s2).map Prod.fst) ∧
    (∀ pid, (completeProject sv u1 pid s1).map Prod.fst
      = (completeProject sv u2 pid s2).map Prod.fst) ∧
    (∀ body, (register sv body s1).map Prod.fst = (register sv body s2).map Prod.fst) ∧
    (∀ body r1 r2, login sv body s1 = .ok r1 → login sv body s2 = .ok r2 → r1 = r2) := by
  have hcard := fun id => (hs.projections id).1
  have hname := fun id => (hs.projections id).2
  have hid : u1.id = u2.id := congrArg UserWithoutPassword.id hu
  have hrole : u1.role = u2.role := congrArg UserWithoutPassword.role hu
  obtain ⟨husers, hp, hb, hd, hr, hn⟩ := hs
  have hP : ∀ id, s1.findProject id = s2.findProject id := by
    intro id; unfold Store.findProject; rw [hp]
  have hSel : ∀ p, s1.selectedBid p = s2.selectedBid p := by
    intro p; unfold Store.selectedBid Store.findBid; rw [hb]
  have hDel : ∀ id, s1.deliverablesOf id = s2.deliverablesOf id := by
    intro id; unfold Store.deliverablesOf; rw [hd]
  have hRev : ∀ p, s1.reviewOf p = s2.reviewOf p := by
    intro p; unfold Store.reviewOf; rw [hr]
  have hPF : projectFilter u1 = projectFilter u2 := by
    funext q st p
    simp only [projectFilter, hid, hrole]
  refine ⟨?_, ?_, ?_, ?_, ?_, ?_, ?_, ?_, ?_, ?_⟩
  · unfold getMe; rw [hu]
  · intro id
    simp only [getProject, hP, hSel, hDel, hRev, hb, hid, hrole, hcard]
  · intro q
    simp only [getAllProjects, hPF, hSel, hDel, hp, hb, hcard, hname]
  · intro pid
    simp only [getBidsForProject, hP, hb, hid, hrole, hcard]
  · intro pid
    simp only [getDeliverables, hP, hSel, hDel, hid, hrole]
  · intro sellerId
    have hsel := find_public husers (fun w => decide (w.id = sellerId ∧ w.role = Role.SELLER))
    simp only [getSellerReviews, reviewsOfSeller, hP, hr, hname]
    cases h1 : s1.users.find? (fun u => decide (u.id = sellerId ∧ u.role = Role.SELLER)) with
    | none =>
      cases h2 : s2.users.find? (fun u => decide (u.id = sellerId ∧ u.role = Role.SELLER)) with
      | none => rfl
      | some v =>
        have h1b : s1.users.find? (fun u => decide (u.withoutPassword.id = sellerId ∧
            u.withoutPassword.role = Role.SELLER)) = none := h1
        have h2b : s2.users.find? (fun u => decide (u.withoutPassword.id = sellerId ∧
            u.withoutPassword.role = Role.SELLER)) = some v := h2
        rw [h1b, h2b] at hsel
        cases hsel
    | some w =>
      cases h2 : s2.users.find? (fun u => decide (u.id = sellerId ∧ u.role = Role.SELLER)) with
      | none =>
        have h1b : s1.users.find? (fun u => decide (u.withoutPassword.id = sellerId ∧
            u.withoutPassword.role = Role.SELLER)) = some w := h1
        have h2b : s2.users.find? (fun u => decide (u.withoutPassword.id = sellerId ∧
            u.withoutPassword.role = Role.SELLER)) = none := h2
        rw [h1b, h2b] at hsel
        cases hsel
      | some v => rfl
  · intro now pid body
    have hins : ∀ a e m p q, (s1.insertBid a e m p q).1 = (s2.insertBid a e m p q).1 := by
      intro a e m p q; simp only [Store.insertBid, hn]
    have hfu : ∀ a e m p q id, ((s1.insertBid a e m p q).2.findUser id).map User.card
        = ((s2.insertBid a e m p q).2.findUser id).map User.card := fun _ _ _ _ _ id => hcard id
    simp only [createBid, hP, hb, hid, hrole, hins, hfu]
    repeat' split
    all_goals rfl
  · intro pid
    simp only [completeProject, hP, hDel, hid, hrole]
    repeat' split
    all_goals rfl
  · intro body
    have hem := find_public husers (fun w => decide (w.email = body.email.getD ""))
    have hins : ∀ a b c d, (s1.insertUser a b c d).1 = (s2.insertUser a b c d).1 := by
      intro a b c d; simp only [Store.insertUser, hn]
    simp only [register, Store.findUserByEmail, hins]
    split
    · rfl
    split
    · rfl
    cases h1 : s1.users.find? (fun u => decide (u.email = body.email.getD "")) with
    | none =>
      cases h2 : s2.users.find? (fun u => decide (u.email = body.email.getD "")) with
      | none => rfl
      | some v =>
        have h1b : s1.users.find? (fun u => decide (u.withoutPassword.email
            = body.email.getD "")) = none := h1
        have h2b : s2.users.find? (fun u => decide (u.withoutPassword.email
            = body.email.getD "")) = some v := h2
        rw [h1b, h2b] at hem
        cases hem
    | some w =>
      cases h2 : s2.users.find? (fun u => decide (u.email = body.email.getD "")) with
      | none =>
        have h1b : s1.users.find? (fun u => decide (u.withoutPassword.email
            = body.email.getD "")) = some w := h1
        have h2b : s2.users.find? (fun u => decide (u.withoutPassword.email
            = body.email.getD "")) = none := h2
        rw [h1b, h2b] at hem
        cases hem
      | some v => rfl
  · intro body r1 r2 h1 h2
    have hem := find_public husers (fun w => decide (w.email = body.email.getD ""))
    have key : ∀ (s : Store) (r : Reply AuthData), login sv body s = .ok r →
        ∃ user, s.users.find? (fun u => decide (u.withoutPassword.email = body.email.getD ""))
          = some user ∧ r = ⟨200, ⟨sv.sign user.withoutPassword.id, user.withoutPassword⟩⟩ := by
      intro s r h
      unfold login fail at h
      split at h
      · cases h
      split at h
      · cases h
      split at h
      · cases h
      rename_i user hfound _
      simp only [Except.ok.injEq] at h
      exact ⟨user, hfound, h.symm⟩
    obtain ⟨a, ha, rfl⟩ := key s1 r1 h1
    obtain ⟨b, hb2, rfl⟩ := key s2 r2 h2
    rw [ha, hb2] at hem
    simp only [Option.map_some', Option.some.injEq] at hem
    rw [hem]

/-! ## Requests in flight: what stays true of the store -/

section Flight

/-- Well-formedness reads the projects, the bids, the reviews and the supply of
identifiers only. -/
theorem Inv.of_same_tables {s t : Store} (hs : Inv s) (hp : t.projects = s.projects)
    (hb : t.bids = s.bids) (hr : t.reviews = s.reviews) (hn : s.nextId ≤ t.nextId) : Inv t := by
  obtain ⟨h1, h2, h3, h4, h5, h6, h7, h8, h9⟩ := hs
  refine ⟨?_, ?_, ?_, ?_, ?_, ?_, ?_, ?_, ?_⟩
  · intro p hpm; rw [hp] at hpm; exact Nat.lt_of_lt_of_le (h1 p hpm) hn
  · intro b hbm; rw [hb] at hbm; exact Nat.lt_of_lt_of_le (h2 b hbm) hn
  · rw [hp]; exact h3
  · rw [hb]; exact h4
  · rw [hp, hb]; exact h5
  · rw [hb]; exact h6
  · rw [hp, hb]; exact h7
  · rw [hp, hb, hr]; exact h8
  · rw [hr]; exact h9

/-- A rewrite of a project row in a store without reviews. -/
theorem Inv.updateProject_of_no_reviews {s : Store} (hs : Inv s) (hr : s.reviews = [])
    {id : Id} {f : Project → Project} (hid : ∀ p, (f p).id = p.id)
    (hsel : ∀ p ∈ s.projects, p.id = id → ∀ b, (f p).selectedBidId = some b →
      (f p).status ≠ Status.PENDING ∧ ∃ bid ∈ s.bids, bid.id = b ∧ bid.projectId = p.id) :
    Inv (s.updateProject id f) := by
  obtain ⟨h1, h2, h3, h4, h5, h6, h7, h8, h9⟩ := hs
  have gid : ∀ p : Project, (if p.id = id then f p else p).id = p.id := by
    intro p; split
    · exact hid p
    · rfl
  refine ⟨?_, h2, ?_, h4, ?_, h6, ?_, ?_, h9⟩
  · intro q hq
    obtain ⟨p, hp, rfl⟩ := mem_updateProject.1 hq
    rw [gid]; exact h1 p hp
  · simp only [Store.updateProject]
    rw [List.pairwise_map]
    exact h3.imp (fun {a b} hab => by rw [gid, gid]; exact hab)
  · intro q hq b hb
    obtain ⟨p, hp, rfl⟩ := mem_updateProject.1 hq
    by_cases hpid : p.id = id
    · rw [if_pos hpid] at hb ⊢
      rw [hid]
      exact hsel p hp hpid b hb
    · rw [if_neg hpid] at hb ⊢
      exact h5 p hp b hb
  · intro b hb
    obtain ⟨p, hp, e⟩ := h7 b hb
    exact ⟨_, mem_updateProject.2 ⟨p, hp, rfl⟩, by rw [gid]; exact e⟩
  · intro r hrm
    have : r ∈ s.reviews := hrm
    rw [hr] at this
    cases this

/-- Every step keeps the projects and bids well-formed, whatever the reviews. -/
theorem Inv.step_withoutReviews {sv : Services} {s t : Store} {a : Action}
    (hs : Inv s.withoutReviews) (h : Step sv s a t) : Inv t.withoutReviews := by
  obtain ⟨_, hrun⟩ := h
  cases a with
  | register body =>
    obtain ⟨r, hr⟩ := written_eq_some hrun
    obtain ⟨n, e, p, ro, rfl⟩ := register_ok hr
    exact hs.of_same_tables rfl rfl rfl (Nat.le_succ _)
  | createProject now u body =>
    obtain ⟨r, hr⟩ := written_eq_some hrun
    obtain ⟨_, _, _, _, rfl⟩ := createProject_ok hr
    exact hs.insertProject _ _ _ _ _ _ _
  | updateProject now u id body =>
    obtain ⟨r, hr⟩ := written_eq_some hrun
    obtain ⟨project, dd, hp, _, hst, _, _, rfl⟩ := updateProject_ok hr
    refine hs.updateProject_of_no_reviews rfl (fun p => rfl) ?_
    intro p hpp _ b hb
    exact hs.selected p hpp b hb
  | deleteProject u id =>
    obtain ⟨r, hr⟩ := written_eq_some hrun
    obtain ⟨project, _, _, _, rfl⟩ := deleteProject_ok hr
    exact hs.deleteProject id
  | createBid now u pid body =>
    obtain ⟨r, hr⟩ := written_eq_some hrun
    obtain ⟨_, _, _, _, project, hp, _, hnone, _, _, _, _, rfl⟩ := createBid_ok hr
    exact hs.insertBid _ _ _ hp hnone
  | selectBid u pid bidId =>
    obtain ⟨r, hr⟩ := written_eq_some hrun
    obtain ⟨_, project, bid, hp, _, hst, hbid, _, _, rfl⟩ := selectBid_ok hr
    refine hs.updateProject_of_no_reviews rfl (fun p => rfl) ?_
    intro p hpp hpe b hb
    simp only [Option.some.injEq] at hb
    subst hb
    refine ⟨by simp, bid, List.mem_of_find?_eq_some hbid, ?_⟩
    have := List.find?_some hbid
    simp only [decide_eq_true_eq] at this
    exact ⟨this.1, by rw [this.2, hpe]⟩
  | submitDeliverable now u pid file d =>
    obtain ⟨r, hr⟩ := written_eq_some hrun
    obtain ⟨_, _, _, _, url, _, _, _, _, _, _, _, rfl⟩ := submitDeliverable_ok hr
    exact hs.of_same_tables rfl rfl rfl (Nat.le_succ _)
  | completeProject u pid =>
    obtain ⟨r, hr⟩ := written_eq_some hrun
    obtain ⟨_, project, hp, _, hst, _, _, rfl⟩ := completeProject_ok hr
    refine hs.updateProject_of_no_reviews rfl (fun p => rfl) ?_
    intro p hpp hpe b hb
    obtain ⟨_, rest⟩ := hs.selected p hpp b hb
    exact ⟨by simp, rest⟩
  | createReview now u pid body =>
    obtain ⟨r, hr⟩ := written_eq_some hrun
    obtain ⟨_, project, sel, q, hp, hb, hst, hnone, hsel, _, _, _, _, rfl⟩ :=
      createReview_ok hr
    exact hs.of_same_tables rfl rfl rfl (Nat.le_succ _)

/-- What a step does to the identifiers, the projects and the bids: the supply
of identifiers only grows, a project after the step has the id of a project
of before or the next fresh id, and a bid of before is still there unless its
project is gone. -/
theorem step_shape {sv : Services} {s t : Store} {a : Action} (h : Step sv s a t) :
    s.nextId ≤ t.nextId ∧
    (∀ q ∈ t.projects, (∃ p ∈ s.projects, p.id = q.id) ∨ q.id = s.nextId) ∧
    (∀ b ∈ s.bids, b ∈ t.bids ∨ ∀ q ∈ t.projects, q.id ≠ b.projectId) := by
  have same : ∀ q ∈ s.projects, (∃ p ∈ s.projects, p.id = q.id) ∨ q.id = s.nextId :=
    fun q hq => Or.inl ⟨q, hq, rfl⟩
  obtain ⟨_, hrun⟩ := h
  cases a with
  | register body =>
    obtain ⟨r, hr⟩ := written_eq_some hrun
    obtain ⟨n, e, p, ro, rfl⟩ := register_ok hr
    exact ⟨Nat.le_succ _, same, fun b hb => Or.inl hb⟩
  | createProject now u body =>
    obtain ⟨r, hr⟩ := written_eq_some hrun
    obtain ⟨_, _, _, _, rfl⟩ := createProject_ok hr
    refine ⟨Nat.le_succ _, ?_, fun b hb => Or.inl hb⟩
    intro q hq
    simp only [Store.insertProject, List.mem_append, List.mem_singleton] at hq
    rcases hq with hq | rfl
    · exact same q hq
    · exact Or.inr rfl
  | updateProject now u id body =>
    obtain ⟨r, hr⟩ := written_eq_some hrun
    obtain ⟨project, dd, hp, _, hst, _, _, rfl⟩ := updateProject_ok hr
    refine ⟨Nat.le_refl _, ?_, fun b hb => Or.inl hb⟩
    intro q hq
    obtain ⟨p, hpm, rfl⟩ := mem_updateProject.1 hq
    refine Or.inl ⟨p, hpm, ?_⟩
    split <;> rfl
  | deleteProject u id =>
    obtain ⟨r, hr⟩ := written_eq_some hrun
    obtain ⟨project, _, _, _, rfl⟩ := deleteProject_ok hr
    refine ⟨Nat.le_refl _, fun q hq => same q (List.mem_of_mem_filter hq), ?_⟩
    intro b hb
    by_cases hbp : b.projectId = id
    · refine Or.inr ?_
      intro q hq
      simp only [Store.deleteProject, List.mem_filter, decide_eq_true_eq] at hq
      rw [hbp]; exact hq.2
    · refine Or.inl ?_
      simp only [Store.deleteProject, List.mem_filter, decide_eq_true_eq]
      exact ⟨hb, hbp⟩
  | createBid now u pid body =>
    obtain ⟨r, hr⟩ := written_eq_some hrun
    obtain ⟨_, _, _, _, project, hp, _, hnone, _, _, _, _, rfl⟩ := createBid_ok hr
    exact ⟨Nat.le_succ _, same, fun b hb => Or.inl (by simp [Store.insertBid, hb])⟩
  | selectBid u pid bidId =>
    obtain ⟨r, hr⟩ := written_eq_some hrun
    obtain ⟨_, project, bid, hp, _, hst, hbid, _, _, rfl⟩ := selectBid_ok hr
    refine ⟨Nat.le_refl _, ?_, fun b hb => Or.inl hb⟩
    intro q hq
    obtain ⟨p, hpm, rfl⟩ := mem_updateProject.1 hq
    refine Or.inl ⟨p, hpm, ?_⟩
    split <;> rfl
  | submitDeliverable now u pid file d =>
    obtain ⟨r, hr⟩ := written_eq_some hrun
    obtain ⟨_, _, _, _, url, _, _, _, _, _, _, _, rfl⟩ := submitDeliverable_ok hr
    exact ⟨Nat.le_succ _, same, fun b hb => Or.inl hb⟩
  | completeProject u pid =>
    obtain ⟨r, hr⟩ := written_eq_some hrun
    obtain ⟨_, project, hp, _, hst, _, _, rfl⟩ := completeProject_ok hr
    refine ⟨Nat.le_refl _, ?_, fun b hb => Or.inl hb⟩
    intro q hq
    obtain ⟨p, hpm, rfl⟩ := mem_updateProject.1 hq
    refine Or.inl ⟨p, hpm, ?_⟩
    split <;> rfl
  | createReview now u pid body =>
    obtain ⟨r, hr⟩ := written_eq_some hrun
    obtain ⟨_, project, sel, q2, hp, hb, hst, hnone, hsel, _, _, _, _, rfl⟩ :=
      createReview_ok hr
    exact ⟨Nat.le_succ _, same, fun b hb => Or.inl hb⟩

/-- A step keeps what a request in flight has read sound. -/
theorem InFlight.Sound.after_step {sv : Services} {s t : Store} {a : Action} {x : InFlight}
    (hx : x.Sound s) (h : Step sv s a t) : x.Sound t := by
  obtain ⟨hn, hproj, hbids⟩ := step_shape h
  unfold InFlight.Sound at hx ⊢
  split
  · rename_i project bid hpr
    rw [hpr] at hx
    obtain ⟨e1, e2, hlt, hor⟩ := hx
    refine ⟨e1, e2, Nat.lt_of_lt_of_le hlt hn, ?_⟩
    rcases hor with hmem | hgone
    · rcases hbids bid hmem with h1 | h2
      · exact Or.inl h1
      · exact Or.inr (fun q hq => by rw [← e2]; exact h2 q hq)
    · refine Or.inr ?_
      intro q hq
      rcases hproj q hq with ⟨p, hp, hid⟩ | hid
      · rw [← hid]; exact hgone p hp
      · rw [hid]; exact Nat.ne_of_gt hlt
  · trivial

/-- The store a call of a request in flight leaves: the store as it was, or
the project of the request rewritten by an update that follows the read of a
bid. -/
theorem selectBidAdvance_store (sv : Services) (u : User) (pid bidId : Id)
    (pr : SelectProgress) (s : Store) :
    (selectBidAdvance sv u pid bidId pr s).2 = s ∨
    ((∃ project bid, pr = .bidRead project bid) ∧ (∃ cur, s.findProject pid = some cur) ∧
      (selectBidAdvance sv u pid bidId pr s).2 = s.updateProject pid
        (fun p => { p with selectedBidId := some bidId, status := Status.IN_PROGRESS })) := by
  cases pr with
  | start =>
    left
    by_cases hrole : u.role ≠ Role.BUYER
    · simp only [selectBidAdvance, if_pos hrole]
    · simp only [selectBidAdvance, if_neg hrole]
      cases hp : s.findProject pid with
      | none => rfl
      | some project =>
        dsimp only
        by_cases hown : project.buyerId ≠ u.id
        · simp only [if_pos hown]
        · simp only [if_neg hown]
          by_cases hst : project.status ≠ Status.PENDING
          · simp only [if_pos hst]
          · simp only [if_neg hst]
  | projectRead project =>
    left
    simp only [selectBidAdvance]
    split <;> rfl
  | bidRead project bid =>
    cases hp : s.findProject pid with
    | none =>
      left
      simp only [selectBidAdvance, hp]
    | some cur =>
      right
      refine ⟨⟨project, bid, rfl⟩, ⟨cur, rfl⟩, ?_⟩
      simp only [selectBidAdvance, hp]
  | finished r =>
    left
    simp only [selectBidAdvance]

/-- Where a request stands after a call: it has answered, or it has read its
project, or it has read its bid, found in the store among the bids of the
project. -/
theorem selectBidAdvance_progress (sv : Services) (u : User) (pid bidId : Id)
    (pr : SelectProgress) (s : Store) :
    (∃ r, (selectBidAdvance sv u pid bidId pr s).1 = .finished r) ∨
    (∃ project, (selectBidAdvance sv u pid bidId pr s).1 = .projectRead project) ∨
    (∃ project bid, (selectBidAdvance sv u pid bidId pr s).1 = .bidRead project bid ∧
      s.bids.find? (fun b => decide (b.id = bidId ∧ b.projectId = pid)) = some bid) := by
  cases pr with
  | start =>
    by_cases hrole : u.role ≠ Role.BUYER
    · exact Or.inl ⟨_, by simp only [selectBidAdvance, if_pos hrole]; rfl⟩
    · cases hp : s.findProject pid with
      | none => exact Or.inl ⟨_, by simp only [selectBidAdvance, if_neg hrole, hp]; rfl⟩
      | some project =>
        by_cases hown : project.buyerId ≠ u.id
        · exact Or.inl ⟨_, by simp only [selectBidAdvance, if_neg hrole, hp, if_pos hown]; rfl⟩
        · by_cases hst : project.status ≠ Status.PENDING
          · exact Or.inl ⟨_, by
              simp only [selectBidAdvance, if_neg hrole, hp, if_neg hown, if_pos hst]; rfl⟩
          · exact Or.inr (Or.inl ⟨project, by
              simp only [selectBidAdvance, if_neg hrole, hp, if_neg hown, if_neg hst]⟩)
  | projectRead project =>
    cases hb : s.bids.find? (fun b => decide (b.id = bidId ∧ b.projectId = pid)) with
    | none => exact Or.inl ⟨_, by simp only [selectBidAdvance, hb]; rfl⟩
    | some bid => exact Or.inr (Or.inr ⟨project, bid, by simp only [selectBidAdvance, hb], rfl⟩)
  | bidRead project bid =>
    cases hp : s.findProject pid with
    | none => exact Or.inl ⟨_, by simp only [selectBidAdvance, hp]; rfl⟩
    | some cur => exact Or.inl ⟨_, by simp only [selectBidAdvance, hp]; rfl⟩
  | finished r => exact Or.inl ⟨r, by simp only [selectBidAdvance]⟩

/-- With requests in flight the projects and bids of the store stay
well-formed, and what each request has read stays sound. -/
theorem FlightReachable.sound {s : Store} {flights : List InFlight}
    (h : FlightReachable s flights) :
    Inv s.withoutReviews ∧ ∀ x ∈ flights, x.Sound s := by
  induction h with
  | init => exact ⟨Inv.empty, fun x hx => by cases hx⟩
  | step _ hstep ih =>
    exact ⟨ih.1.step_withoutReviews hstep, fun x hx => (ih.2 x hx).after_step hstep⟩
  | arrive request _ _ ih =>
    refine ⟨ih.1, ?_⟩
    intro x hx
    rcases List.mem_cons.1 hx with rfl | hx
    · trivial
    · exact ih.2 x hx
  | @advance sv s before after request progress _ ih =>
    obtain ⟨hinv, hall⟩ := ih
    have hself : InFlight.Sound s ⟨request, progress⟩ :=
      hall _ (List.mem_append.2 (Or.inr (List.mem_cons_self _ _)))
    -- the store after the call
    have hstore := selectBidAdvance_store sv request.user request.projectId request.bidId
      progress s
    have hinv2 : Inv (selectBidAdvance sv request.user request.projectId request.bidId
        progress s).2.withoutReviews := by
      rcases hstore with he | ⟨⟨project, bid, hpr⟩, ⟨cur, hcur⟩, he⟩
      · rw [he]; exact hinv
      · rw [he]
        subst hpr
        obtain ⟨e1, e2, _, hor⟩ := hself
        refine hinv.updateProject_of_no_reviews rfl (fun p => rfl) ?_
        intro p hpp hpe b hb
        simp only [Option.some.injEq] at hb
        subst hb
        refine ⟨by simp, bid, ?_, e1, by rw [e2, hpe]⟩
        rcases hor with hmem | hgone
        · exact hmem
        · exact absurd hpe (hgone p hpp)
    -- soundness of the other requests
    have hkeep : ∀ x : InFlight, x.Sound s →
        x.Sound (selectBidAdvance sv request.user request.projectId request.bidId
          progress s).2 := by
      intro x hx
      rcases hstore with he | ⟨_, _, he⟩
      · rw [he]; exact hx
      · rw [he]
        unfold InFlight.Sound at hx ⊢
        split
        · rename_i project bid hpr
          rw [hpr] at hx
          obtain ⟨e1, e2, hlt, hor⟩ := hx
          refine ⟨e1, e2, hlt, ?_⟩
          rcases hor with hmem | hgone
          · exact Or.inl hmem
          · refine Or.inr ?_
            intro q hq
            obtain ⟨p, hp, rfl⟩ := mem_updateProject.1 hq
            have : (if p.id = request.projectId then
                ({ p with selectedBidId := some request.bidId,
                          status := Status.IN_PROGRESS } : Project) else p).id = p.id := by
              split <;> rfl
            rw [this]; exact hgone p hp
        · trivial
    refine ⟨hinv2, ?_⟩
    intro x hx
    rcases List.mem_append.1 hx with hx | hx
    · exact hkeep x (hall x (List.mem_append.2 (Or.inl hx)))
    · rcases List.mem_cons.1 hx with rfl | hx
      · -- the request that made the call
        rcases selectBidAdvance_progress sv request.user request.projectId request.bidId
          progress s with ⟨r, hr⟩ | ⟨project, hr⟩ | ⟨project, bid, hr, hb⟩
        · simp only [InFlight.Sound, hr]
        · simp only [InFlight.Sound, hr]
        · have hmem : bid ∈ s.bids := List.mem_of_find?_eq_some hb
          have hprop := List.find?_some hb
          simp only [decide_eq_true_eq] at hprop
          obtain ⟨p, hp, hpid⟩ := hinv.bidProject bid hmem
          have hlt : request.projectId < s.nextId := by
            rw [← hprop.2, ← hpid]
            exact hinv.projectFresh p hp
          have hst : (selectBidAdvance sv request.user request.projectId request.bidId
              progress s).2 = s := by
            rcases hstore with he | ⟨⟨_, _, hpr⟩, _, _⟩
            · exact he
            · subst hpr
              simp only [selectBidAdvance] at hr
              split at hr <;> cases hr
          simp only [InFlight.Sound, hr, hst]
          exact ⟨hprop.1, hprop.2, hlt, Or.inl hmem⟩
      · exact hkeep x (hall x (List.mem_append.2 (Or.inr (List.mem_cons_of_mem _ hx))))

/-- A store reached by requests handled one after the other is reached with
no request in flight. -/
theorem Reachable.flight {s : Store} (h : Reachable s) : FlightReachable s [] := by
  induction h with
  | init => exact FlightReachable.init
  | step _ hstep ih => exact FlightReachable.step ih hstep

/-- The store of the second sample run is reachable. -/
theorem raceStore_reachable : Reachable raceStore := by
  unfold raceStore
  cases h : runSteps demoServices raceActions Store.empty with
  | none => exact Reachable.init
  | some t => exact runSteps_reachable Reachable.init h

/-- A checked run from a store reached with requests in flight. -/
theorem runSteps_flightReachable {sv : Services} {as : List Action} {s t : Store}
    {flights : List InFlight} (hs : FlightReachable s flights)
    (h : runSteps sv as s = some t) : FlightReachable t flights := by
  induction as generalizing s with
  | nil =>
    simp only [runSteps, Option.some.injEq] at h
    subst h; exact hs
  | cons a rest ih =>
    simp only [runSteps] at h
    split at h
    · rename_i ha
      cases hrun : a.run sv s with
      | none => simp [hrun] at h
      | some m =>
        simp only [hrun, Option.some_bind] at h
        exact ih (FlightReachable.step hs ⟨authentic_iff.1 ha, hrun⟩) h
    · cases h

/-- In the third sample run the request is in flight, its bid read, over every
store of the requests handled meanwhile. -/
theorem heldStore_reachable (k : Nat) : FlightReachable (heldStore k) [⟨heldRequest, heldProgress⟩] := by
  have h0 : FlightReachable raceStore [⟨heldRequest, .start⟩] :=
    FlightReachable.arrive heldRequest raceStore_reachable.flight (by decide)
  have h1 := FlightReachable.advance demoServices [] [] heldRequest .start h0
  have h2 := FlightReachable.advance demoServices [] [] heldRequest _ h1
  have e1 : (selectBidAdvance demoServices heldRequest.user heldRequest.projectId
      heldRequest.bidId .start raceStore).2 = raceStore := by decide
  have h3 : FlightReachable raceStore [⟨heldRequest, heldProgress⟩] := by
    have e2 : (selectBidAdvance demoServices heldRequest.user heldRequest.projectId
        heldRequest.bidId
        (selectBidAdvance demoServices heldRequest.user heldRequest.projectId
          heldRequest.bidId .start raceStore).1
        (selectBidAdvance demoServices heldRequest.user heldRequest.projectId
          heldRequest.bidId .start raceStore).2).2 = raceStore := by decide
    rw [e2] at h2
    rw [e1] at h2
    exact h2
  unfold heldStore
  cases h : runSteps demoServices (heldActions.take k) raceStore with
  | none => exact h3
  | some t => exact runSteps_flightReachable h3 h

/-- After its update too. -/
theorem heldStoreUpdated_reachable (k : Nat) :
    FlightReachable (heldStoreUpdated k)
      [⟨heldRequest,
        (selectBidAdvance demoServices demoBuyer 1 5 heldProgress (heldStore k)).1⟩] :=
  FlightReachable.advance demoServices [] [] heldRequest heldProgress (heldStore_reachable k)

end Flight

/-- C2, as stated, fails: selectedBidId is written again after a successful
selectBid. In the third sample run the buyer's selectBid for bid 5 has read the
project (PENDING) and its bid when the selectBid for bid 3 is handled: that one
answers 200 and leaves the project IN_PROGRESS with selectedBidId 3. The request
in flight then makes its update, by id alone: it answers 200 too and the
project's selectedBidId is now 5. -/
theorem selectedBidId_written_again :
    FlightReachable raceStore [⟨heldRequest, heldProgress⟩] ∧
    heldProgress = SelectProgress.bidRead
      ⟨1, "Logo", "A logo for the shop", JsNum.fin 100, JsNum.fin 500, some 1794431820000,
        Status.PENDING, none, 0, demoNow⟩
      ⟨5, JsNum.fin 250, some 1794172620000, "Me too", 1, 4⟩ ∧
    (selectBid demoServices demoBuyer 1 3 raceStore).httpStatus = 200 ∧
    (selectBid demoServices demoBuyer 1 3 raceStore).written = some (heldStore 1) ∧
    FlightReachable (heldStore 1) [⟨heldRequest, heldProgress⟩] ∧
    (heldStore 1).projects.map (fun p => (p.id, p.status, p.selectedBidId))
      = [(1, Status.IN_PROGRESS, some 3)] ∧
    (selectBidAdvance demoServices demoBuyer 1 5 heldProgress (heldStore 1)).1.succeeded.map
      (fun r => (r.status, r.data.project.selectedBidId)) = some (200, some 5) ∧
    FlightReachable (heldStoreUpdated 1)
      [⟨heldRequest, (selectBidAdvance demoServices demoBuyer 1 5 heldProgress (heldStore 1)).1⟩] ∧
    (heldStoreUpdated 1).projects.map (fun p => (p.id, p.status, p.selectedBidId))
      = [(1, Status.IN_PROGRESS, some 5)] :=
  ⟨heldStore_reachable 0, rfl, by decide, by decide, heldStore_reachable 1, by decide,
    by decide, heldStoreUpdated_reachable 1, by decide⟩

/-- C2, amended: in every store reached by the handlers, also while selectBid
requests are in flight between their calls to the store, a project whose
selectedBidId is set points at a bid of the store whose projectId is the
project's id. A successful selectBid, handled in one go or making its update
from flight, answers with and leaves in the store the project IN_PROGRESS with
selectedBidId the chosen bid. No request handled afterwards writes selectedBidId
again: after every step the project is still there with the same selectedBidId.
It is written again only by the update of a selectBid request in flight: after a
call of a request in flight the project is still there, and its selectedBidId is
the same unless the call is the update of a request that has read its bid on
that project, which sets it to the bid of that request. A selectBid request that
makes its first call when the project has a selected bid answers with an error
and leaves the store as it is. -/
theorem selected_bid_belongs_to_project {s : Store} {flights : List InFlight}
    (hs : FlightReachable s flights) :
    (∀ p ∈ s.projects, ∀ b, p.selectedBidId = some b →
      ∃ bid ∈ s.bids, bid.id = b ∧ bid.projectId = p.id) ∧
    (∀ sv u pid bidId r t, selectBid sv u pid bidId s = .ok (r, t) →
      r.data.project.status = Status.IN_PROGRESS ∧
      r.data.project.selectedBidId = some bidId ∧
      (∃ q ∈ t.projects, q.id = pid) ∧
      ∀ q ∈ t.projects, q.id = pid →
        q.status = Status.IN_PROGRESS ∧ q.selectedBidId = some bidId) ∧
    (∀ sv u pid bidId project bid r t,
      selectBidAdvance sv u pid bidId (.bidRead project bid) s = (.finished (.ok r), t) →
      r.data.project.status = Status.IN_PROGRESS ∧
      r.data.project.selectedBidId = some bidId ∧
      (∃ q ∈ t.projects, q.id = pid) ∧
      ∀ q ∈ t.projects, q.id = pid →
        q.status = Status.IN_PROGRESS ∧ q.selectedBidId = some bidId) ∧
    (∀ sv a t, Step sv s a t → ∀ p ∈ s.projects, ∀ b, p.selectedBidId = some b →
      (∃ q ∈ t.projects, q.id = p.id) ∧
      ∀ q ∈ t.projects, q.id = p.id → q.selectedBidId = some b) ∧
    (∀ sv, ∀ x ∈ flights, ∀ p ∈ s.projects, ∀ b, p.selectedBidId = some b →
      (∃ q ∈ (selectBidAdvance sv x.request.user x.request.projectId x.request.bidId
          x.progress s).2.projects, q.id = p.id) ∧
      ∀ q ∈ (selectBidAdvance sv x.request.user x.request.projectId x.request.bidId
          x.progress s).2.projects, q.id = p.id →
        q.selectedBidId = some b ∨
        ((∃ project bid, x.progress = .bidRead project bid) ∧ x.request.projectId = p.id ∧
          q.selectedBidId = some x.request.bidId)) ∧
    (∀ sv u bidId, ∀ p ∈ s.projects, ∀ b, p.selectedBidId = some b →
      ∃ e, selectBidAdvance sv u p.id bidId .start s = (.finished (.error e), s)) := by
  have hi := hs.sound.1
  have huniq : s.projects.Pairwise (fun a b => a.id ≠ b.id) := hi.projectIds
  have hfresh : ∀ p ∈ s.projects, p.id < s.nextId := hi.projectFresh
  refine ⟨?_, ?_, ?_, ?_, ?_, ?_⟩
  · intro p hp b hb
    exact (hi.selected p hp b hb).2
  · intro sv u pid bidId r t hr
    obtain ⟨_, project, bid, hp, _, hst, hbid, _, hdata, rfl⟩ := selectBid_ok hr
    obtain ⟨hpm, hpid⟩ := findProject_mem hp
    refine ⟨by rw [hdata], by rw [hdata], ?_, ?_⟩
    · refine ⟨_, mem_updateProject.2 ⟨project, hpm, rfl⟩, ?_⟩
      rw [if_pos hpid]; exact hpid
    · intro q hq hqid
      obtain ⟨p, hpp, rfl⟩ := mem_updateProject.1 hq
      by_cases hpe : p.id = pid
      · rw [if_pos hpe]; exact ⟨rfl, rfl⟩
      · rw [if_neg hpe] at hqid; exact absurd hqid hpe
  · intro sv u pid bidId project bid r t hr
    cases hp : s.findProject pid with
    | none =>
      simp only [selectBidAdvance, hp, Prod.mk.injEq, SelectProgress.finished.injEq] at hr
      cases hr.1
    | some cur =>
      simp only [selectBidAdvance, hp, Prod.mk.injEq, SelectProgress.finished.injEq,
        Except.ok.injEq] at hr
      obtain ⟨hr1, rfl⟩ := hr
      obtain ⟨hpm, hpid⟩ := findProject_mem hp
      refine ⟨by rw [← hr1]; rfl, by rw [← hr1]; rfl, ?_, ?_⟩
      · refine ⟨_, mem_updateProject.2 ⟨cur, hpm, rfl⟩, ?_⟩
        rw [if_pos hpid]; exact hpid
      · intro q hq hqid
        obtain ⟨p, hpp, rfl⟩ := mem_updateProject.1 hq
        by_cases hpe : p.id = pid
        · rw [if_pos hpe]; exact ⟨rfl, rfl⟩
        · rw [if_neg hpe] at hqid; exact absurd hqid hpe
  · intro sv a t hstep p hp b hb
    have hne := (hi.selected p hp b hb).1
    refine ⟨step_project_kept_of huniq hstep p hp hne, ?_⟩
    intro q hq hid
    rcases step_project_change_of hfresh huniq hstep q hq with
      ⟨p2, hp2, hid2, _, hch⟩ | ⟨hnew, _⟩
    · have : p2 = p := eq_of_pairwise_key huniq hp2 hp (by rw [hid2, hid])
      subst this
      rcases hch with ⟨_, e⟩ | ⟨e1, _⟩ | ⟨_, _, e, _⟩
      · rw [e]; exact hb
      · exact absurd e1 hne
      · rw [e]; exact hb
    · exact absurd hid.symm (hnew p hp)
  · intro sv x _ p hp b hb
    rcases selectBidAdvance_store sv x.request.user x.request.projectId x.request.bidId
      x.progress s with he | ⟨hpr, _, he⟩
    · rw [he]
      refine ⟨⟨p, hp, rfl⟩, ?_⟩
      intro q hq hid
      rw [eq_of_pairwise_key huniq hq hp hid]
      exact Or.inl hb
    · rw [he]
      refine ⟨⟨_, mem_updateProject.2 ⟨p, hp, rfl⟩, by split <;> rfl⟩, ?_⟩
      intro q hq hid
      obtain ⟨p2, hp2, rfl⟩ := mem_updateProject.1 hq
      by_cases hpe : p2.id = x.request.projectId
      · rw [if_pos hpe] at hid ⊢
        have : p2 = p := eq_of_pairwise_key huniq hp2 hp hid
        subst this
        exact Or.inr ⟨hpr, hpe.symm, rfl⟩
      · rw [if_neg hpe] at hid ⊢
        rw [eq_of_pairwise_key huniq hp2 hp hid]
        exact Or.inl hb
  · intro sv u bidId p hp b hb
    have hne := (hi.selected p hp b hb).1
    have hfind : s.findProject p.id = some p := hi.findProject_of_mem hp
    by_cases hrole : u.role ≠ Role.BUYER
    · exact ⟨_, by simp only [selectBidAdvance, if_pos hrole, fail]; rfl⟩
    · by_cases hown : p.buyerId ≠ u.id
      · exact ⟨_, by simp only [selectBidAdvance, if_neg hrole, hfind, if_pos hown, fail]; rfl⟩
      · exact ⟨_, by
          simp only [selectBidAdvance, if_neg hrole, hfind, if_neg hown, if_pos hne, fail]
          rfl⟩

/-- C2, amended, in the third sample run: the bid 3 is selected and the
request for bid 5 is in flight, its bid read. -/
theorem selected_bid_belongs_to_project_witness :
    FlightReachable (heldStore 1) [⟨heldRequest, heldProgress⟩] ∧
    (heldStore 1).projects.map (fun p => (p.id, p.selectedBidId)) = [(1, some 3)] ∧
    ((∀ p ∈ (heldStore 1).projects, ∀ b, p.selectedBidId = some b →
      ∃ bid ∈ (heldStore 1).bids, bid.id = b ∧ bid.projectId = p.id) ∧
    (∀ sv u pid bidId r t, selectBid sv u pid bidId (heldStore 1) = .ok (r, t) →
      r.data.project.status = Status.IN_PROGRESS ∧
      r.data.project.selectedBidId = some bidId ∧
      (∃ q ∈ t.projects, q.id = pid) ∧
      ∀ q ∈ t.projects, q.id = pid →
        q.status = Status.IN_PROGRESS ∧ q.selectedBidId = some bidId) ∧
    (∀ sv u pid bidId project bid r t,
      selectBidAdvance sv u pid bidId (.bidRead project bid) (heldStore 1)
        = (.finished (.ok r), t) →
      r.data.project.status = Status.IN_PROGRESS ∧
      r.data.project.selectedBidId = some bidId ∧
      (∃ q ∈ t.projects, q.id = pid) ∧
      ∀ q ∈ t.projects, q.id = pid →
        q.status = Status.IN_PROGRESS ∧ q.selectedBidId = some bidId) ∧
    (∀ sv a t, Step sv (heldStore 1) a t → ∀ p ∈ (heldStore 1).projects, ∀ b,
      p.selectedBidId = some b →
      (∃ q ∈ t.projects, q.id = p.id) ∧
      ∀ q ∈ t.projects, q.id = p.id → q.selectedBidId = some b) ∧
    (∀ sv, ∀ x ∈ [(⟨heldRequest, heldProgress⟩ : InFlight)], ∀ p ∈ (heldStore 1).projects,
      ∀ b, p.selectedBidId = some b →
      (∃ q ∈ (selectBidAdvance sv x.request.user x.request.projectId x.request.bidId
          x.progress (heldStore 1)).2.projects, q.id = p.id) ∧
      ∀ q ∈ (selectBidAdvance sv x.request.user x.request.projectId x.request.bidId
          x.progress (heldStore 1)).2.projects, q.id = p.id →
        q.selectedBidId = some b ∨
        ((∃ project bid, x.progress = .bidRead project bid) ∧ x.request.projectId = p.id ∧
          q.selectedBidId = some x.request.bidId)) ∧
    (∀ sv u bidId, ∀ p ∈ (heldStore 1).projects, ∀ b, p.selectedBidId = some b →
      ∃ e, selectBidAdvance sv u p.id bidId .start (heldStore 1)
        = (.finished (.error e), heldStore 1))) :=
  ⟨heldStore_reachable 1, by decide, selected_bid_belongs_to_project (heldStore_reachable 1)⟩

/-- C6, as stated, fails. With a selectBid request in flight: in the third
sample run the request for bid 5 is held after its reads while bid 3 is
selected, the first seller delivers, the buyer completes the project and
reviews it (the review names seller 2, the seller of bid 3). The held request
then makes its update: the store has the review on a project that is
IN_PROGRESS, whose selected bid is bid 5, of seller 4. And the answer of
createReview on a project that is not COMPLETED is not always a 400: in the
first sample run, the project IN_PROGRESS, the seller gets the 403 of the role
check. -/
theorem review_left_on_reopened_project :
    FlightReachable (heldStore 4) [⟨heldRequest, heldProgress⟩] ∧
    (heldStore 4).projects.map (fun p => (p.id, p.status, p.selectedBidId))
      = [(1, Status.COMPLETED, some 3)] ∧
    (heldStore 4).reviews.map (fun r => (r.projectId, r.sellerId, r.buyerId)) = [(1, 2, 0)] ∧
    FlightReachable (heldStoreUpdated 4)
      [⟨heldRequest, (selectBidAdvance demoServices demoBuyer 1 5 heldProgress (heldStore 4)).1⟩] ∧
    (heldStoreUpdated 4).projects.map (fun p => (p.id, p.status, p.selectedBidId))
      = [(1, Status.IN_PROGRESS, some 5)] ∧
    (heldStoreUpdated 4).bids.map (fun b => (b.id, b.projectId, b.sellerId))
      = [(3, 1, 2), (5, 1, 4)] ∧
    (heldStoreUpdated 4).reviews.map (fun r => (r.projectId, r.sellerId, r.buyerId))
      = [(1, 2, 0)] ∧
    ¬(∀ r ∈ (heldStoreUpdated 4).reviews, ∃ p ∈ (heldStoreUpdated 4).projects,
        p.id = r.projectId ∧ p.status = Status.COMPLETED) ∧
    ¬(∀ r ∈ (heldStoreUpdated 4).reviews, ∃ p ∈ (heldStoreUpdated 4).projects,
        p.id = r.projectId ∧
        ∃ bid ∈ (heldStoreUpdated 4).bids, p.selectedBidId = some bid.id ∧
          r.sellerId = bid.sellerId) ∧
    Reachable (demoStore 5) ∧
    (demoStore 5).projects.map (fun p => (p.id, p.status)) = [(1, Status.IN_PROGRESS)] ∧
    demoSeller ∈ (demoStore 5).users ∧
    (createReview demoNow demoSeller 1 ⟨.num (.fin 5), some "great"⟩
      (demoStore 5)).httpStatus = 403 ∧
    (createReview demoNow demoSeller 1 ⟨.num (.fin 5), some "great"⟩
      (demoStore 5)).written = none :=
  ⟨heldStore_reachable 4, by decide, by decide, heldStoreUpdated_reachable 4, by decide,
    by decide, by decide, by decide, by decide, demoStore_reachable 5, by decide, by decide,
    by decide, by decide⟩

/-! ## Rounding to binary64: what the rounded value is -/

section Binary64

/-- The halving count is the whole part of the base-2 logarithm. -/
theorem log2Floor_spec (fuel n : Nat) (h1 : 1 ≤ n) (hf : n ≤ fuel) :
    2 ^ log2Floor fuel n ≤ n ∧ n < 2 ^ (log2Floor fuel n + 1) := by
  induction fuel generalizing n with
  | zero => omega
  | succ fuel ih =>
    unfold log2Floor
    split
    · rename_i h2
      have := ih (n / 2) (by omega) (by omega)
      obtain ⟨a, b⟩ := this
      constructor
      · rw [pow_succ]; omega
      · rw [pow_succ]; omega
    · simp; omega

/-- The comparison with a power of two, read in the rationals. -/
theorem pow2Le_iff (c : Int) (n d : Nat) (hd : 0 < d) :
    pow2Le c n d = true ↔ (2 : ℚ) ^ c ≤ (n : ℚ) / d := by
  have hdq : (0 : ℚ) < d := by exact_mod_cast hd
  unfold pow2Le
  split
  · rename_i hc
    obtain ⟨k, rfl⟩ := Int.eq_ofNat_of_zero_le hc
    simp only [Int.toNat_ofNat, decide_eq_true_eq, zpow_natCast]
    rw [le_div_iff₀ hdq]
    exact_mod_cast Iff.rfl
  · rename_i hc
    obtain ⟨k, hk⟩ := Int.eq_ofNat_of_zero_le (show 0 ≤ -c by omega)
    have hc2 : c = -(k : Int) := by omega
    subst hc2
    simp only [neg_neg, Int.toNat_ofNat, decide_eq_true_eq, zpow_neg, zpow_natCast]
    rw [inv_le_iff_one_le_mul₀ (by positivity), div_mul_eq_mul_div, one_le_div hdq]
    exact_mod_cast Iff.rfl


/-- The binade of a positive fraction holds it. -/
theorem binade_spec (n d : Nat) (hn : 0 < n) (hd : 0 < d) :
    (2 : ℚ) ^ binade n d ≤ (n : ℚ) / d ∧ (n : ℚ) / d < (2 : ℚ) ^ (binade n d + 1) := by
  have hdq : (0 : ℚ) < d := by exact_mod_cast hd
  have hnq : (0 : ℚ) < n := by exact_mod_cast hn
  obtain ⟨n1, n2⟩ := log2Floor_spec n n hn (le_refl _)
  obtain ⟨d1, d2⟩ := log2Floor_spec d d hd (le_refl _)
  have n1q : (2 : ℚ) ^ (log2Floor n n : Int) ≤ n := by
    rw [zpow_natCast]; exact_mod_cast n1
  have n2q : (n : ℚ) < (2 : ℚ) ^ ((log2Floor n n : Int) + 1) := by
    have : (n : ℚ) < (2 : ℚ) ^ (log2Floor n n + 1) := by exact_mod_cast n2
    rwa [← zpow_natCast, Nat.cast_add, Nat.cast_one] at this
  have d1q : (2 : ℚ) ^ (log2Floor d d : Int) ≤ d := by
    rw [zpow_natCast]; exact_mod_cast d1
  have d2q : (d : ℚ) < (2 : ℚ) ^ ((log2Floor d d : Int) + 1) := by
    have : (d : ℚ) < (2 : ℚ) ^ (log2Floor d d + 1) := by exact_mod_cast d2
    rwa [← zpow_natCast, Nat.cast_add, Nat.cast_one] at this
  have h2 : (0 : ℚ) < 2 := by norm_num
  -- n / d < 2 ^ (c + 1)
  have hup : (n : ℚ) / d < (2 : ℚ) ^ ((log2Floor n n : Int) - (log2Floor d d : Int) + 1) := by
    rw [div_lt_iff₀ hdq]
    calc (n : ℚ) < (2 : ℚ) ^ ((log2Floor n n : Int) + 1) := n2q
      _ = (2 : ℚ) ^ ((log2Floor n n : Int) - (log2Floor d d : Int) + 1)
            * (2 : ℚ) ^ (log2Floor d d : Int) := by
          rw [← zpow_add₀ (by norm_num)]; congr 1; ring
      _ ≤ _ := by
          apply mul_le_mul_of_nonneg_left d1q
          positivity
  -- 2 ^ (c - 1) ≤ n / d
  have hlo : (2 : ℚ) ^ ((log2Floor n n : Int) - (log2Floor d d : Int) - 1) ≤ (n : ℚ) / d := by
    rw [le_div_iff₀ hdq]
    calc (2 : ℚ) ^ ((log2Floor n n : Int) - (log2Floor d d : Int) - 1) * d
        ≤ (2 : ℚ) ^ ((log2Floor n n : Int) - (log2Floor d d : Int) - 1)
            * (2 : ℚ) ^ ((log2Floor d d : Int) + 1) := by
          apply mul_le_mul_of_nonneg_left (le_of_lt d2q)
          positivity
      _ = (2 : ℚ) ^ (log2Floor n n : Int) := by
          rw [← zpow_add₀ (by norm_num)]; congr 1; ring
      _ ≤ n := n1q
  unfold binade
  dsimp only
  split
  · rename_i h
    exact ⟨(pow2Le_iff _ n d hd).1 h, hup⟩
  · rename_i h
    have h' : ¬ (2 : ℚ) ^ ((log2Floor n n : Int) - (log2Floor d d : Int)) ≤ (n : ℚ) / d :=
      fun hc => h ((pow2Le_iff _ n d hd).2 hc)
    refine ⟨hlo, ?_⟩
    rw [sub_add_cancel]
    exact lt_of_not_le h'

/-- The rounded quotient is within a half of the quotient. -/
theorem roundHalfEven_spec (n d : Nat) (hd : 0 < d) :
    |(roundHalfEven n d : ℚ) - (n : ℚ) / d| ≤ 1 / 2 := by
  have hdq : (0 : ℚ) < d := by exact_mod_cast hd
  have hdiv : (n : ℚ) / d = (n / d : Nat) + ((n % d : Nat) : ℚ) / d := by
    have h2 : ((d * (n / d) + n % d : Nat) : ℚ) = n := by
      exact_mod_cast Nat.div_add_mod n d
    push_cast at h2
    field_simp
    linarith
  have hr : ((n % d : Nat) : ℚ) / d < 1 := by
    rw [div_lt_one hdq]; exact_mod_cast Nat.mod_lt n hd
  have hr0 : 0 ≤ ((n % d : Nat) : ℚ) / d := by positivity
  unfold roundHalfEven
  split
  · rename_i h
    have : ((n % d : Nat) : ℚ) / d ≤ 1 / 2 := by
      rw [div_le_iff₀ hdq]
      have : ((2 * (n % d) : Nat) : ℚ) < d := by exact_mod_cast h
      push_cast at this; linarith
    rw [hdiv, abs_le]; constructor <;> linarith
  · rename_i h
    have hge : 1 / 2 ≤ ((n % d : Nat) : ℚ) / d := by
      rw [le_div_iff₀ hdq]
      have : (d : ℚ) ≤ ((2 * (n % d) : Nat) : ℚ) := by exact_mod_cast Nat.le_of_not_lt h
      push_cast at this; linarith
    split
    · rw [hdiv, abs_le]; push_cast; constructor <;> linarith
    · rename_i h'
      have hle : ((n % d : Nat) : ℚ) / d ≤ 1 / 2 := by
        rw [div_le_iff₀ hdq]
        have : ((2 * (n % d) : Nat) : ℚ) ≤ d := by exact_mod_cast Nat.le_of_not_lt h'
        push_cast at this; linarith
      split
      · rw [hdiv, abs_le]; constructor <;> linarith
      · rw [hdiv, abs_le]; push_cast; constructor <;> linarith

/-- The scaled significand, read in the rationals. -/
theorem scale2_eq (m : Int) (e : Int) : scale2 m e = (m : ℚ) * (2 : ℚ) ^ e := by
  unfold scale2
  split
  · rename_i h
    obtain ⟨k, rfl⟩ := Int.eq_ofNat_of_zero_le h
    simp [zpow_natCast]
  · rename_i h
    obtain ⟨k, hk⟩ := Int.eq_ofNat_of_zero_le (show 0 ≤ -e by omega)
    have he : e = -(k : Int) := by omega
    subst he
    simp only [neg_neg, Int.toNat_ofNat, zpow_neg, zpow_natCast]
    rw [Rat.mkRat_eq_div]
    push_cast
    rw [div_eq_mul_inv]


/-- A whole number rounds to itself. -/
theorem roundHalfEven_one (n : Nat) : roundHalfEven n 1 = n := by
  simp [roundHalfEven, Nat.mod_one]

/-- A whole number below `2 ^ 53` is a binary64 number: rounding keeps it. -/
theorem roundBinary64_natCast (k : Nat) (hk : k < 2 ^ 53) : roundBinary64 (k : ℚ) = .fin k := by
  rcases Nat.eq_zero_or_pos k with rfl | hpos
  · simp [roundBinary64]
  · have hkq : (k : ℚ) ≠ 0 := by exact_mod_cast hpos.ne'
    obtain ⟨b1, b2⟩ := binade_spec k 1 hpos Nat.one_pos
    simp only [Nat.cast_one, div_one] at b1 b2
    have h0 : 0 ≤ binade k 1 := by
      by_contra hneg
      have h1 : binade k 1 + 1 ≤ 0 := by omega
      have : (2 : ℚ) ^ (binade k 1 + 1) ≤ (2 : ℚ) ^ (0 : Int) :=
        zpow_le_zpow_right₀ (by norm_num) h1
      have hk1 : (1 : ℚ) ≤ k := by exact_mod_cast hpos
      simp at this
      linarith
    have h52 : binade k 1 ≤ 52 := by
      by_contra hbig
      have h1 : (53 : Int) ≤ binade k 1 := by omega
      have : (2 : ℚ) ^ (53 : Int) ≤ (2 : ℚ) ^ binade k 1 :=
        zpow_le_zpow_right₀ (by norm_num) h1
      have hk2 : (k : ℚ) < (2 : ℚ) ^ (53 : Int) := by
        rw [zpow_ofNat]; exact_mod_cast hk
      linarith
    obtain ⟨j, hj⟩ := Int.eq_ofNat_of_zero_le (show 0 ≤ 52 - binade k 1 by omega)
    have hmax : max (binade k 1) (-1022) = binade k 1 := max_eq_left (by omega)
    unfold roundBinary64
    rw [if_neg hkq]
    simp only [Rat.num_natCast, Int.natAbs_ofNat, Rat.den_natCast, hmax, if_pos h52,
      roundHalfEven_one]
    rw [if_neg (by omega), if_neg (by simp), scale2_eq, hj]
    simp only [Int.toNat_ofNat]
    have he : binade k 1 - 52 = -(j : Int) := by omega
    rw [he, zpow_neg, zpow_natCast]
    push_cast
    field_simp

/-- In the range of the normal binary64 numbers rounding gives a finite number
within the relative error `2 ^ -53` of the exact value. -/
theorem roundBinary64_near (q : ℚ) (hlo : (2 : ℚ) ^ (-1022 : Int) ≤ q)
    (hhi : q < (2 : ℚ) ^ (1023 : Int)) :
    ∃ r, roundBinary64 q = .fin r ∧ |r - q| ≤ q * (2 : ℚ) ^ (-53 : Int) := by
  have hq : 0 < q := lt_of_lt_of_le (by positivity) hlo
  have hnum : 0 < q.num := Rat.num_pos.2 hq
  have hd : 0 < q.den := q.den_pos
  have hn : 0 < q.num.natAbs := Int.natAbs_pos.2 hnum.ne'
  have hcast : ((q.num.natAbs : Nat) : ℚ) = (q.num : ℚ) := by
    rw [Nat.cast_natAbs, abs_of_pos hnum]
  have hnd : ((q.num.natAbs : Nat) : ℚ) / (q.den : ℚ) = q := by
    rw [hcast]; exact Rat.num_div_den q
  obtain ⟨b1, b2⟩ := binade_spec q.num.natAbs q.den hn hd
  rw [hnd] at b1 b2
  have h12 : (1 : ℚ) ≤ 2 := by norm_num
  have h20 : (2 : ℚ) ≠ 0 := by norm_num
  have he_lo : -1022 ≤ binade q.num.natAbs q.den := by
    by_contra hneg
    have h1 : binade q.num.natAbs q.den + 1 ≤ -1022 := by omega
    have := zpow_le_zpow_right₀ h12 h1
    linarith
  have he_hi : binade q.num.natAbs q.den ≤ 1022 := by
    by_contra hbig
    have h1 : (1023 : Int) ≤ binade q.num.natAbs q.den := by omega
    have := zpow_le_zpow_right₀ h12 h1
    linarith
  have hmax : max (binade q.num.natAbs q.den) (-1022) = binade q.num.natAbs q.den :=
    max_eq_left he_lo
  have hm : ∀ m : Nat, m = (if binade q.num.natAbs q.den ≤ 52 then
        roundHalfEven (q.num.natAbs * 2 ^ (52 - binade q.num.natAbs q.den).toNat) q.den
      else roundHalfEven q.num.natAbs
        (q.den * 2 ^ (binade q.num.natAbs q.den - 52).toNat)) →
      abs ((m : ℚ) - q * (2 : ℚ) ^ (52 - binade q.num.natAbs q.den)) ≤ 1 / 2 := by
    intro m hmdef
    by_cases h52 : binade q.num.natAbs q.den ≤ 52
    · rw [if_pos h52] at hmdef
      obtain ⟨j, hj⟩ := Int.eq_ofNat_of_zero_le (show 0 ≤ 52 - binade q.num.natAbs q.den by omega)
      have := roundHalfEven_spec (q.num.natAbs * 2 ^ (52 - binade q.num.natAbs q.den).toNat)
        q.den hd
      rw [← hmdef, hj] at this
      rw [hj]
      simp only [Int.toNat_ofNat, Nat.cast_mul, Nat.cast_pow, Nat.cast_ofNat] at this
      rw [mul_div_right_comm, hnd] at this
      rw [zpow_natCast]
      exact this
    · rw [if_neg h52] at hmdef
      obtain ⟨j, hj⟩ := Int.eq_ofNat_of_zero_le (show 0 ≤ binade q.num.natAbs q.den - 52 by omega)
      have := roundHalfEven_spec q.num.natAbs
        (q.den * 2 ^ (binade q.num.natAbs q.den - 52).toNat) (by positivity)
      have he : 52 - binade q.num.natAbs q.den = -(j : Int) := by omega
      rw [← hmdef, hj] at this
      rw [he]
      simp only [Int.toNat_ofNat, Nat.cast_mul, Nat.cast_pow, Nat.cast_ofNat] at this
      rw [← div_div, hnd] at this
      rw [zpow_neg, zpow_natCast, ← div_eq_mul_inv]
      exact this
  unfold roundBinary64
  rw [if_neg hq.ne']
  simp only [hmax]
  rw [if_neg (by rintro (h | ⟨h, _⟩) <;> omega), if_neg (not_lt.2 hq.le)]
  refine ⟨_, rfl, ?_⟩
  rw [scale2_eq]
  have hm := hm _ rfl
  generalize (if binade q.num.natAbs q.den ≤ 52 then
        roundHalfEven (q.num.natAbs * 2 ^ (52 - binade q.num.natAbs q.den).toNat) q.den
      else roundHalfEven q.num.natAbs
        (q.den * 2 ^ (binade q.num.natAbs q.den - 52).toNat)) = m at hm ⊢
  generalize binade q.num.natAbs q.den = e at b1 b2 hm ⊢
  have hsplit : (2 : ℚ) ^ (52 - e) * (2 : ℚ) ^ (e - 52) = 1 := by
    rw [← zpow_add₀ h20]; simp
  have hpos : (0 : ℚ) < (2 : ℚ) ^ (e - 52) := by positivity
  have hkey : (((m : Int) : ℚ)) * (2 : ℚ) ^ (e - 52) - q
      = ((m : ℚ) - q * (2 : ℚ) ^ (52 - e)) * (2 : ℚ) ^ (e - 52) := by
    rw [sub_mul, mul_assoc, hsplit, mul_one]; simp
  rw [hkey, abs_mul, abs_of_pos hpos]
  have hhalf : (1 / 2 : ℚ) * (2 : ℚ) ^ (e - 52) = (2 : ℚ) ^ e * (2 : ℚ) ^ (-53 : Int) := by
    rw [← zpow_add₀ h20]
    have : e - 52 = (e + -53) + 1 := by ring
    rw [this, zpow_add_one₀ h20]; ring
  calc |(m : ℚ) - q * (2 : ℚ) ^ (52 - e)| * (2 : ℚ) ^ (e - 52)
      ≤ (1 / 2) * (2 : ℚ) ^ (e - 52) := mul_le_mul_of_nonneg_right hm hpos.le
    _ = (2 : ℚ) ^ e * (2 : ℚ) ^ (-53 : Int) := hhalf
    _ ≤ q * (2 : ℚ) ^ (-53 : Int) := mul_le_mul_of_nonneg_right b1 (by positivity)

end Binary64

/-! ## The average rating -/

section AverageRating

/-- The sum of whole ratings from 1 to 5 is a whole number between the number
of ratings and five times that. -/
theorem rating_sum_whole (l : List Review)
    (hwhole : ∀ x ∈ l, ∃ k : Nat, 1 ≤ k ∧ k ≤ 5 ∧ x.rating = k) :
    ∃ K : Nat, (l.map (fun r => r.rating)).sum = K ∧ l.length ≤ K ∧ K ≤ 5 * l.length := by
  induction l with
  | nil => exact ⟨0, by simp, by simp, by simp⟩
  | cons x l ih =>
    obtain ⟨K, hK, h1, h2⟩ := ih (fun y hy => hwhole y (List.mem_cons_of_mem _ hy))
    obtain ⟨k, hk1, hk5, hk⟩ := hwhole x (List.mem_cons_self _ _)
    refine ⟨k + K, ?_, ?_, ?_⟩
    · simp only [List.map_cons, List.sum_cons, hK, hk]; push_cast; rfl
    · simp only [List.length_cons]; omega
    · simp only [List.length_cons]; omega

/-- The `reduce` of `getSellerReviews` over whole ratings from 1 to 5, fewer
than `2 ^ 50` of them, is their exact sum: no addition rounds. -/
theorem foldl_rating_exact (l : List Review) (a : Nat)
    (hwhole : ∀ x ∈ l, ∃ k : Nat, 1 ≤ k ∧ k ≤ 5 ∧ x.rating = k)
    (hsum : a + 5 * l.length < 2 ^ 53) :
    l.foldl (fun sum review => JsNum.add sum (.fin review.rating)) (.fin a)
      = .fin (a + (l.map (fun r => r.rating)).sum) := by
  induction l generalizing a with
  | nil => simp
  | cons x l ih =>
    obtain ⟨k, hk1, hk5, hk⟩ := hwhole x (List.mem_cons_self _ _)
    simp only [List.length_cons] at hsum
    have hstep : JsNum.add (.fin a) (.fin x.rating) = .fin ((a + k : Nat) : ℚ) := by
      simp only [JsNum.add, hk]
      rw [← Nat.cast_add]
      exact roundBinary64_natCast (a + k) (by omega)
    simp only [List.foldl_cons, hstep, List.map_cons, List.sum_cons]
    rw [ih (a + k) (fun y hy => hwhole y (List.mem_cons_of_mem _ hy)) (by omega), hk]
    push_cast
    rw [add_assoc]

/-- The store of the fourth sample run is reachable. -/
theorem ratedStore_reachable : Reachable ratedStore := by
  unfold ratedStore
  cases h : runSteps demoServices ratedActions Store.empty with
  | none => exact Reachable.init
  | some t => exact runSteps_reachable Reachable.init h

end AverageRating

/-- C8, as stated, fails: averageRating is not always the arithmetic mean. In
the fourth sample run the seller has three reviews, of ratings 5, 4 and 4; the
mean is 13/3, which is no binary64 number, and getSellerReviews answers with
the quotient of the numbers 13 and 3, 4878899596318037 / 2 ^ 50 (printed
4.333333333333333). -/
theorem average_rating_is_rounded :
    Reachable ratedStore ∧
    (∃ u ∈ ratedStore.users, u.id = 2 ∧ u.role = Role.SELLER) ∧
    ratedStore.reviews.map (fun r => (r.sellerId, r.rating)) = [(2, 5), (2, 4), (2, 4)] ∧
    (∃ r, getSellerReviews 2 ratedStore = .ok r ∧ r.status = 200 ∧
      r.data.reviews.map (fun v => v.review.rating) = [5, 4, 4] ∧
      r.data.averageRating = .fin (4878899596318037 / 2 ^ 50) ∧
      r.data.averageRating ≠ .fin ((5 + 4 + 4) / 3)) := by
  have hfind : ratedStore.users.find? (fun u => decide (u.id = 2 ∧ u.role = Role.SELLER))
      = some demoSeller := by decide
  have hlist : (reviewsOfSeller ratedStore 2).map (fun r => r.rating) = [5, 4, 4] := by decide
  have hlen : (reviewsOfSeller ratedStore 2).length = 3 := by decide
  have hfold : ∀ (l : List Review) (init : JsNum),
      l.foldl (fun sum review => JsNum.add sum (.fin review.rating)) init
        = (l.map (fun r => r.rating)).foldl (fun sum q => JsNum.add sum (.fin q)) init := by
    intro l
    induction l with
    | nil => intro init; rfl
    | cons x l ih => intro init; simp only [List.foldl_cons, List.map_cons, ih]
  have h5 : roundBinary64 (0 + 5) = .fin 5 := by
    rw [zero_add]; decide
  have h9 : roundBinary64 (5 + 4) = .fin 9 := by
    have : (5 + 4 : ℚ) = 9 := by norm_num
    rw [this]; decide
  have h13 : roundBinary64 (9 + 4) = .fin 13 := by
    have : (9 + 4 : ℚ) = 13 := by norm_num
    rw [this]; decide
  have hq : roundBinary64 (13 / ((3 : Nat) : ℚ)) = .fin (4878899596318037 / 2 ^ 50) := by
    have e1 : (13 / ((3 : Nat) : ℚ)) = mkRat 13 3 := by
      rw [Rat.mkRat_eq_div]; norm_num
    have e2 : (4878899596318037 / 2 ^ 50 : ℚ) = mkRat 4878899596318037 (2 ^ 50) := by
      rw [Rat.mkRat_eq_div]; norm_num
    rw [e1, e2]; decide
  have havg : (if (reviewsOfSeller ratedStore 2).length > 0 then
        JsNum.div ((reviewsOfSeller ratedStore 2).foldl
          (fun sum review => JsNum.add sum (.fin review.rating)) (.fin 0))
          (.fin (reviewsOfSeller ratedStore 2).length)
      else .fin 0) = .fin (4878899596318037 / 2 ^ 50) := by
    rw [hfold, hlist, hlen, if_pos (by decide)]
    simp only [List.foldl_cons, List.foldl_nil, JsNum.add, h5, h9, h13, JsNum.div]
    rw [if_neg (by norm_num), hq]
  refine ⟨ratedStore_reachable, ⟨demoSeller, by decide, rfl, rfl⟩, by decide, ?_⟩
  refine ⟨_, by unfold getSellerReviews; rw [hfind], rfl, ?_, ?_, ?_⟩
  · simpa [List.map_map, Function.comp_def] using hlist
  · exact havg
  · show (if (reviewsOfSeller ratedStore 2).length > 0 then
        JsNum.div ((reviewsOfSeller ratedStore 2).foldl
          (fun sum review => JsNum.add sum (.fin review.rating)) (.fin 0))
          (.fin (reviewsOfSeller ratedStore 2).length)
      else .fin 0) ≠ _
    rw [havg]
    intro h
    have := JsNum.fin.inj h
    norm_num at this

/-- C8, amended: for an existing seller getSellerReviews answers 200 with
exactly the reviews of the store whose sellerId is that seller (each once), and
averageRating is the number quotient of the sum of their ratings, added up as
numbers, by their count, or 0 when there is none; with a single review of
rating 5 it returns one review and averageRating 5. When the ratings are whole
numbers from 1 to 5, fewer than 2 ^ 50 of them, no addition rounds and
averageRating is the arithmetic mean rounded to binary64: a finite number
within the relative error 2 ^ -53 of the mean, and the mean itself when the
mean is a whole number. -/
theorem seller_average_rating (s : Store) (sellerId : Id)
    (hseller : ∃ u ∈ s.users, u.id = sellerId ∧ u.role = Role.SELLER) :
    ∃ r, getSellerReviews sellerId s = .ok r ∧ r.status = 200 ∧
      (r.data.reviews.map (fun v => v.review)).Perm
        (s.reviews.filter (fun x => decide (x.sellerId = sellerId))) ∧
      r.data.averageRating =
        (if r.data.reviews.length = 0 then .fin 0
         else JsNum.div
          ((r.data.reviews.map (fun v => v.review.rating)).foldl
            (fun sum rating => JsNum.add sum (.fin rating)) (.fin 0))
          (.fin r.data.reviews.length)) ∧
      (s.reviews.filter (fun x => decide (x.sellerId = sellerId)) = [] →
        r.data.reviews = [] ∧ r.data.averageRating = .fin 0) ∧
      (∀ x, s.reviews.filter (fun x => decide (x.sellerId = sellerId)) = [x] →
        x.rating = 5 → r.data.reviews.length = 1 ∧ r.data.averageRating = .fin 5) ∧
      ((∀ x ∈ s.reviews, x.sellerId = sellerId → ∃ k : Nat, 1 ≤ k ∧ k ≤ 5 ∧ x.rating = k) →
        r.data.reviews ≠ [] → r.data.reviews.length < 2 ^ 50 →
        r.data.averageRating = roundBinary64
          ((r.data.reviews.map (fun v => v.review.rating)).sum / r.data.reviews.length) ∧
        (∃ v, r.data.averageRating = .fin v ∧
          abs (v - (r.data.reviews.map (fun v => v.review.rating)).sum / r.data.reviews.length)
            ≤ (r.data.reviews.map (fun v => v.review.rating)).sum / r.data.reviews.length
              * (2 : ℚ) ^ (-53 : Int)) ∧
        (∀ j : Nat,
          (r.data.reviews.map (fun v => v.review.rating)).sum / r.data.reviews.length = j →
          r.data.averageRating = .fin j)) := by
  obtain ⟨u, hu, hid, hrole⟩ := hseller
  have hfind : ∃ v, s.users.find? (fun u => decide (u.id = sellerId ∧ u.role = Role.SELLER))
      = some v := by
    cases h : s.users.find? (fun u => decide (u.id = sellerId ∧ u.role = Role.SELLER)) with
    | none =>
      have := List.find?_eq_none.1 h u hu
      simp [hid, hrole] at this
    | some v => exact ⟨v, rfl⟩
  obtain ⟨v, hv⟩ := hfind
  have hperm : (reviewsOfSeller s sellerId).Perm
      (s.reviews.filter (fun x => decide (x.sellerId = sellerId))) :=
    List.perm_insertionSort _ _
  generalize hL : reviewsOfSeller s sellerId = L at hperm
  have hfold : ∀ (l : List Review) (init : JsNum),
      l.foldl (fun sum review => JsNum.add sum (.fin review.rating)) init
        = (l.map (fun r => r.rating)).foldl (fun sum q => JsNum.add sum (.fin q)) init := by
    intro l
    induction l with
    | nil => intro init; rfl
    | cons x l ih => intro init; simp only [List.foldl_cons, List.map_cons, ih]
  -- the answer
  have hans : getSellerReviews sellerId s = .ok ⟨200,
      ⟨L.map (fun r => ⟨r, (s.findUser r.buyerId).map (fun u => (u.id, u.name)),
          (s.findProject r.projectId).map (fun p => (p.id, p.title))⟩),
        if L.length > 0 then
          JsNum.div (L.foldl (fun sum review => JsNum.add sum (.fin review.rating)) (.fin 0))
            (.fin L.length)
        else .fin 0⟩⟩ := by
    unfold getSellerReviews
    rw [hv, hL]
  have hmap : (L.map (fun r => (⟨r, (s.findUser r.buyerId).map (fun u => (u.id, u.name)),
      (s.findProject r.projectId).map (fun p => (p.id, p.title))⟩ : ReviewView))).map
      (fun v => v.review) = L := by
    simp [List.map_map, Function.comp_def]
  have hmapr : (L.map (fun r => (⟨r, (s.findUser r.buyerId).map (fun u => (u.id, u.name)),
      (s.findProject r.projectId).map (fun p => (p.id, p.title))⟩ : ReviewView))).map
      (fun v => v.review.rating) = L.map (fun r => r.rating) := by
    simp [List.map_map, Function.comp_def]
  refine ⟨_, hans, rfl, ?_, ?_, ?_, ?_, ?_⟩
  · rw [hmap]; exact hperm
  · simp only [hmapr, List.length_map]
    by_cases h0 : L.length = 0
    · rw [if_pos h0, if_neg (by omega)]
    · rw [if_neg h0, if_pos (Nat.pos_of_ne_zero h0), hfold]
  · intro hnil
    have hl : L = [] := by
      rw [hnil] at hperm
      exact List.perm_nil.1 hperm
    subst hl
    exact ⟨rfl, rfl⟩
  · intro x hx h5
    have hl : L = [x] := by
      rw [hx] at hperm
      exact List.perm_singleton.1 hperm
    subst hl
    refine ⟨rfl, ?_⟩
    have e5 : roundBinary64 (0 + 5) = .fin 5 := by
      rw [zero_add]; decide
    have e1 : roundBinary64 (5 / ((1 : Nat) : ℚ)) = .fin 5 := by
      rw [Nat.cast_one, div_one]; decide
    simp only [List.length_singleton, List.foldl_cons, List.foldl_nil, JsNum.add, h5, e5,
      JsNum.div, gt_iff_lt, Nat.lt_one_iff, Nat.pos_of_ne_zero, if_true, Nat.one_pos]
    rw [if_neg (by norm_num), e1]
  · intro hwhole hne hlen
    simp only [hmapr, List.length_map] at hlen ⊢
    have hLne : L ≠ [] := by
      intro h; apply hne; rw [h]; rfl
    have hpos : 0 < L.length := List.length_pos.2 hLne
    have hwholeL : ∀ x ∈ L, ∃ k : Nat, 1 ≤ k ∧ k ≤ 5 ∧ x.rating = k := by
      intro x hx
      have := (hperm.mem_iff).1 hx
      simp only [List.mem_filter, decide_eq_true_eq] at this
      exact hwhole x this.1 this.2
    obtain ⟨K, hK, hK1, hK5⟩ := rating_sum_whole L hwholeL
    have hexact := foldl_rating_exact L 0 hwholeL (by omega)
    simp only [Nat.cast_zero, zero_add] at hexact
    have hlq : ((L.length : Nat) : ℚ) ≠ 0 := by exact_mod_cast hpos.ne'
    have hlpos : (0 : ℚ) < (L.length : ℚ) := by exact_mod_cast hpos
    have havg : (if L.length > 0 then
          JsNum.div (L.foldl (fun sum review => JsNum.add sum (.fin review.rating)) (.fin 0))
            (.fin L.length)
        else .fin 0) = roundBinary64 ((L.map (fun r => r.rating)).sum / L.length) := by
      rw [if_pos hpos, hexact]
      simp only [JsNum.div]
      rw [if_neg hlq]
    have hmean1 : (1 : ℚ) ≤ (L.map (fun r => r.rating)).sum / L.length := by
      rw [hK, le_div_iff₀ hlpos, one_mul]
      exact_mod_cast hK1
    have hmean5 : (L.map (fun r => r.rating)).sum / L.length ≤ (5 : ℚ) := by
      rw [hK, div_le_iff₀ hlpos]
      exact_mod_cast hK5
    refine ⟨havg, ?_, ?_⟩
    · have hlo : (2 : ℚ) ^ (-1022 : Int) ≤ (L.map (fun r => r.rating)).sum / L.length := by
        refine le_trans ?_ hmean1
        exact zpow_le_one_of_nonpos₀ (by norm_num) (by norm_num)
      have hhi : (L.map (fun r => r.rating)).sum / L.length < (2 : ℚ) ^ (1023 : Int) := by
        refine lt_of_le_of_lt hmean5 ?_
        have : (2 : ℚ) ^ (3 : Int) ≤ (2 : ℚ) ^ (1023 : Int) :=
          zpow_le_zpow_right₀ (by norm_num) (by norm_num)
        have h8 : (2 : ℚ) ^ (3 : Int) = 8 := by norm_num
        linarith
      obtain ⟨w, hw, hbound⟩ := roundBinary64_near _ hlo hhi
      exact ⟨w, by rw [havg, hw], hbound⟩
    · intro j hj
      have hj5 : j ≤ 5 := by
        have : (j : ℚ) ≤ 5 := by rw [← hj]; exact hmean5
        exact_mod_cast this
      rw [havg, hj]
      exact roundBinary64_natCast j (by omega)

/-- C8, amended, in the fourth sample run: the seller has three reviews, of
ratings 5, 4 and 4, whole numbers from 1 to 5. -/
theorem seller_average_rating_witness :
    (∃ u ∈ ratedStore.users, u.id = 2 ∧ u.role = Role.SELLER) ∧
    ratedStore.reviews.map (fun r => (r.sellerId, r.rating)) = [(2, 5), (2, 4), (2, 4)] ∧
    (∀ x ∈ ratedStore.reviews, x.sellerId = 2 → ∃ k : Nat, 1 ≤ k ∧ k ≤ 5 ∧ x.rating = k) ∧
    ∃ r, getSellerReviews 2 ratedStore = .ok r ∧ r.status = 200 ∧
      (r.data.reviews.map (fun v => v.review)).Perm
        (ratedStore.reviews.filter (fun x => decide (x.sellerId = 2))) ∧
      r.data.averageRating =
        (if r.data.reviews.length = 0 then .fin 0
         else JsNum.div
          ((r.data.reviews.map (fun v => v.review.rating)).foldl
            (fun sum rating => JsNum.add sum (.fin rating)) (.fin 0))
          (.fin r.data.reviews.length)) ∧
      (ratedStore.reviews.filter (fun x => decide (x.sellerId = 2)) = [] →
        r.data.reviews = [] ∧ r.data.averageRating = .fin 0) ∧
      (∀ x, ratedStore.reviews.filter (fun x => decide (x.sellerId = 2)) = [x] →
        x.rating = 5 → r.data.reviews.length = 1 ∧ r.data.averageRating = .fin 5) ∧
      ((∀ x ∈ ratedStore.reviews, x.sellerId = 2 →
          ∃ k : Nat, 1 ≤ k ∧ k ≤ 5 ∧ x.rating = k) →
        r.data.reviews ≠ [] → r.data.reviews.length < 2 ^ 50 →
        r.data.averageRating = roundBinary64
          ((r.data.reviews.map (fun v => v.review.rating)).sum / r.data.reviews.length) ∧
        (∃ v, r.data.averageRating = .fin v ∧
          abs (v - (r.data.reviews.map (fun v => v.review.rating)).sum / r.data.reviews.length)
            ≤ (r.data.reviews.map (fun v => v.review.rating)).sum / r.data.reviews.length
              * (2 : ℚ) ^ (-53 : Int)) ∧
        (∀ j : Nat,
          (r.data.reviews.map (fun v => v.review.rating)).sum / r.data.reviews.length = j →
          r.data.averageRating = .fin j)) :=
  have hwhole : ∀ x ∈ ratedStore.reviews,
      x.rating = ((4 : Nat) : ℚ) ∨ x.rating = ((5 : Nat) : ℚ) := by
    decide
  ⟨⟨demoSeller, by decide, rfl, rfl⟩, by decide,
    fun x hx _ => (hwhole x hx).elim (fun h => ⟨4, by decide, by decide, h⟩)
      (fun h => ⟨5, by decide, by decide, h⟩),
    seller_average_rating ratedStore 2 ⟨demoSeller, by decide, rfl, rfl⟩⟩

end Marketplace
